import Mathlib

/-!
# Indicator cache of the trading-strategy optimizer

A shallow embedding of `src/src/indicators.cpp` (class `IndicatorCache`).

* A `double` is idealised as an exact rational number; a value of type `double`
  lies between `-DBL_MAX` and `DBL_MAX`.
* A `std::vector<double>` is a list of rationals.  Every `v[i]` of the source is a
  checked access here (`rd`, `wr`): an index outside the vector makes the whole
  call return `none`.
* The eight `std::unordered_map`s of the class are association lists; a call is a
  function from the cache before the call to the returned series and the cache
  after the call.  The mutex is not modelled (one thread).
* `std::sqrt` is a parameter of the two Bollinger operations.
-/

namespace TSO

/-! ## Vectors, checked accesses and loops -/

/-- A `std::vector<double>`. -/
abbrev Vec := List ℚ

/-- The constructor `std::vector<double> v(n, 0.0)`. -/
def zeros (n : Nat) : Vec := List.replicate n 0

/-- The constant `std::numeric_limits<double>::max()`; the constant
`std::numeric_limits<double>::lowest()` is its negation. -/
def DBL_MAX : ℚ := 2 ^ 1024 - 2 ^ 971

/-- Every element of the series is a finite `double`. -/
def FiniteSeries (v : Vec) : Prop := ∀ x ∈ v, -DBL_MAX ≤ x ∧ x ≤ DBL_MAX

/-- The read `v[i]`, `none` outside the bounds of `v`. -/
def rd (v : Vec) (i : Int) : Option ℚ :=
  if 0 ≤ i then v[i.toNat]? else none

/-- The write `v[i] = x`, `none` outside the bounds of `v`. -/
def wr (v : Vec) (i : Int) (x : ℚ) : Option Vec :=
  if 0 ≤ i ∧ i.toNat < v.length then some (v.set i.toNat x) else none

/-- Runs `body i`, `body (i+1)`, ... `n` times, threading the loop state. -/
def loopM {σ : Type} (body : Int → σ → Option σ) : Nat → Int → σ → Option σ
  | 0, _, s => some s
  | n + 1, i, s => (body i s).bind (loopM body n (i + 1))

/-- The loop `for (i = lo; i < hi; ++i)` whose test is a signed comparison. -/
def forS {σ : Type} (lo hi : Int) (body : Int → σ → Option σ) (s : σ) : Option σ :=
  loopM body (hi - lo).toNat lo s

/-- The loop `for (i = lo; i < v.size(); ++i)`, whose test is an unsigned
comparison: a negative `lo` converts to a value above every size, and the body
never runs. -/
def forU {σ : Type} (lo hi : Int) (body : Int → σ → Option σ) (s : σ) : Option σ :=
  if 0 ≤ lo then loopM body (hi - lo).toNat lo s else some s

/-! ## The cache maps -/

/-- The lookup `m.find(k)` of a `std::unordered_map`. -/
def mapFind {κ : Type} [DecidableEq κ] (m : List (κ × Vec)) (k : κ) : Option Vec :=
  match m with
  | [] => none
  | (k', v) :: rest => if k' = k then some v else mapFind rest k

/-- The assignment `m[k] = v` of a `std::unordered_map`. -/
def mapSet {κ : Type} [DecidableEq κ] (m : List (κ × Vec)) (k : κ) (v : Vec) :
    List (κ × Vec) :=
  (k, v) :: m.filter (fun p => decide (p.1 ≠ k))

/-- The data members of `class IndicatorCache`. -/
structure IndicatorCache where
  var_cache : List (Int × Vec)
  ott_cache : List ((Int × ℚ) × Vec)
  indicator_cache : List (String × Vec)
  abs_change_cache : List (Int × Vec)
  sum_abs_changes_cache : List (Int × Vec)
  highest_cache : List (Int × Vec)
  lowest_cache : List (Int × Vec)
  atr_cache : List (Int × Vec)
deriving DecidableEq

/-- A freshly constructed `IndicatorCache`: every map is empty. -/
def emptyCache : IndicatorCache :=
  { var_cache := [], ott_cache := [], indicator_cache := [], abs_change_cache := [],
    sum_abs_changes_cache := [], highest_cache := [], lowest_cache := [], atr_cache := [] }

/-- The six digits after the point in the `%f` rendering. -/
def sixDigits (n : Nat) : String :=
  let s := toString n
  String.mk (List.replicate (6 - s.length) '0') ++ s

/-- The call `std::to_string(double)`: the `%f` rendering, six digits after the
point, the exact value rounded to the nearest, ties to even. -/
def to_string_double (x : ℚ) : String :=
  let y : ℚ := |x| * 1000000
  let f : Int := Rat.floor y
  let r : ℚ := y - f
  let n : Nat := (if r < 1 / 2 then f else if 1 / 2 < r then f + 1
    else if f % 2 = 0 then f else f + 1).toNat
  (if x < 0 then "-" else "") ++ toString (n / 1000000) ++ "." ++ sixDigits (n % 1000000)

/-! ## OTT -/

/-- The loop state of `getOTT`: the vectors `result`, `c`, `d`, `e`, `h`. -/
structure OttState where
  result : Vec
  c : Vec
  d : Vec
  e : Vec
  h : Vec

/-- One iteration of the loop of `getOTT` (indicators.cpp, lines 180-203). -/
def ottBody (data : Vec) (a : ℚ) (i : Int) (s : OttState) : Option OttState := do
  let x ← rd data i
  let b := x * a
  let s1 ← (if i = 0 then do
      let c ← wr s.c i (x - b)
      let d ← wr s.d i (x + b)
      let e ← wr s.e i 0
      some { s with c := c, d := d, e := e }
    else do
      let cp ← rd s.c (i - 1)
      let c ← wr s.c i (if x - b > cp ∨ x < cp then x - b else cp)
      let dp ← rd s.d (i - 1)
      let d ← wr s.d i (if x + b < dp ∨ x > dp then x + b else dp)
      let ep ← rd s.e (i - 1)
      let ci ← rd c i
      let di ← rd d i
      let e ← wr s.e i (if x > ep then ci else if x < ep then di else ep)
      some { s with c := c, d := d, e := e })
  let f := 1 + a / 2
  let g := 1 - a / 2
  let ei ← rd s1.e i
  let h ← wr s1.h i (if x > ei then ei * f else ei * g)
  let result ← (if i ≥ 2 then do
      let h2 ← rd h (i - 2)
      wr s1.result i h2
    else wr s1.result i 0)
  some { s1 with h := h, result := result }

/-- The computation of `getOTT` on a cache miss (indicators.cpp, lines 172-203). -/
def ottCompute (data : Vec) (multiplier : ℚ) : Option Vec :=
  let n := data.length
  let a := multiplier / 100
  (forU 0 n (ottBody data a)
    { result := zeros n, c := zeros n, d := zeros n, e := zeros n, h := zeros n }).map
    (fun s => s.result)

/-- The method `IndicatorCache::getOTT`: the key is the pair of `data.size()` and
the multiplier. -/
def getOTT (data : Vec) (multiplier : ℚ) (s : IndicatorCache) :
    Option (Vec × IndicatorCache) :=
  let key : Int × ℚ := ((data.length : Int), multiplier)
  match mapFind s.ott_cache key with
  | some v => some (v, s)
  | none =>
    (ottCompute data multiplier).map
      (fun result => (result, { s with ott_cache := mapSet s.ott_cache key result }))

/-! ## Absolute change and rolling sum of absolute changes -/

/-- The computation of `getAbsChange` on a cache miss (indicators.cpp, lines 222-226). -/
def absChangeCompute (data : Vec) (period : Int) : Option Vec :=
  forU period data.length (fun i result => do
    let x ← rd data i
    let y ← rd data (i - period)
    wr result i |x - y|) (zeros data.length)

/-- The method `IndicatorCache::getAbsChange`: the key is the period. -/
def getAbsChange (data : Vec) (period : Int) (s : IndicatorCache) :
    Option (Vec × IndicatorCache) :=
  match mapFind s.abs_change_cache period with
  | some v => some (v, s)
  | none =>
    (absChangeCompute data period).map
      (fun result =>
        (result, { s with abs_change_cache := mapSet s.abs_change_cache period result }))

/-- The first loop of `getSumAbsChanges` (indicators.cpp, lines 246-250): the
absolute one-step changes. -/
def absChanges (data : Vec) : Option Vec :=
  forU 1 data.length (fun i changes => do
    let x ← rd data i
    let y ← rd data (i - 1)
    wr changes i |x - y|) (zeros data.length)

/-- The second loop of `getSumAbsChanges` (indicators.cpp, lines 252-259): the
state is `sum`, `result`; in `i >= period` the period is converted to an unsigned
value. -/
def rollingSum (changes : Vec) (period : Int) (n : Nat) : Option (ℚ × Vec) :=
  forU 0 n (fun i (p : ℚ × Vec) => do
    let ci ← rd changes i
    let sum := p.1 + ci
    let sum ← (if 0 ≤ period ∧ i ≥ period then do
        let cp ← rd changes (i - period)
        some (sum - cp)
      else some sum)
    let result ← wr p.2 i sum
    some (sum, result)) (0, zeros n)

/-- The computation of `getSumAbsChanges` on a cache miss (indicators.cpp, lines
245-259). -/
def sumAbsChangesCompute (data : Vec) (period : Int) : Option Vec := do
  let changes ← absChanges data
  let p ← rollingSum changes period data.length
  some p.2

/-- The method `IndicatorCache::getSumAbsChanges`: the key is the period. -/
def getSumAbsChanges (data : Vec) (period : Int) (s : IndicatorCache) :
    Option (Vec × IndicatorCache) :=
  match mapFind s.sum_abs_changes_cache period with
  | some v => some (v, s)
  | none =>
    (sumAbsChangesCompute data period).map
      (fun result =>
        (result, { s with sum_abs_changes_cache := mapSet s.sum_abs_changes_cache period result }))

/-! ## VIDYA -/

/-- The efficiency-ratio loop of `getVAR` (indicators.cpp, lines 131-138). -/
def efficiencyRatioCompute (n : Nat) (momentum volatility : Vec) : Option Vec :=
  forU 0 n (fun i er => do
    let vol ← rd volatility i
    if vol ≠ 0 then do
      let mom ← rd momentum i
      wr er i (mom / vol)
    else wr er i 0) (zeros n)

/-- The VIDYA loop of `getVAR` (indicators.cpp, lines 141-152). -/
def vidyaLoop (data : Vec) (length : Int) (efficiencyRatio : Vec) : Option Vec :=
  let alpha : ℚ := 2 / ((length : ℚ) + 1)
  forU 0 data.length (fun i result => do
    if i = 0 then do
      let x ← rd data i
      wr result i x
    else if length = 1 then do
      let x ← rd data i
      wr result i x
    else do
      let er ← rd efficiencyRatio i
      let x ← rd data i
      let prev ← rd result (i - 1)
      wr result i (er * alpha * (x - prev) + prev)) (zeros data.length)

/-- The method `IndicatorCache::getVAR`: the key is the length; on a miss the
momentum and the volatility come from `getAbsChange` and `getSumAbsChanges` on the
same cache. -/
def getVAR (data : Vec) (length : Int) (s : IndicatorCache) : Option (Vec × IndicatorCache) :=
  match mapFind s.var_cache length with
  | some v => some (v, s)
  | none => do
    let (momentum, s1) ← getAbsChange data 9 s
    let (volatility, s2) ← getSumAbsChanges data 9 s1
    let efficiencyRatio ← efficiencyRatioCompute data.length momentum volatility
    let result ← vidyaLoop data length efficiencyRatio
    some (result, { s2 with var_cache := mapSet s2.var_cache length result })

/-! ## RSI -/

/-- The first loop of `getRSI` (indicators.cpp, lines 67-76): the state is
`changes`, `gains`, `losses`. -/
def rsiChanges (closes : Vec) : Option (Vec × Vec × Vec) :=
  let n := closes.length
  forU 1 n (fun i (p : Vec × Vec × Vec) => do
    let x ← rd closes i
    let y ← rd closes (i - 1)
    let changes ← wr p.1 i (x - y)
    let ch ← rd changes i
    if ch > 0 then do
      let gains ← wr p.2.1 i ch
      let losses ← wr p.2.2 i 0
      some (changes, gains, losses)
    else do
      let gains ← wr p.2.1 i 0
      let losses ← wr p.2.2 i (-ch)
      some (changes, gains, losses)) (zeros n, zeros n, zeros n)

/-- The seed loop of `getRSI` (indicators.cpp, lines 79-85): the sums of
`gains[i]` and `losses[i]` over `i = 1 .. length`. -/
def rsiSeed (gains losses : Vec) (length : Int) : Option (ℚ × ℚ) :=
  forS 1 (length + 1) (fun i (p : ℚ × ℚ) => do
    let g ← rd gains i
    let l ← rd losses i
    some (p.1 + g, p.2 + l)) (0, 0)

/-- The smoothing loop of `getRSI` (indicators.cpp, lines 91-102): the state is
`avg_gain`, `avg_loss`, `result`. -/
def rsiSmooth (gains losses : Vec) (length : Int) (n : Nat) (init : ℚ × ℚ × Vec) :
    Option (ℚ × ℚ × Vec) :=
  forU (length + 1) n (fun i (p : ℚ × ℚ × Vec) => do
    let g ← rd gains i
    let avg_gain := (p.1 * ((length : ℚ) - 1) + g) / (length : ℚ)
    let l ← rd losses i
    let avg_loss := (p.2.1 * ((length : ℚ) - 1) + l) / (length : ℚ)
    let result ← (if avg_loss = 0 then wr p.2.2 i 100
      else
        let rs := avg_gain / avg_loss
        wr p.2.2 i (100 - 100 / (1 + rs)))
    some (avg_gain, avg_loss, result)) init

/-- The computation of `getRSI` on a cache miss (indicators.cpp, lines 61-102). -/
def rsiCompute (closes : Vec) (length : Int) : Option Vec := do
  let n := closes.length
  let (_, gains, losses) ← rsiChanges closes
  let (sum_gain, sum_loss) ← rsiSeed gains losses length
  let avg_gain := sum_gain / (length : ℚ)
  let avg_loss := sum_loss / (length : ℚ)
  let (_, _, result) ← rsiSmooth gains losses length n (avg_gain, avg_loss, zeros n)
  some result

/-- The method `IndicatorCache::getRSI`: the key is `"rsi_"` and the length. -/
def getRSI (closes : Vec) (length : Int) (s : IndicatorCache) : Option (Vec × IndicatorCache) :=
  let cache_key := "rsi_" ++ toString length
  match mapFind s.indicator_cache cache_key with
  | some v => some (v, s)
  | none =>
    (rsiCompute closes length).map
      (fun result =>
        (result, { s with indicator_cache := mapSet s.indicator_cache cache_key result }))

/-! ## Stochastic %K -/

/-- The inner loop of `getStochastic` (indicators.cpp, lines 24-32): the lowest low
and the highest high over `j = i - k_length + 1 .. i`. -/
def stochWindow (highs lows : Vec) (k_length i : Int) : Option (ℚ × ℚ) :=
  forS (i - k_length + 1) (i + 1) (fun j (p : ℚ × ℚ) =>
    if j ≥ 0 then do
      let l ← rd lows j
      let h ← rd highs j
      some (min p.1 l, max p.2 h)
    else some p) (DBL_MAX, -DBL_MAX)

/-- The computation of `getStochastic` on a cache miss (indicators.cpp, lines 20-40). -/
def stochasticCompute (closes highs lows : Vec) (k_length : Int) : Option Vec :=
  forU k_length closes.length (fun i result => do
    let (lowest_low, highest_high) ← stochWindow highs lows k_length i
    if highest_high - lowest_low > 0 then do
      let c ← rd closes i
      wr result i ((c - lowest_low) / (highest_high - lowest_low) * 100)
    else wr result i 100) (zeros closes.length)

/-- The method `IndicatorCache::getStochastic`: the key is `"stoch_"` and the window. -/
def getStochastic (closes highs lows : Vec) (k_length : Int) (s : IndicatorCache) :
    Option (Vec × IndicatorCache) :=
  let cache_key := "stoch_" ++ toString k_length
  match mapFind s.indicator_cache cache_key with
  | some v => some (v, s)
  | none =>
    (stochasticCompute closes highs lows k_length).map
      (fun result =>
        (result, { s with indicator_cache := mapSet s.indicator_cache cache_key result }))

/-! ## Rolling highest and lowest -/

/-- The computation of `getHighest` on a cache miss (indicators.cpp, lines 278-288). -/
def highestCompute (data : Vec) (period : Int) : Option Vec :=
  forU 0 data.length (fun i result => do
    let highest ← forS (max 0 (i - period + 1)) (i + 1) (fun j (highest : ℚ) => do
      let x ← rd data j
      some (max highest x)) (-DBL_MAX)
    wr result i highest) (zeros data.length)

/-- The method `IndicatorCache::getHighest`: the key is the period. -/
def getHighest (data : Vec) (period : Int) (s : IndicatorCache) :
    Option (Vec × IndicatorCache) :=
  match mapFind s.highest_cache period with
  | some v => some (v, s)
  | none =>
    (highestCompute data period).map
      (fun result => (result, { s with highest_cache := mapSet s.highest_cache period result }))

/-- The computation of `getLowest` on a cache miss (indicators.cpp, lines 307-317). -/
def lowestCompute (data : Vec) (period : Int) : Option Vec :=
  forU 0 data.length (fun i result => do
    let lowest ← forS (max 0 (i - period + 1)) (i + 1) (fun j (lowest : ℚ) => do
      let x ← rd data j
      some (min lowest x)) DBL_MAX
    wr result i lowest) (zeros data.length)

/-- The method `IndicatorCache::getLowest`: the key is the period. -/
def getLowest (data : Vec) (period : Int) (s : IndicatorCache) :
    Option (Vec × IndicatorCache) :=
  match mapFind s.lowest_cache period with
  | some v => some (v, s)
  | none =>
    (lowestCompute data period).map
      (fun result => (result, { s with lowest_cache := mapSet s.lowest_cache period result }))

/-! ## ATR -/

/-- The true-range loop of `getATR` (indicators.cpp, lines 342-347). -/
def trueRange (highs lows closes : Vec) : Option Vec :=
  forU 1 highs.length (fun i tr => do
    let h ← rd highs i
    let l ← rd lows i
    let tr1 := h - l
    let c ← rd closes (i - 1)
    let tr2 := |h - c|
    let tr3 := |l - c|
    wr tr i (max (max tr1 tr2) tr3)) (zeros highs.length)

/-- The seed loop of `getATR` (indicators.cpp, lines 351-354): the sum of
`tr[1], ..., tr[period]`. -/
def atrSeed (tr : Vec) (period : Int) : Option ℚ :=
  forS 1 (period + 1) (fun i (sum : ℚ) => do
    let t ← rd tr i
    some (sum + t)) 0

/-- The smoothing loop of `getATR` (indicators.cpp, lines 358-360). -/
def atrSmooth (tr : Vec) (period : Int) (n : Nat) (result : Vec) : Option Vec :=
  forU (period + 1) n (fun i result => do
    let prev ← rd result (i - 1)
    let t ← rd tr i
    wr result i ((prev * ((period : ℚ) - 1) + t) / (period : ℚ))) result

/-- The computation of `getATR` on a cache miss (indicators.cpp, lines 339-361); in
`highs.size() > period` the period is converted to an unsigned value. -/
def atrCompute (highs lows closes : Vec) (period : Int) : Option Vec := do
  let n := highs.length
  let result := zeros n
  let tr ← trueRange highs lows closes
  if 0 ≤ period ∧ (n : Int) > period then do
    let sum ← atrSeed tr period
    let result ← wr result period (sum / (period : ℚ))
    atrSmooth tr period n result
  else some result

/-- The method `IndicatorCache::getATR`: the key is the period. -/
def getATR (highs lows closes : Vec) (period : Int) (s : IndicatorCache) :
    Option (Vec × IndicatorCache) :=
  match mapFind s.atr_cache period with
  | some v => some (v, s)
  | none =>
    (atrCompute highs lows closes period).map
      (fun result => (result, { s with atr_cache := mapSet s.atr_cache period result }))

/-! ## Bollinger bands -/

/-- The inner loop of `getBBUpper` and of `getBBLower` (indicators.cpp, lines
387-390 and 419-422): the sum of the squared distances to `basis[i]`. -/
def bbSumSq (data basis : Vec) (length i : Int) : Option ℚ :=
  forU (i - length + 1) (i + 1) (fun j (sum_sq : ℚ) => do
    let x ← rd data j
    let b ← rd basis i
    some (sum_sq + (x - b) * (x - b))) 0

/-- The loop of `getBBUpper` (indicators.cpp, lines 383-393). -/
def bbUpperLoop (sqrt : ℚ → ℚ) (data basis : Vec) (length : Int) (multiplier : ℚ) :
    Option Vec :=
  forU length data.length (fun i result => do
    let sum_sq ← bbSumSq data basis length i
    let stdev := sqrt (sum_sq / (length : ℚ))
    let b ← rd basis i
    wr result i (b + multiplier * stdev)) (zeros data.length)

/-- The loop of `getBBLower` (indicators.cpp, lines 415-425). -/
def bbLowerLoop (sqrt : ℚ → ℚ) (data basis : Vec) (length : Int) (multiplier : ℚ) :
    Option Vec :=
  forU length data.length (fun i result => do
    let sum_sq ← bbSumSq data basis length i
    let stdev := sqrt (sum_sq / (length : ℚ))
    let b ← rd basis i
    wr result i (b - multiplier * stdev)) (zeros data.length)

/-- The method `IndicatorCache::getBBUpper`: the key is `"bb_upper_"`, the length
and the rendering of the multiplier; the basis comes from `getVAR` on the same cache. -/
def getBBUpper (sqrt : ℚ → ℚ) (data : Vec) (length : Int) (multiplier : ℚ)
    (s : IndicatorCache) : Option (Vec × IndicatorCache) :=
  let cache_key := "bb_upper_" ++ toString length ++ "_" ++ to_string_double multiplier
  match mapFind s.indicator_cache cache_key with
  | some v => some (v, s)
  | none => do
    let (basis, s1) ← getVAR data length s
    let result ← bbUpperLoop sqrt data basis length multiplier
    some (result, { s1 with indicator_cache := mapSet s1.indicator_cache cache_key result })

/-- The method `IndicatorCache::getBBLower`: the key is `"bb_lower_"`, the length
and the rendering of the multiplier; the basis comes from `getVAR` on the same cache. -/
def getBBLower (sqrt : ℚ → ℚ) (data : Vec) (length : Int) (multiplier : ℚ)
    (s : IndicatorCache) : Option (Vec × IndicatorCache) :=
  let cache_key := "bb_lower_" ++ toString length ++ "_" ++ to_string_double multiplier
  match mapFind s.indicator_cache cache_key with
  | some v => some (v, s)
  | none => do
    let (basis, s1) ← getVAR data length s
    let result ← bbLowerLoop sqrt data basis length multiplier
    some (result, { s1 with indicator_cache := mapSet s1.indicator_cache cache_key result })

/-- The method `IndicatorCache::clear` (indicators.cpp, lines 435-445): each of the
eight maps is cleared. -/
def clear (s : IndicatorCache) : IndicatorCache :=
  { s with var_cache := [], ott_cache := [], indicator_cache := [], abs_change_cache := [],
           sum_abs_changes_cache := [], highest_cache := [], lowest_cache := [],
           atr_cache := [] }

/-! ## Series of the specification -/

/-- The support band `c` in the words of the specification. -/
def specC (data : Vec) (a : ℚ) : Nat → ℚ
  | 0 => data.getD 0 0 - a * data.getD 0 0
  | i + 1 =>
    let x := data.getD (i + 1) 0
    if x ≥ specC data a i then max (x - a * x) (specC data a i) else x - a * x

/-- The resistance band `d` in the words of the specification. -/
def specD (data : Vec) (a : ℚ) : Nat → ℚ
  | 0 => data.getD 0 0 + a * data.getD 0 0
  | i + 1 =>
    let x := data.getD (i + 1) 0
    if x ≤ specD data a i then min (x + a * x) (specD data a i) else x + a * x

/-- The trailing line `e` in the words of the specification. -/
def specE (data : Vec) (a : ℚ) : Nat → ℚ
  | 0 => 0
  | i + 1 =>
    let x := data.getD (i + 1) 0
    if x > specE data a i then specC data a (i + 1)
    else if x < specE data a i then specD data a (i + 1)
    else specE data a i

/-- The line `h` in the words of the specification. -/
def specH (data : Vec) (a : ℚ) (i : Nat) : ℚ :=
  if data.getD i 0 > specE data a i then specE data a i * (1 + a / 2)
  else specE data a i * (1 - a / 2)


/-! ## Loop states -/
/-- The vector of size `n` whose first `k` elements are `f 0 .. f (k-1)` and whose
other elements are still `0.0`. -/
def tab (k : Nat) (f : Nat → ℚ) (n : Nat) : Vec :=
  (List.range n).map (fun j => if j < k then f j else 0)


/-- The state of the loop of `getOTT` after `k` iterations. -/
def ottStateAt (data : Vec) (a : ℚ) (k : Nat) : OttState :=
  let n := data.length
  { result := tab k (fun j => if j < 2 then 0 else specH data a (j - 2)) n,
    c := tab k (specC data a) n, d := tab k (specD data a) n,
    e := tab k (specE data a) n, h := tab k (specH data a) n }


/-! ## Sample input -/

/-- The closing prices of a twelve-bar series. -/
def closes12 : Vec := [10, 11, 12, 13, 12, 11, 10, 11, 12, 13, 14, 13]

/-! ## Windows -/

/-- The values `v[lo], ..., v[hi]` of a series. -/
def window (v : Vec) (lo hi : Nat) : Set ℚ :=
  {x | ∃ j, lo ≤ j ∧ j ≤ hi ∧ v[j]? = some x}

/-- The accumulator of a running maximum started at `init`, after the `m` elements
`v[lo], ..., v[lo+m-1]`. -/
def runMax (v : Vec) (init : ℚ) (lo : Nat) : Nat → ℚ
  | 0 => init
  | m + 1 => max (runMax v init lo m) (v.getD (lo + m) 0)

/-- The accumulator of a running minimum started at `init`, after the `m` elements
`v[lo], ..., v[lo+m-1]`. -/
def runMin (v : Vec) (init : ℚ) (lo : Nat) : Nat → ℚ
  | 0 => init
  | m + 1 => min (runMin v init lo m) (v.getD (lo + m) 0)

/-! ## Values stored by the loops -/

/-- The value that `getStochastic` stores at the index `i`. -/
def stochValue (closes highs lows : Vec) (k i : Nat) : ℚ :=
  if i < k then 0
  else
    let L := runMin lows DBL_MAX (i + 1 - k) k
    let H := runMax highs (-DBL_MAX) (i + 1 - k) k
    if H - L > 0 then (closes.getD i 0 - L) / (H - L) * 100 else 100

/-- The true range in the words of the specification, for `i ≥ 1`. -/
def specTR (highs lows closes : Vec) (i : Nat) : ℚ :=
  max (max (highs.getD i 0 - lows.getD i 0) |highs.getD i 0 - closes.getD (i - 1) 0|)
    |lows.getD i 0 - closes.getD (i - 1) 0|

/-- The value that `getATR` stores in `tr[i]`. -/
def trValue (highs lows closes : Vec) (i : Nat) : ℚ :=
  if i < 1 then 0 else specTR highs lows closes i

/-- The value that `getATR` stores in `result[i]`, for a period `p` below the size. -/
def atrValue (highs lows closes : Vec) (p : Nat) : Nat → ℚ
  | 0 => if p = 0 then (∑ j in Finset.Ico 1 (p + 1), trValue highs lows closes j) / (p : ℚ) else 0
  | i + 1 =>
    if i + 1 < p then 0
    else if i + 1 = p then (∑ j in Finset.Ico 1 (p + 1), trValue highs lows closes j) / (p : ℚ)
    else (atrValue highs lows closes p i * ((p : ℚ) - 1) + trValue highs lows closes (i + 1))
      / (p : ℚ)

/-- The gain at bar `i ≥ 1` in the words of the specification: the positive part
of `closes[i] - closes[i-1]`. -/
def specGain (closes : Vec) (i : Nat) : ℚ :=
  max (closes.getD i 0 - closes.getD (i - 1) 0) 0

/-- The loss at bar `i ≥ 1` in the words of the specification: the negative part
of `closes[i] - closes[i-1]`. -/
def specLoss (closes : Vec) (i : Nat) : ℚ :=
  max (-(closes.getD i 0 - closes.getD (i - 1) 0)) 0

/-- Wilder's average of `x` in the words of the specification: the arithmetic mean
of `x 1, ..., x length` up to the index `length`, then
`avg i = (avg (i-1) * (length-1) + x i) / length`. -/
def specAvg (x : Nat → ℚ) (length : Nat) : Nat → ℚ
  | 0 => (∑ j in Finset.Icc 1 length, x j) / (length : ℚ)
  | i + 1 =>
    if i + 1 ≤ length then (∑ j in Finset.Icc 1 length, x j) / (length : ℚ)
    else (specAvg x length i * ((length : ℚ) - 1) + x (i + 1)) / (length : ℚ)

/-- The value that `getRSI` stores in `changes[i]`. -/
def changeValue (closes : Vec) (i : Nat) : ℚ :=
  if i < 1 then 0 else closes.getD i 0 - closes.getD (i - 1) 0

/-- The value that `getRSI` stores in `gains[i]`. -/
def gainValue (closes : Vec) (i : Nat) : ℚ :=
  if i < 1 then 0 else if changeValue closes i > 0 then changeValue closes i else 0

/-- The value that `getRSI` stores in `losses[i]`. -/
def lossValue (closes : Vec) (i : Nat) : ℚ :=
  if i < 1 then 0 else if changeValue closes i > 0 then 0 else -changeValue closes i

/-- The value that `getRSI` stores in `result[i]`, for `1 ≤ length` below the size. -/
def rsiValue (closes : Vec) (length i : Nat) : ℚ :=
  if i ≤ length then 0
  else if specAvg (lossValue closes) length i = 0 then 100
  else 100 - 100 / (1 + specAvg (gainValue closes) length i / specAvg (lossValue closes) length i)

/-- The value that `getAbsChange` stores in `result[i]`. -/
def momValue (data : Vec) (period i : Nat) : ℚ :=
  if i < period then 0 else |data.getD i 0 - data.getD (i - period) 0|

/-- The value that `getSumAbsChanges` stores in `changes[i]`. -/
def chgValue (data : Vec) (i : Nat) : ℚ :=
  if i < 1 then 0 else |data.getD i 0 - data.getD (i - 1) 0|

/-- The value that `getSumAbsChanges` stores in `result[i]`: the sum of the last
`period` entries of `changes` up to the index `i`. -/
def volValue (data : Vec) (period i : Nat) : ℚ :=
  ∑ j in Finset.Ico (i + 1 - period) (i + 1), chgValue data j

/-- The value that `getVAR` stores in `efficiencyRatio[i]`. -/
def erValue (data : Vec) (i : Nat) : ℚ :=
  if volValue data 9 i ≠ 0 then momValue data 9 i / volValue data 9 i else 0

/-- The value that `getVAR` stores in `result[i]`. -/
def vidyaValue (data : Vec) (length : Int) : Nat → ℚ
  | 0 => data.getD 0 0
  | i + 1 =>
    if length = 1 then data.getD (i + 1) 0
    else erValue data (i + 1) * (2 / ((length : ℚ) + 1))
      * (data.getD (i + 1) 0 - vidyaValue data length i) + vidyaValue data length i

/-- The value that the inner loop of the Bollinger operations leaves in `sum_sq`
at the index `i`, for a basis series `basis`. -/
def bbSumValue (data : Vec) (basis : Nat → ℚ) (length i : Nat) : ℚ :=
  ∑ j in Finset.Ico (i + 1 - length) (i + 1),
    (data.getD j 0 - basis i) * (data.getD j 0 - basis i)

/-- The value that `getBBUpper` stores in `result[i]`. -/
def bbUpperValue (sqrt : ℚ → ℚ) (data : Vec) (basis : Nat → ℚ) (length : Nat) (multiplier : ℚ)
    (i : Nat) : ℚ :=
  if i < length then 0
  else basis i + multiplier * sqrt (bbSumValue data basis length i / (length : ℚ))

/-- The value that `getBBLower` stores in `result[i]`. -/
def bbLowerValue (sqrt : ℚ → ℚ) (data : Vec) (basis : Nat → ℚ) (length : Nat) (multiplier : ℚ)
    (i : Nat) : ℚ :=
  if i < length then 0
  else basis i - multiplier * sqrt (bbSumValue data basis length i / (length : ℚ))

/-! ## Sequences of calls on one cache -/

/-- One call of a get operation of `IndicatorCache`, with its arguments. -/
inductive Call where
  | stochastic (closes highs lows : Vec) (k_length : Int)
  | rsi (closes : Vec) (length : Int)
  | var (data : Vec) (length : Int)
  | ott (data : Vec) (multiplier : ℚ)
  | absChange (data : Vec) (period : Int)
  | sumAbsChanges (data : Vec) (period : Int)
  | highest (data : Vec) (period : Int)
  | lowest (data : Vec) (period : Int)
  | atr (highs lows closes : Vec) (period : Int)
  | bbUpper (data : Vec) (length : Int) (multiplier : ℚ)
  | bbLower (data : Vec) (length : Int) (multiplier : ℚ)

/-- The effect of one call on a cache: the returned series and the cache after it. -/
def Call.run (sqrt : ℚ → ℚ) (c : Call) (s : IndicatorCache) : Option (Vec × IndicatorCache) :=
  match c with
  | .stochastic closes highs lows k_length => getStochastic closes highs lows k_length s
  | .rsi closes length => getRSI closes length s
  | .var data length => getVAR data length s
  | .ott data multiplier => getOTT data multiplier s
  | .absChange data period => getAbsChange data period s
  | .sumAbsChanges data period => getSumAbsChanges data period s
  | .highest data period => getHighest data period s
  | .lowest data period => getLowest data period s
  | .atr highs lows closes period => getATR highs lows closes period s
  | .bbUpper data length multiplier => getBBUpper sqrt data length multiplier s
  | .bbLower data length multiplier => getBBLower sqrt data length multiplier s

/-- The cache left by a sequence of calls, each of which returns. -/
def runCalls (sqrt : ℚ → ℚ) : List Call → IndicatorCache → Option IndicatorCache
  | [], s => some s
  | c :: cs, s => (c.run sqrt s).bind (fun p => runCalls sqrt cs p.2)

/-- The call passes the given price vectors wherever it takes closes, highs or
lows; the series of the operations that take a `data` argument is free. -/
def Call.usesPrices (closes highs lows : Vec) : Call → Prop
  | .stochastic c h l _ => c = closes ∧ h = highs ∧ l = lows
  | .rsi c _ => c = closes
  | .atr h l c _ => h = highs ∧ l = lows ∧ c = closes
  | _ => True

/-! ## Decimal renderings -/

/-- The value of a string of decimal digits. -/
def digitsValue (cs : List Char) (acc : Nat) : Nat :=
  cs.foldl (fun a c => a * 10 + (c.toNat - 48)) acc

/-- Every entry that `getRSI`, `getStochastic` and `getATR` can hit holds the series
computed from the given price vectors for the parameter of its key. -/
def PriceInv (closes highs lows : Vec) (s : IndicatorCache) : Prop :=
  (∀ n v, mapFind s.indicator_cache ("rsi_" ++ toString n) = some v →
    rsiCompute closes n = some v) ∧
  (∀ k v, mapFind s.indicator_cache ("stoch_" ++ toString k) = some v →
    stochasticCompute closes highs lows k = some v) ∧
  (∀ p v, mapFind s.atr_cache p = some v → atrCompute highs lows closes p = some v)

/-! ## Strategy parameters (models.h, models.cpp)

The eleven parameter records extend the common record `StrategyParams`. The
functions `std::hash` and the rendering `operator<<(double)` of `std::ostringstream`
are parameters. A `size_t` is a natural number below `2 ^ 64`. -/

/-- The common fields of `struct StrategyParams`. -/
structure StrategyParams where
  sl_percent : ℚ
  tp_percent : ℚ
  use_sl : Bool
  use_tp : Bool
  pyramiding : Bool
  strategy_name : String
deriving DecidableEq

/-- The record `struct OttParams`. -/
structure OttParams extends StrategyParams where
  support_length : Int
  ott_multiplier : ℚ
deriving DecidableEq

/-- The record `struct TottParams`. -/
structure TottParams extends StrategyParams where
  support_length : Int
  ott_multiplier : ℚ
  band_multiplier : ℚ
deriving DecidableEq

/-- The record `struct OttChannelParams`. -/
structure OttChannelParams extends StrategyParams where
  ma_length : Int
  ott_multiplier : ℚ
  upper_multiplier : ℚ
  lower_multiplier : ℚ
  channel_type : String
deriving DecidableEq

/-- The record `struct RisottoParams`. -/
structure RisottoParams extends StrategyParams where
  rsi_length : Int
  support_length : Int
  ott_multiplier : ℚ
deriving DecidableEq

/-- The record `struct SottParams`. -/
structure SottParams extends StrategyParams where
  stoch_k_length : Int
  stoch_d_length : Int
  ott_multiplier : ℚ
deriving DecidableEq

/-- The record `struct HottLottParams`. -/
structure HottLottParams extends StrategyParams where
  hl_length : Int
  ott_multiplier : ℚ
  use_sum : Bool
  sum_n_bars : Int
deriving DecidableEq

/-- The record `struct RottParams`. -/
structure RottParams extends StrategyParams where
  support_length : Int
  ott_multiplier : ℚ
deriving DecidableEq

/-- The record `struct FtParams`. -/
structure FtParams extends StrategyParams where
  support_length : Int
  major_multiplier : ℚ
  minor_multiplier : ℚ
deriving DecidableEq

/-- The record `struct RtrParams`. -/
structure RtrParams extends StrategyParams where
  atr_length : Int
  ma_length : Int
deriving DecidableEq

/-- The record `struct MottParams`. -/
structure MottParams extends StrategyParams where
  support_length : Int
  hl_length : Int
  ott_multiplier : ℚ
  reference : Int
deriving DecidableEq

/-- The record `struct BootsParams`. -/
structure BootsParams extends StrategyParams where
  support_length : Int
  bb_length : Int
  ott_multiplier : ℚ
deriving DecidableEq

/-- The specialisations of `std::hash` that the records use. -/
structure StdHash where
  hash_double : ℚ → Nat
  hash_bool : Bool → Nat
  hash_int : Int → Nat
  hash_string : String → Nat

/-- The step `h ^= v + 0x9e3779b9 + (h << 6) + (h >> 2)` on `size_t`. -/
def hashCombine (h v : Nat) : Nat :=
  h ^^^ ((v + 0x9e3779b9 + (h <<< 6) + (h >>> 2)) % 2 ^ 64)

/-- The method `StrategyParams::hash` (models.h, lines 68-76). -/
def StrategyParams.hash (H : StdHash) (p : StrategyParams) : Nat :=
  let h := H.hash_double p.sl_percent % 2 ^ 64
  let h := hashCombine h (H.hash_double p.tp_percent)
  let h := hashCombine h (H.hash_bool p.use_sl)
  let h := hashCombine h (H.hash_bool p.use_tp)
  let h := hashCombine h (H.hash_bool p.pyramiding)
  let h := hashCombine h (H.hash_string p.strategy_name)
  h

/-- The method `StrategyParams::operator==` (models.h, lines 78-85). -/
def StrategyParams.eq (p other : StrategyParams) : Bool :=
  decide (p.sl_percent = other.sl_percent) && decide (p.tp_percent = other.tp_percent) &&
  decide (p.use_sl = other.use_sl) && decide (p.use_tp = other.use_tp) &&
  decide (p.pyramiding = other.pyramiding) && decide (p.strategy_name = other.strategy_name)

/-- The method `StrategyParams::getParamString` of the base record (models.h,
lines 88-95). -/
def StrategyParams.getParamString (p : StrategyParams) : String :=
  "Strategy=" ++ p.strategy_name
    ++ "-SL=" ++ (if p.use_sl then to_string_double p.sl_percent else "off")
    ++ "-TP=" ++ (if p.use_tp then to_string_double p.tp_percent else "off")
    ++ "-Pyramiding=" ++ (if p.pyramiding then "on" else "off")

/-- The method `OttParams::hash`. -/
def OttParams.hash (H : StdHash) (p : OttParams) : Nat :=
  let h := p.toStrategyParams.hash H
  let h := hashCombine h (H.hash_int p.support_length)
  let h := hashCombine h (H.hash_double p.ott_multiplier)
  h

/-- The method `OttParams::operator==`. -/
def OttParams.eq (p other : OttParams) : Bool :=
  p.toStrategyParams.eq other.toStrategyParams &&
  decide (p.support_length = other.support_length) &&
  decide (p.ott_multiplier = other.ott_multiplier)

/-- The method `OttParams::getParamString`; `os` is `operator<<(double)`. -/
def OttParams.getParamString (os : ℚ → String) (p : OttParams) : String :=
  "Strategy=" ++ p.strategy_name
    ++ "-SupportLength=" ++ toString p.support_length
    ++ "-OTTMultiplier=" ++ os p.ott_multiplier
    ++ "-SL=" ++ (if p.use_sl then to_string_double p.sl_percent else "off")
    ++ "-TP=" ++ (if p.use_tp then to_string_double p.tp_percent else "off")
    ++ "-Pyramiding=" ++ (if p.pyramiding then "on" else "off")

/-- The method `TottParams::hash`. -/
def TottParams.hash (H : StdHash) (p : TottParams) : Nat :=
  let h := p.toStrategyParams.hash H
  let h := hashCombine h (H.hash_int p.support_length)
  let h := hashCombine h (H.hash_double p.ott_multiplier)
  let h := hashCombine h (H.hash_double p.band_multiplier)
  h

/-- The method `TottParams::operator==`. -/
def TottParams.eq (p other : TottParams) : Bool :=
  p.toStrategyParams.eq other.toStrategyParams &&
  decide (p.support_length = other.support_length) &&
  decide (p.ott_multiplier = other.ott_multiplier) &&
  decide (p.band_multiplier = other.band_multiplier)

/-- The method `TottParams::getParamString`; `os` is `operator<<(double)`. -/
def TottParams.getParamString (os : ℚ → String) (p : TottParams) : String :=
  "Strategy=" ++ p.strategy_name
    ++ "-SupportLength=" ++ toString p.support_length
    ++ "-OTTMultiplier=" ++ os p.ott_multiplier
    ++ "-BandMultiplier=" ++ os p.band_multiplier
    ++ "-SL=" ++ (if p.use_sl then to_string_double p.sl_percent else "off")
    ++ "-TP=" ++ (if p.use_tp then to_string_double p.tp_percent else "off")
    ++ "-Pyramiding=" ++ (if p.pyramiding then "on" else "off")

/-- The method `OttChannelParams::hash`. -/
def OttChannelParams.hash (H : StdHash) (p : OttChannelParams) : Nat :=
  let h := p.toStrategyParams.hash H
  let h := hashCombine h (H.hash_int p.ma_length)
  let h := hashCombine h (H.hash_double p.ott_multiplier)
  let h := hashCombine h (H.hash_double p.upper_multiplier)
  let h := hashCombine h (H.hash_double p.lower_multiplier)
  let h := hashCombine h (H.hash_string p.channel_type)
  h

/-- The method `OttChannelParams::operator==`. -/
def OttChannelParams.eq (p other : OttChannelParams) : Bool :=
  p.toStrategyParams.eq other.toStrategyParams &&
  decide (p.ma_length = other.ma_length) &&
  decide (p.ott_multiplier = other.ott_multiplier) &&
  decide (p.upper_multiplier = other.upper_multiplier) &&
  decide (p.lower_multiplier = other.lower_multiplier) &&
  decide (p.channel_type = other.channel_type)

/-- The method `OttChannelParams::getParamString`; `os` is `operator<<(double)`. -/
def OttChannelParams.getParamString (os : ℚ → String) (p : OttChannelParams) : String :=
  "Strategy=" ++ p.strategy_name
    ++ "-ChannelType=" ++ p.channel_type
    ++ "-MALength=" ++ toString p.ma_length
    ++ "-OTTMultiplier=" ++ os p.ott_multiplier
    ++ "-UpperMultiplier=" ++ os p.upper_multiplier
    ++ "-LowerMultiplier=" ++ os p.lower_multiplier
    ++ "-SL=" ++ (if p.use_sl then to_string_double p.sl_percent else "off")
    ++ "-TP=" ++ (if p.use_tp then to_string_double p.tp_percent else "off")
    ++ "-Pyramiding=" ++ (if p.pyramiding then "on" else "off")

/-- The method `RisottoParams::hash`. -/
def RisottoParams.hash (H : StdHash) (p : RisottoParams) : Nat :=
  let h := p.toStrategyParams.hash H
  let h := hashCombine h (H.hash_int p.rsi_length)
  let h := hashCombine h (H.hash_int p.support_length)
  let h := hashCombine h (H.hash_double p.ott_multiplier)
  h

/-- The method `RisottoParams::operator==`. -/
def RisottoParams.eq (p other : RisottoParams) : Bool :=
  p.toStrategyParams.eq other.toStrategyParams &&
  decide (p.rsi_length = other.rsi_length) &&
  decide (p.support_length = other.support_length) &&
  decide (p.ott_multiplier = other.ott_multiplier)

/-- The method `RisottoParams::getParamString`; `os` is `operator<<(double)`. -/
def RisottoParams.getParamString (os : ℚ → String) (p : RisottoParams) : String :=
  "Strategy=" ++ p.strategy_name
    ++ "-RSILength=" ++ toString p.rsi_length
    ++ "-SupportLength=" ++ toString p.support_length
    ++ "-OTTMultiplier=" ++ os p.ott_multiplier
    ++ "-SL=" ++ (if p.use_sl then to_string_double p.sl_percent else "off")
    ++ "-TP=" ++ (if p.use_tp then to_string_double p.tp_percent else "off")
    ++ "-Pyramiding=" ++ (if p.pyramiding then "on" else "off")

/-- The method `SottParams::hash`. -/
def SottParams.hash (H : StdHash) (p : SottParams) : Nat :=
  let h := p.toStrategyParams.hash H
  let h := hashCombine h (H.hash_int p.stoch_k_length)
  let h := hashCombine h (H.hash_int p.stoch_d_length)
  let h := hashCombine h (H.hash_double p.ott_multiplier)
  h

/-- The method `SottParams::operator==`. -/
def SottParams.eq (p other : SottParams) : Bool :=
  p.toStrategyParams.eq other.toStrategyParams &&
  decide (p.stoch_k_length = other.stoch_k_length) &&
  decide (p.stoch_d_length = other.stoch_d_length) &&
  decide (p.ott_multiplier = other.ott_multiplier)

/-- The method `SottParams::getParamString`; `os` is `operator<<(double)`. -/
def SottParams.getParamString (os : ℚ → String) (p : SottParams) : String :=
  "Strategy=" ++ p.strategy_name
    ++ "-StochKLength=" ++ toString p.stoch_k_length
    ++ "-StochDLength=" ++ toString p.stoch_d_length
    ++ "-OTTMultiplier=" ++ os p.ott_multiplier
    ++ "-SL=" ++ (if p.use_sl then to_string_double p.sl_percent else "off")
    ++ "-TP=" ++ (if p.use_tp then to_string_double p.tp_percent else "off")
    ++ "-Pyramiding=" ++ (if p.pyramiding then "on" else "off")

/-- The method `HottLottParams::hash`. -/
def HottLottParams.hash (H : StdHash) (p : HottLottParams) : Nat :=
  let h := p.toStrategyParams.hash H
  let h := hashCombine h (H.hash_int p.hl_length)
  let h := hashCombine h (H.hash_double p.ott_multiplier)
  let h := hashCombine h (H.hash_bool p.use_sum)
  let h := hashCombine h (H.hash_int p.sum_n_bars)
  h

/-- The method `HottLottParams::operator==`. -/
def HottLottParams.eq (p other : HottLottParams) : Bool :=
  p.toStrategyParams.eq other.toStrategyParams &&
  decide (p.hl_length = other.hl_length) &&
  decide (p.ott_multiplier = other.ott_multiplier) &&
  decide (p.use_sum = other.use_sum) &&
  decide (p.sum_n_bars = other.sum_n_bars)

/-- The method `HottLottParams::getParamString`; `os` is `operator<<(double)`. -/
def HottLottParams.getParamString (os : ℚ → String) (p : HottLottParams) : String :=
  "Strategy=" ++ p.strategy_name
    ++ "-HLLength=" ++ toString p.hl_length
    ++ "-OTTMultiplier=" ++ os p.ott_multiplier
    ++ "-UseSumNBars=" ++ (if p.use_sum then "on" else "off")
    ++ (if p.use_sum then "-SumNBars=" ++ toString p.sum_n_bars else "")
    ++ "-SL=" ++ (if p.use_sl then to_string_double p.sl_percent else "off")
    ++ "-TP=" ++ (if p.use_tp then to_string_double p.tp_percent else "off")
    ++ "-Pyramiding=" ++ (if p.pyramiding then "on" else "off")

/-- The method `RottParams::hash`. -/
def RottParams.hash (H : StdHash) (p : RottParams) : Nat :=
  let h := p.toStrategyParams.hash H
  let h := hashCombine h (H.hash_int p.support_length)
  let h := hashCombine h (H.hash_double p.ott_multiplier)
  h

/-- The method `RottParams::operator==`. -/
def RottParams.eq (p other : RottParams) : Bool :=
  p.toStrategyParams.eq other.toStrategyParams &&
  decide (p.support_length = other.support_length) &&
  decide (p.ott_multiplier = other.ott_multiplier)

/-- The method `RottParams::getParamString`; `os` is `operator<<(double)`. -/
def RottParams.getParamString (os : ℚ → String) (p : RottParams) : String :=
  "Strategy=" ++ p.strategy_name
    ++ "-SupportLength=" ++ toString p.support_length
    ++ "-OTTMultiplier=" ++ os p.ott_multiplier
    ++ "-SL=" ++ (if p.use_sl then to_string_double p.sl_percent else "off")
    ++ "-TP=" ++ (if p.use_tp then to_string_double p.tp_percent else "off")
    ++ "-Pyramiding=" ++ (if p.pyramiding then "on" else "off")

/-- The method `FtParams::hash`. -/
def FtParams.hash (H : StdHash) (p : FtParams) : Nat :=
  let h := p.toStrategyParams.hash H
  let h := hashCombine h (H.hash_int p.support_length)
  let h := hashCombine h (H.hash_double p.major_multiplier)
  let h := hashCombine h (H.hash_double p.minor_multiplier)
  h

/-- The method `FtParams::operator==`. -/
def FtParams.eq (p other : FtParams) : Bool :=
  p.toStrategyParams.eq other.toStrategyParams &&
  decide (p.support_length = other.support_length) &&
  decide (p.major_multiplier = other.major_multiplier) &&
  decide (p.minor_multiplier = other.minor_multiplier)

/-- The method `FtParams::getParamString`; `os` is `operator<<(double)`. -/
def FtParams.getParamString (os : ℚ → String) (p : FtParams) : String :=
  "Strategy=" ++ p.strategy_name
    ++ "-SupportLength=" ++ toString p.support_length
    ++ "-MajorOTTMultiplier=" ++ os p.major_multiplier
    ++ "-MinorOTTMultiplier=" ++ os p.minor_multiplier
    ++ "-SL=" ++ (if p.use_sl then to_string_double p.sl_percent else "off")
    ++ "-TP=" ++ (if p.use_tp then to_string_double p.tp_percent else "off")
    ++ "-Pyramiding=" ++ (if p.pyramiding then "on" else "off")

/-- The method `RtrParams::hash`. -/
def RtrParams.hash (H : StdHash) (p : RtrParams) : Nat :=
  let h := p.toStrategyParams.hash H
  let h := hashCombine h (H.hash_int p.atr_length)
  let h := hashCombine h (H.hash_int p.ma_length)
  h

/-- The method `RtrParams::operator==`. -/
def RtrParams.eq (p other : RtrParams) : Bool :=
  p.toStrategyParams.eq other.toStrategyParams &&
  decide (p.atr_length = other.atr_length) &&
  decide (p.ma_length = other.ma_length)

/-- The method `RtrParams::getParamString`; `os` is `operator<<(double)`. -/
def RtrParams.getParamString (_os : ℚ → String) (p : RtrParams) : String :=
  "Strategy=" ++ p.strategy_name
    ++ "-ATRLength=" ++ toString p.atr_length
    ++ "-MALength=" ++ toString p.ma_length
    ++ "-SL=" ++ (if p.use_sl then to_string_double p.sl_percent else "off")
    ++ "-TP=" ++ (if p.use_tp then to_string_double p.tp_percent else "off")
    ++ "-Pyramiding=" ++ (if p.pyramiding then "on" else "off")

/-- The method `MottParams::hash`. -/
def MottParams.hash (H : StdHash) (p : MottParams) : Nat :=
  let h := p.toStrategyParams.hash H
  let h := hashCombine h (H.hash_int p.support_length)
  let h := hashCombine h (H.hash_int p.hl_length)
  let h := hashCombine h (H.hash_double p.ott_multiplier)
  let h := hashCombine h (H.hash_int p.reference)
  h

/-- The method `MottParams::operator==`. -/
def MottParams.eq (p other : MottParams) : Bool :=
  p.toStrategyParams.eq other.toStrategyParams &&
  decide (p.support_length = other.support_length) &&
  decide (p.hl_length = other.hl_length) &&
  decide (p.ott_multiplier = other.ott_multiplier) &&
  decide (p.reference = other.reference)

/-- The method `MottParams::getParamString`; `os` is `operator<<(double)`. -/
def MottParams.getParamString (os : ℚ → String) (p : MottParams) : String :=
  "Strategy=" ++ p.strategy_name
    ++ "-SupportLength=" ++ toString p.support_length
    ++ "-HLLength=" ++ toString p.hl_length
    ++ "-OTTMultiplier=" ++ os p.ott_multiplier
    ++ "-Reference=" ++ toString p.reference
    ++ "-SL=" ++ (if p.use_sl then to_string_double p.sl_percent else "off")
    ++ "-TP=" ++ (if p.use_tp then to_string_double p.tp_percent else "off")
    ++ "-Pyramiding=" ++ (if p.pyramiding then "on" else "off")

/-- The method `BootsParams::hash`. -/
def BootsParams.hash (H : StdHash) (p : BootsParams) : Nat :=
  let h := p.toStrategyParams.hash H
  let h := hashCombine h (H.hash_int p.support_length)
  let h := hashCombine h (H.hash_int p.bb_length)
  let h := hashCombine h (H.hash_double p.ott_multiplier)
  h

/-- The method `BootsParams::operator==`. -/
def BootsParams.eq (p other : BootsParams) : Bool :=
  p.toStrategyParams.eq other.toStrategyParams &&
  decide (p.support_length = other.support_length) &&
  decide (p.bb_length = other.bb_length) &&
  decide (p.ott_multiplier = other.ott_multiplier)

/-- The method `BootsParams::getParamString`; `os` is `operator<<(double)`. -/
def BootsParams.getParamString (os : ℚ → String) (p : BootsParams) : String :=
  "Strategy=" ++ p.strategy_name
    ++ "-SupportLength=" ++ toString p.support_length
    ++ "-BBLength=" ++ toString p.bb_length
    ++ "-OTTMultiplier=" ++ os p.ott_multiplier
    ++ "-SL=" ++ (if p.use_sl then to_string_double p.sl_percent else "off")
    ++ "-TP=" ++ (if p.use_tp then to_string_double p.tp_percent else "off")
    ++ "-Pyramiding=" ++ (if p.pyramiding then "on" else "off")

/-- A parameter record of one of the eleven strategy families. -/
inductive Params where
  | ott (p : OttParams)
  | tott (p : TottParams)
  | ottChannel (p : OttChannelParams)
  | risotto (p : RisottoParams)
  | sott (p : SottParams)
  | hottLott (p : HottLottParams)
  | rott (p : RottParams)
  | ft (p : FtParams)
  | rtr (p : RtrParams)
  | mott (p : MottParams)
  | boots (p : BootsParams)

/-- The common fields of a parameter record. -/
def Params.common : Params → StrategyParams
  | .ott p => p.toStrategyParams
  | .tott p => p.toStrategyParams
  | .ottChannel p => p.toStrategyParams
  | .risotto p => p.toStrategyParams
  | .sott p => p.toStrategyParams
  | .hottLott p => p.toStrategyParams
  | .rott p => p.toStrategyParams
  | .ft p => p.toStrategyParams
  | .rtr p => p.toStrategyParams
  | .mott p => p.toStrategyParams
  | .boots p => p.toStrategyParams

/-- The virtual call `p.hash()`. -/
def Params.hash (H : StdHash) : Params → Nat
  | .ott p => p.hash H
  | .tott p => p.hash H
  | .ottChannel p => p.hash H
  | .risotto p => p.hash H
  | .sott p => p.hash H
  | .hottLott p => p.hash H
  | .rott p => p.hash H
  | .ft p => p.hash H
  | .rtr p => p.hash H
  | .mott p => p.hash H
  | .boots p => p.hash H

/-- The virtual call `p.getParamString()`. -/
def Params.getParamString (os : ℚ → String) : Params → String
  | .ott p => p.getParamString os
  | .tott p => p.getParamString os
  | .ottChannel p => p.getParamString os
  | .risotto p => p.getParamString os
  | .sott p => p.getParamString os
  | .hottLott p => p.getParamString os
  | .rott p => p.getParamString os
  | .ft p => p.getParamString os
  | .rtr p => p.getParamString os
  | .mott p => p.getParamString os
  | .boots p => p.getParamString os

/-- The comparison `p == q` of two records of the same family, by the `operator==`
of that family; records of different families have no common `operator==`. -/
def Params.eq : Params → Params → Bool
  | .ott p, .ott q => p.eq q
  | .tott p, .tott q => p.eq q
  | .ottChannel p, .ottChannel q => p.eq q
  | .risotto p, .risotto q => p.eq q
  | .sott p, .sott q => p.eq q
  | .hottLott p, .hottLott q => p.eq q
  | .rott p, .rott q => p.eq q
  | .ft p, .ft q => p.eq q
  | .rtr p, .rtr q => p.eq q
  | .mott p, .mott q => p.eq q
  | .boots p, .boots q => p.eq q
  | _, _ => false

/-- The items `-Field=Value` of a family, as names and rendered values, in the
order of the parameter string. -/
def Params.familyFields (os : ℚ → String) : Params → List (String × String)
  | .ott p =>
    [("SupportLength", toString p.support_length), ("OTTMultiplier", os p.ott_multiplier)]
  | .tott p =>
    [("SupportLength", toString p.support_length), ("OTTMultiplier", os p.ott_multiplier),
      ("BandMultiplier", os p.band_multiplier)]
  | .ottChannel p =>
    [("ChannelType", p.channel_type), ("MALength", toString p.ma_length),
      ("OTTMultiplier", os p.ott_multiplier), ("UpperMultiplier", os p.upper_multiplier),
      ("LowerMultiplier", os p.lower_multiplier)]
  | .risotto p =>
    [("RSILength", toString p.rsi_length), ("SupportLength", toString p.support_length),
      ("OTTMultiplier", os p.ott_multiplier)]
  | .sott p =>
    [("StochKLength", toString p.stoch_k_length), ("StochDLength", toString p.stoch_d_length),
      ("OTTMultiplier", os p.ott_multiplier)]
  | .hottLott p =>
    [("HLLength", toString p.hl_length), ("OTTMultiplier", os p.ott_multiplier),
      ("UseSumNBars", if p.use_sum then "on" else "off")]
      ++ (if p.use_sum then [("SumNBars", toString p.sum_n_bars)] else [])
  | .rott p =>
    [("SupportLength", toString p.support_length), ("OTTMultiplier", os p.ott_multiplier)]
  | .ft p =>
    [("SupportLength", toString p.support_length), ("MajorOTTMultiplier", os p.major_multiplier),
      ("MinorOTTMultiplier", os p.minor_multiplier)]
  | .rtr p =>
    [("ATRLength", toString p.atr_length), ("MALength", toString p.ma_length)]
  | .mott p =>
    [("SupportLength", toString p.support_length), ("HLLength", toString p.hl_length),
      ("OTTMultiplier", os p.ott_multiplier), ("Reference", toString p.reference)]
  | .boots p =>
    [("SupportLength", toString p.support_length), ("BBLength", toString p.bb_length),
      ("OTTMultiplier", os p.ott_multiplier)]

/-- The rendering `-Field=Value` of a list of items, one after the other. -/
def renderItems : List (String × String) → String
  | [] => ""
  | (f, v) :: rest => "-" ++ f ++ "=" ++ v ++ renderItems rest

/-- The text after `-SL=` in the words of the specification: `off` or the
rendering of the percentage. -/
def slText (p : StrategyParams) : String :=
  if p.use_sl then to_string_double p.sl_percent else "off"

/-- The text after `-TP=` in the words of the specification. -/
def tpText (p : StrategyParams) : String :=
  if p.use_tp then to_string_double p.tp_percent else "off"

/-- The text after `-Pyramiding=` in the words of the specification. -/
def pyramidingText (p : StrategyParams) : String :=
  if p.pyramiding then "on" else "off"

/-! ## The program entry (main.cpp)

The functions `std::thread::hardware_concurrency`, `std::stoi`, `std::stod` and
`StrategyBacktester::loadCSV` are parameters (`Env`); a call of `std::stoi` or
`std::stod` that throws returns `none`. The construction of `MultiStrategyOptimizer`
followed by `optimizeAll()` is recorded with its arguments. In the two grid loops
the additions are rounded to `double` (`fl`), since the values themselves are the
result. -/

/-- The record `struct Bar`. -/
structure Bar where
  date : String
  open_ : ℚ
  high : ℚ
  low : ℚ
  close : ℚ
  volume : ℚ
deriving DecidableEq

/-- The library and loader functions that `main` calls. -/
structure Env where
  hardware_concurrency : Nat
  stoi : String → Option Int
  stod : String → Option ℚ
  loadCSV : String → List Bar

/-- The local variables that the option loop of `main` sets (main.cpp, lines 29-36). -/
structure Options where
  strategies : List String
  num_threads : Int
  min_trades : Int
  min_win_rate : ℚ
  use_sl : Bool
  use_tp : Bool
  pyramiding : Bool
  exclude_sl_from_winrate : Bool
deriving DecidableEq

/-- The initial values of the local variables (main.cpp, lines 29-36). -/
def defaultOptions (env : Env) : Options :=
  { strategies := ["OTT"], num_threads := (env.hardware_concurrency : Int), min_trades := 5,
    min_win_rate := 55, use_sl := true, use_tp := true, pyramiding := false,
    exclude_sl_from_winrate := false }

/-- The test `arg.find(pre) == 0`: `arg` starts with `pre`. -/
def startsWith (arg pre : String) : Bool :=
  pre.data.isPrefixOf arg.data

/-- The call `arg.substr(n)`. -/
def substr (arg : String) (n : Nat) : String :=
  String.mk (arg.data.drop n)

/-- The tokens that repeated `std::getline(ss, strat, ',')` reads from a stream:
the pieces between commas; no token is read after the last comma when nothing
follows it. -/
def getlineTokens (cur : List Char) : List Char → List String
  | [] => if cur = [] then [] else [String.mk cur.reverse]
  | c :: rest =>
    if c = ',' then String.mk cur.reverse :: getlineTokens [] rest
    else getlineTokens (c :: cur) rest

/-- One iteration of the option loop of `main` (main.cpp, lines 40-73); `none` when
`std::stoi` or `std::stod` throws. -/
def parseArg (env : Env) (arg : String) (o : Options) : Option Options :=
  if startsWith arg "--strategies=" then
    some { o with strategies := getlineTokens [] (substr arg 13).data }
  else if startsWith arg "--threads=" then
    (env.stoi (substr arg 10)).map (fun n => { o with num_threads := n })
  else if startsWith arg "--min-trades=" then
    (env.stoi (substr arg 13)).map (fun n => { o with min_trades := n })
  else if startsWith arg "--min-winrate=" then
    (env.stod (substr arg 14)).map (fun x => { o with min_win_rate := x })
  else if arg = "--no-sl" then some { o with use_sl := false }
  else if arg = "--no-tp" then some { o with use_tp := false }
  else if arg = "--pyramiding" then some { o with pyramiding := true }
  else if arg = "--exclude-sl" then some { o with exclude_sl_from_winrate := true }
  else some o

/-- The option loop of `main` over `argv[2], argv[3], ...` (main.cpp, lines 39-74). -/
def parseArgs (env : Env) : List String → Options → Option Options
  | [], o => some o
  | arg :: rest, o => (parseArg env arg o).bind (parseArgs env rest)

/-- The option parser of `main`: the defaults, then the loop over the arguments
after the csv file. -/
def parseOptions (env : Env) (argv : List String) : Option Options :=
  parseArgs env (argv.drop 2) (defaultOptions env)

/-- The nearest integer, ties to the even one. -/
def roundHalfEven (y : ℚ) : Int :=
  let f : Int := Rat.floor y
  let r : ℚ := y - f
  if r < 1 / 2 then f else if 1 / 2 < r then f + 1 else if f % 2 = 0 then f else f + 1

/-- The position of the highest set bit of `n`, at most `fuel`. -/
def log2Aux : Nat → Nat → Nat
  | 0, _ => 0
  | fuel + 1, n => if n < 2 then 0 else log2Aux fuel (n / 2) + 1

/-- The position of the highest set bit of `n`: the integer part of its binary
logarithm. -/
def ilog2 (n : Nat) : Nat := log2Aux n n

/-- The exponent `e` with `2 ^ e ≤ |x| < 2 ^ (e + 1)`, for `x ≠ 0`. -/
def binade (x : ℚ) : Int :=
  let c : Int := (ilog2 x.num.natAbs : Int) - (ilog2 x.den : Int)
  if (2 : ℚ) ^ c ≤ |x| then c else c - 1

/-- The rounding of a real value to the nearest `double` (53 significant bits, ties
to even), for values in the normal range. -/
def fl (x : ℚ) : ℚ :=
  if x = 0 then 0
  else (roundHalfEven (x / (2 : ℚ) ^ (binade x - 52)) : ℚ) * (2 : ℚ) ^ (binade x - 52)

/-- The loop `for (double i = start; i <= stop; i += step) v.push_back(i)` of
main.cpp, lines 89-91 and 94-96; `none` when the fuel runs out before the test fails. -/
def gridLoop (stop step : ℚ) : Nat → ℚ → Option (List ℚ)
  | 0, _ => none
  | fuel + 1, i =>
    if i ≤ stop then (gridLoop stop step fuel (fl (i + step))).map (fun rest => i :: rest)
    else some []

/-- The stop-loss grid of `main`: from `0.5` to `3.0` by `0.5`. -/
def slGrid (fuel : Nat) : Option (List ℚ) :=
  gridLoop 3 (1 / 2) fuel (1 / 2)

/-- The take-profit grid of `main`: from the double `0.4` to `1.0` by the double `0.1`. -/
def tpGrid (fuel : Nat) : Option (List ℚ) :=
  gridLoop 1 (fl (1 / 10)) fuel (fl (4 / 10))

/-- The arguments of the constructor of `MultiStrategyOptimizer` (main.cpp, lines
99-112), on which `optimizeAll()` is then called. -/
structure OptimizerCall where
  bars : List Bar
  strategies : List String
  sl_percents : List ℚ
  tp_percents : List ℚ
  use_sl : Bool
  use_tp : Bool
  pyramiding : Bool
  initial_capital : ℚ
  min_trades : Int
  min_win_rate : ℚ
  exclude_sl_from_winrate : Bool
  num_threads : Int
deriving DecidableEq

/-- How `main` ends: it returns a status after the listed runs of the optimizer,
or an exception leaves it uncaught. -/
inductive MainResult where
  | returned (code : Int) (runs : List OptimizerCall)
  | uncaught_exception
deriving DecidableEq

/-- The function `main` (main.cpp); `none` when the fuel of a grid loop runs out. -/
def main (env : Env) (fuel : Nat) (argv : List String) : Option MainResult :=
  if argv.length < 2 then some (.returned 1 [])
  else
    let filename := argv.getD 1 ""
    match parseOptions env argv with
    | none => some .uncaught_exception
    | some o =>
      let bars := env.loadCSV filename
      if bars.isEmpty then some (.returned 1 [])
      else do
        let sl_percents ← slGrid fuel
        let tp_percents ← tpGrid fuel
        some (.returned 0
          [{ bars := bars, strategies := o.strategies, sl_percents := sl_percents,
             tp_percents := tp_percents, use_sl := o.use_sl, use_tp := o.use_tp,
             pyramiding := o.pyramiding, initial_capital := 10000,
             min_trades := o.min_trades, min_win_rate := o.min_win_rate,
             exclude_sl_from_winrate := o.exclude_sl_from_winrate,
             num_threads := o.num_threads }])

/-- The characters that `std::isspace` accepts in the C locale. -/
def isSpaceChar (c : Char) : Bool :=
  c = ' ' || c = '\t' || c = '\n' || c = '\r' || c.toNat = 11 || c.toNat = 12

/-- A model of `std::stoi` in base 10: leading white space, an optional sign, then
decimal digits; it throws (`none`) when no digit follows or when the value does not
fit an `int`; what follows the digits is ignored. -/
def sampleStoi (s : String) : Option Int :=
  let cs := s.data.dropWhile isSpaceChar
  let (sign, ds) : Int × List Char :=
    match cs with
    | '-' :: r => (-1, r)
    | '+' :: r => (1, r)
    | _ => (1, cs)
  let digits := ds.takeWhile Char.isDigit
  if digits = [] then none
  else
    let v : Int := sign * (digitsValue digits 0 : Int)
    if -2147483648 ≤ v ∧ v ≤ 2147483647 then some v else none

/-- A model of `std::stod` on decimal text: leading white space, an optional sign,
digits and an optional fraction, read exactly; it throws (`none`) when no digit
follows. Exponents, hexadecimal forms, `inf` and `nan` are left out. -/
def sampleStod (s : String) : Option ℚ :=
  let cs := s.data.dropWhile isSpaceChar
  let (sign, ds) : ℚ × List Char :=
    match cs with
    | '-' :: r => (-1, r)
    | '+' :: r => (1, r)
    | _ => (1, cs)
  let whole := ds.takeWhile Char.isDigit
  let rest := ds.dropWhile Char.isDigit
  let frac : List Char :=
    match rest with
    | '.' :: r => r.takeWhile Char.isDigit
    | _ => []
  if whole = [] ∧ frac = [] then none
  else some (sign * ((digitsValue whole 0 : ℚ) + (digitsValue frac 0 : ℚ) / 10 ^ frac.length))

/-- A sample bar. -/
def sampleBar : Bar :=
  { date := "2024-01-02", open_ := 10, high := 11, low := 9, close := 10, volume := 100 }

/-- A sample environment: eight hardware threads and a loader that finds one bar
in `data.csv` and nothing elsewhere. -/
def sampleEnv : Env :=
  { hardware_concurrency := 8, stoi := sampleStoi, stod := sampleStod,
    loadCSV := fun f => if f = "data.csv" then [sampleBar] else [] }

/-- The argument is one of the options that `main` recognises. -/
def Recognised (arg : String) : Prop :=
  startsWith arg "--strategies=" = true ∨ startsWith arg "--threads=" = true ∨
  startsWith arg "--min-trades=" = true ∨ startsWith arg "--min-winrate=" = true ∨
  arg = "--no-sl" ∨ arg = "--no-tp" ∨ arg = "--pyramiding" ∨ arg = "--exclude-sl"

/-- The argument is `--threads=`, `--min-trades=` or `--min-winrate=` with a value
on which `std::stoi`, respectively `std::stod`, throws. -/
def Rejected (env : Env) (arg : String) : Prop :=
  (∃ v, arg = "--threads=" ++ v ∧ env.stoi v = none) ∨
  (∃ v, arg = "--min-trades=" ++ v ∧ env.stoi v = none) ∨
  (∃ v, arg = "--min-winrate=" ++ v ∧ env.stod v = none)

/-- The six values that the stop-loss loop of `main` produces. -/
def slValues : List ℚ := [1 / 2, 1, 3 / 2, 2, 5 / 2, 3]

/-- The seven values that the take-profit loop of `main` produces: the doubles
nearest `0.4`, `0.5`, `0.6`, `0.7`, then `0.7999999999999999`,
`0.8999999999999999` and `0.9999999999999999`. -/
def tpValues : List ℚ :=
  [3602879701896397 / 9007199254740992, 1 / 2, 5404319552844595 / 9007199254740992,
    3152519739159347 / 4503599627370496, 7205759403792793 / 9007199254740992,
    2026619832316723 / 2251799813685248, 9007199254740991 / 9007199254740992]

/-- The run of the optimizer that `main` makes for the options `o` on the bars
`bars`. -/
def optimizerCall (o : Options) (bars : List Bar) : OptimizerCall :=
  { bars := bars, strategies := o.strategies, sl_percents := slValues,
    tp_percents := tpValues, use_sl := o.use_sl, use_tp := o.use_tp,
    pyramiding := o.pyramiding, initial_capital := 10000, min_trades := o.min_trades,
    min_win_rate := o.min_win_rate, exclude_sl_from_winrate := o.exclude_sl_from_winrate,
    num_threads := o.num_threads }

/-! ## Lengths of the stored series -/

/-- Every series stored in the eight maps of the cache has length `N`. -/
def AllLen (N : Nat) (s : IndicatorCache) : Prop :=
  (∀ p ∈ s.var_cache, p.2.length = N) ∧ (∀ p ∈ s.ott_cache, p.2.length = N) ∧
  (∀ p ∈ s.indicator_cache, p.2.length = N) ∧ (∀ p ∈ s.abs_change_cache, p.2.length = N) ∧
  (∀ p ∈ s.sum_abs_changes_cache, p.2.length = N) ∧ (∀ p ∈ s.highest_cache, p.2.length = N) ∧
  (∀ p ∈ s.lowest_cache, p.2.length = N) ∧ (∀ p ∈ s.atr_cache, p.2.length = N)

/-! ## The efficiency ratio in double arithmetic

The loops of `getAbsChange`, `getSumAbsChanges` and of the efficiency ratio of
`getVAR` once more, with the result of every subtraction, addition and division
passed through a rounding function `rnd`: `rnd = fl` is the arithmetic of `double`
(for values in the normal range), and `rnd = id` gives the exact loops above. -/

/-- The loop of `getAbsChange` (indicators.cpp, lines 222-226) with rounded
arithmetic. -/
def absChangeComputeR (rnd : ℚ → ℚ) (data : Vec) (period : Int) : Option Vec :=
  forU period data.length (fun i result => do
    let x ← rd data i
    let y ← rd data (i - period)
    wr result i |rnd (x - y)|) (zeros data.length)

/-- The first loop of `getSumAbsChanges` (indicators.cpp, lines 246-250) with
rounded arithmetic. -/
def absChangesR (rnd : ℚ → ℚ) (data : Vec) : Option Vec :=
  forU 1 data.length (fun i changes => do
    let x ← rd data i
    let y ← rd data (i - 1)
    wr changes i |rnd (x - y)|) (zeros data.length)

/-- The second loop of `getSumAbsChanges` (indicators.cpp, lines 252-259) with
rounded arithmetic. -/
def rollingSumR (rnd : ℚ → ℚ) (changes : Vec) (period : Int) (n : Nat) : Option (ℚ × Vec) :=
  forU 0 n (fun i (p : ℚ × Vec) => do
    let ci ← rd changes i
    let sum := rnd (p.1 + ci)
    let sum ← (if 0 ≤ period ∧ i ≥ period then do
        let cp ← rd changes (i - period)
        some (rnd (sum - cp))
      else some sum)
    let result ← wr p.2 i sum
    some (sum, result)) (0, zeros n)

/-- The loops of `getSumAbsChanges` (indicators.cpp, lines 245-259) with rounded
arithmetic. -/
def sumAbsChangesComputeR (rnd : ℚ → ℚ) (data : Vec) (period : Int) : Option Vec := do
  let changes ← absChangesR rnd data
  let p ← rollingSumR rnd changes period data.length
  some p.2

/-- The efficiency-ratio loop of `getVAR` (indicators.cpp, lines 131-138) with
rounded arithmetic. -/
def efficiencyRatioComputeR (rnd : ℚ → ℚ) (n : Nat) (momentum volatility : Vec) : Option Vec :=
  forU 0 n (fun i er => do
    let vol ← rd volatility i
    if vol ≠ 0 then do
      let mom ← rd momentum i
      wr er i (rnd (mom / vol))
    else wr er i 0) (zeros n)

/-- A series of eleven doubles: a first bar at `2^52`, then `0, 1.25, 2.5, ...`
in steps of `1.25`. -/
def steps11 : Vec := [2 ^ 52, 0, 5 / 4, 5 / 2, 15 / 4, 5, 25 / 4, 15 / 2, 35 / 4, 10, 45 / 4]

/-! ## Records that differ in one field, and comma lists -/

/-- The record that agrees with `p` on every field except `sl_percent`, which is `x`. -/
def Params.withSlPercent (x : ℚ) : Params → Params
  | .ott p => .ott { p with sl_percent := x }
  | .tott p => .tott { p with sl_percent := x }
  | .ottChannel p => .ottChannel { p with sl_percent := x }
  | .risotto p => .risotto { p with sl_percent := x }
  | .sott p => .sott { p with sl_percent := x }
  | .hottLott p => .hottLott { p with sl_percent := x }
  | .rott p => .rott { p with sl_percent := x }
  | .ft p => .ft { p with sl_percent := x }
  | .rtr p => .rtr { p with sl_percent := x }
  | .mott p => .mott { p with sl_percent := x }
  | .boots p => .boots { p with sl_percent := x }

/-- The record that agrees with `p` on every field except `tp_percent`, which is `x`. -/
def Params.withTpPercent (x : ℚ) : Params → Params
  | .ott p => .ott { p with tp_percent := x }
  | .tott p => .tott { p with tp_percent := x }
  | .ottChannel p => .ottChannel { p with tp_percent := x }
  | .risotto p => .risotto { p with tp_percent := x }
  | .sott p => .sott { p with tp_percent := x }
  | .hottLott p => .hottLott { p with tp_percent := x }
  | .rott p => .rott { p with tp_percent := x }
  | .ft p => .ft { p with tp_percent := x }
  | .rtr p => .rtr { p with tp_percent := x }
  | .mott p => .mott { p with tp_percent := x }
  | .boots p => .boots { p with tp_percent := x }

/-- The text `s1,s2,...,sn` of a list of names. -/
def commaList : List String → String
  | [] => ""
  | [s] => s
  | s :: t :: rest => s ++ "," ++ commaList (t :: rest)

/-- A sample HOTT-LOTT record. -/
def sampleHottLott : HottLottParams :=
  { sl_percent := 1, tp_percent := 2, use_sl := false, use_tp := false, pyramiding := false,
    strategy_name := "HOTT-LOTT", hl_length := 5, ott_multiplier := 1 / 2, use_sum := false,
    sum_n_bars := 3 }

/-- A sample HOTT-LOTT record that uses `sum_n_bars`. -/
def sampleHottLottSum : HottLottParams := { sampleHottLott with use_sum := true }

/-- Sample hash functions: the identity on the magnitude of a number, the length
of a string. -/
def sampleHash : StdHash :=
  ⟨fun x => x.num.natAbs, fun b => b.toNat, fun n => n.natAbs, fun s => s.length⟩

/-! ## The trade simulator

`StrategyBacktester::processTrades` is declared in backtester.h (lines 22-24) and
its body is not among the sources; the simulator below follows section 4.3 of the
specification. A position is closed by the first of: the intrabar exit check, an
opposite signal, the end of the series. -/

/-- The record `struct Trade` (models.h, lines 20-28). -/
structure Trade where
  entry_index : Int
  exit_index : Int
  entry_price : ℚ
  exit_price : ℚ
  profit : ℚ
  is_long : Bool
  exit_reason : String
deriving DecidableEq

/-- Modelled from the spec: an open position of the simulator, with the state
variables side, `entry_index` and `entry_price` of section 4.3; with pyramiding
several positions of one side are open at once, each its own trade. -/
structure Position where
  is_long : Bool
  entry_index : Int
  entry_price : ℚ
deriving DecidableEq

/-- Modelled from the spec: the flags and percentages that `processTrades` takes
besides `dir`. -/
structure TradeRules where
  use_sl : Bool
  use_tp : Bool
  sl_percent : ℚ
  tp_percent : ℚ
  pyramiding : Bool

/-- Modelled from the spec: the stop-loss price of a position, `sl_percent` per
cent of the entry price against the position (scenario S3: entry 100 long, 1%, 99). -/
def slPrice (r : TradeRules) (p : Position) : ℚ :=
  if p.is_long then p.entry_price * (1 - r.sl_percent / 100)
  else p.entry_price * (1 + r.sl_percent / 100)

/-- Modelled from the spec: the take-profit price of a position, `tp_percent` per
cent of the entry price in favour of the position (scenario S3: entry 100 long, 1%,
101). -/
def tpPrice (r : TradeRules) (p : Position) : ℚ :=
  if p.is_long then p.entry_price * (1 + r.tp_percent / 100)
  else p.entry_price * (1 - r.tp_percent / 100)

/-- Modelled from the spec: the bar breaches the stop-loss level against the
position (long: `low ≤ sl_price`; short: `high ≥ sl_price`). -/
def slReached (r : TradeRules) (high low : ℚ) (p : Position) : Bool :=
  if p.is_long then decide (low ≤ slPrice r p) else decide (high ≥ slPrice r p)

/-- Modelled from the spec: the bar touches the take-profit level (long:
`high ≥ tp_price`; short: `low ≤ tp_price`). -/
def tpReached (r : TradeRules) (high low : ℚ) (p : Position) : Bool :=
  if p.is_long then decide (high ≥ tpPrice r p) else decide (low ≤ tpPrice r p)

/-- Modelled from the spec: the trade recorded when the position `p` is closed at
bar `i` at `price`; `profit = (exit_price - entry_price) * sign`. -/
def closeTrade (p : Position) (i : Int) (price : ℚ) (reason : String) : Trade :=
  { entry_index := p.entry_index, exit_index := i, entry_price := p.entry_price,
    exit_price := price,
    profit := if p.is_long then price - p.entry_price else p.entry_price - price,
    is_long := p.is_long, exit_reason := reason }

/-- Modelled from the spec: the intrabar exit check of step 1 for one position: the
exit price and reason, the stop-loss test first, the take-profit test otherwise;
`none` when the position stays open. -/
def intrabarExit (r : TradeRules) (high low : ℚ) (p : Position) : Option (ℚ × String) :=
  if r.use_sl = true ∧ slReached r high low p = true then some (slPrice r p, "sl")
  else if r.use_tp = true ∧ tpReached r high low p = true then some (tpPrice r p, "tp")
  else none

/-- Modelled from the spec: the state of the simulator: the open positions (none
when flat), `last_signal`, and the ledger of closed trades. -/
structure SimState where
  open_positions : List Position
  last_signal : Int
  ledger : List Trade
deriving DecidableEq

/-- Modelled from the spec: step 1 at bar `i`: every open position on which the
exit check fires is recorded in the ledger and leaves the open positions. -/
def exitCheck (r : TradeRules) (i : Int) (high low : ℚ) (st : SimState) : SimState :=
  { st with
    open_positions := st.open_positions.filter (fun p => (intrabarExit r high low p).isNone),
    ledger := st.ledger ++ st.open_positions.filterMap (fun p =>
      (intrabarExit r high low p).map (fun e => closeTrade p i e.1 e.2)) }

/-- Modelled from the spec: step 2 at bar `i` for the signal `d = dir[i-1]` and the
open price `o`: nothing for `d = 0`, and nothing for `d = last_signal` with
pyramiding off; otherwise the positions of the opposite side are closed at `o` with
reason `signal`, and a position of the side of `d` is opened at `o` when none of that
side is open or pyramiding is on; `last_signal` becomes `d`. -/
def signalStep (r : TradeRules) (i : Int) (d : Int) (o : ℚ) (st : SimState) : SimState :=
  if d = 0 ∨ (r.pyramiding = false ∧ d = st.last_signal) then st
  else if d = 1 ∨ d = -1 then
    let want_long : Bool := decide (d = 1)
    let same := st.open_positions.filter (fun p => p.is_long = want_long)
    let opposite := st.open_positions.filter (fun p => p.is_long ≠ want_long)
    { open_positions := same ++
        (if same = [] ∨ r.pyramiding = true
          then [{ is_long := want_long, entry_index := i, entry_price := o }] else []),
      last_signal := d,
      ledger := st.ledger ++ opposite.map (fun p => closeTrade p i o "signal") }
  else { st with last_signal := d }

/-- Modelled from the spec: the transitions of bar `i`: the intrabar exit check,
then the signal-based transition. -/
def processBar (r : TradeRules) (i : Int) (d : Int) (o high low : ℚ) (st : SimState) :
    SimState :=
  signalStep r i d o (exitCheck r i high low st)

/-- Modelled from the spec: what bar `i ≥ 1` reads: the signal `dir[i-1]` and the
open, high and low of bar `i`. -/
def barAt (opens highs lows : Vec) (dir : List Int) (i : Nat) : Option (Int × ℚ × ℚ × ℚ) := do
  let d ← dir[i - 1]?
  let o ← opens[i]?
  let h ← highs[i]?
  let l ← lows[i]?
  some (d, o, h, l)

/-- Modelled from the spec: the state after the bars `1 .. k`, from the flat state. -/
def runBars (r : TradeRules) (opens highs lows : Vec) (dir : List Int) :
    Nat → Option SimState
  | 0 => some { open_positions := [], last_signal := 0, ledger := [] }
  | k + 1 => do
    let st ← runBars r opens highs lows dir k
    let b ← barAt opens highs lows dir (k + 1)
    some (processBar r ((k + 1 : Nat) : Int) b.1 b.2.1 b.2.2.1 b.2.2.2 st)

/-- Modelled from the spec: step 3, the end-of-series flush: the positions still
open are closed at the last close with reason `end_of_data`. -/
def flush (i : Int) (c : ℚ) (st : SimState) : List Trade :=
  st.ledger ++ st.open_positions.map (fun p => closeTrade p i c "end_of_data")

/-- Modelled from the spec: `StrategyBacktester::processTrades` over the price
vectors of the backtester: the bars `1 .. N-1` left to right, then the flush at
`N-1`, where `N` is the length of `dir`. -/
def processTrades (opens highs lows closes : Vec) (dir : List Int) (use_sl use_tp : Bool)
    (sl_percent tp_percent : ℚ) (pyramiding : Bool) : Option (List Trade) :=
  let r : TradeRules := { use_sl := use_sl, use_tp := use_tp, sl_percent := sl_percent,
                          tp_percent := tp_percent, pyramiding := pyramiding }
  if dir.length = 0 then some []
  else do
    let st ← runBars r opens highs lows dir (dir.length - 1)
    let c ← closes[dir.length - 1]?
    some (flush ((dir.length - 1 : Nat) : Int) c st)

/-- The rules of scenario S3: stop-loss and take-profit both on, 1% each. -/
def rulesS3 : TradeRules :=
  { use_sl := true, use_tp := true, sl_percent := 1, tp_percent := 1, pyramiding := false }

/-- The position of scenario S3: long, entered at bar 1 at the price 100. -/
def positionS3 : Position := { is_long := true, entry_index := 1, entry_price := 100 }

/-! ## Extremes of a prefix -/

/-- The least of `data[0], ..., data[i]`. -/
def prefixMin (data : Vec) : Nat → ℚ
  | 0 => data.getD 0 0
  | i + 1 => min (prefixMin data i) (data.getD (i + 1) 0)

/-- The greatest of `data[0], ..., data[i]`. -/
def prefixMax (data : Vec) : Nat → ℚ
  | 0 => data.getD 0 0
  | i + 1 => max (prefixMax data i) (data.getD (i + 1) 0)

/-! ## Doubles with infinities and NaN

The loops of `getVAR` once more, over values that are a finite double, an infinity
or NaN, with the rules of IEEE 754: the finite result of an operation is rounded to
the nearest double (`fl`) and is an infinity when it lies beyond `DBL_MAX`; a
non-zero value divided by zero is an infinity; `0/0`, `0 * ∞`, `∞ - ∞` and `∞/∞` are
NaN, and so is every operation on NaN. Zero carries no sign (a zero divisor counts
as `+0.0`) and there is no underflow. -/

/-- A value of type `double`. -/
inductive Dbl where
  | fin (x : ℚ)
  | inf (negative : Bool)
  | nan
deriving DecidableEq

/-- The `double` that an operation with the exact result `x` returns. -/
def Dbl.round (x : ℚ) : Dbl :=
  if DBL_MAX < |fl x| then .inf (decide (x < 0)) else .fin (fl x)

/-- The negation `-a`. -/
def Dbl.neg : Dbl → Dbl
  | .fin x => .fin (-x)
  | .inf s => .inf (!s)
  | .nan => .nan

/-- The sum `a + b`. -/
def Dbl.add : Dbl → Dbl → Dbl
  | .fin a, .fin b => Dbl.round (a + b)
  | .fin _, .inf t => .inf t
  | .inf s, .fin _ => .inf s
  | .inf s, .inf t => if s = t then .inf s else .nan
  | _, _ => .nan

/-- The difference `a - b`. -/
def Dbl.sub (a b : Dbl) : Dbl := a.add b.neg

/-- The product `a * b`. -/
def Dbl.mul : Dbl → Dbl → Dbl
  | .fin a, .fin b => Dbl.round (a * b)
  | .fin a, .inf t => if a = 0 then .nan else .inf (xor (decide (a < 0)) t)
  | .inf s, .fin b => if b = 0 then .nan else .inf (xor s (decide (b < 0)))
  | .inf s, .inf t => .inf (xor s t)
  | _, _ => .nan

/-- The quotient `a / b`. -/
def Dbl.div : Dbl → Dbl → Dbl
  | .fin a, .fin b =>
    if b = 0 then (if a = 0 then .nan else .inf (decide (a < 0))) else Dbl.round (a / b)
  | .fin _, .inf _ => .fin 0
  | .inf s, .fin b => .inf (xor s (decide (b < 0)))
  | _, _ => .nan

/-- The call `std::abs(a)`. -/
def Dbl.abs : Dbl → Dbl
  | .fin x => .fin |x|
  | .inf _ => .inf false
  | .nan => .nan

/-- The test `a != 0`, which NaN passes. -/
def Dbl.isNonzero : Dbl → Bool
  | .fin x => decide (x ≠ 0)
  | _ => true

/-- The checked read `v[i]` of a vector of doubles. -/
def rdD (v : List Dbl) (i : Int) : Option Dbl :=
  if 0 ≤ i then v[i.toNat]? else none

/-- The checked write `v[i] = x` of a vector of doubles. -/
def wrD (v : List Dbl) (i : Int) (x : Dbl) : Option (List Dbl) :=
  if 0 ≤ i ∧ i.toNat < v.length then some (v.set i.toNat x) else none

/-- The vector `std::vector<double>(n, 0.0)`. -/
def zerosD (n : Nat) : List Dbl := List.replicate n (.fin 0)

/-- The loop of `getAbsChange` (indicators.cpp, lines 222-226) over doubles. -/
def absChangeComputeD (data : List Dbl) (period : Int) : Option (List Dbl) :=
  forU period data.length (fun i result => do
    let x ← rdD data i
    let y ← rdD data (i - period)
    wrD result i (x.sub y).abs) (zerosD data.length)

/-- The first loop of `getSumAbsChanges` (indicators.cpp, lines 246-250) over
doubles. -/
def absChangesD (data : List Dbl) : Option (List Dbl) :=
  forU 1 data.length (fun i changes => do
    let x ← rdD data i
    let y ← rdD data (i - 1)
    wrD changes i (x.sub y).abs) (zerosD data.length)

/-- The second loop of `getSumAbsChanges` (indicators.cpp, lines 252-259) over
doubles. -/
def rollingSumD (changes : List Dbl) (period : Int) (n : Nat) : Option (Dbl × List Dbl) :=
  forU 0 n (fun i (p : Dbl × List Dbl) => do
    let ci ← rdD changes i
    let sum := p.1.add ci
    let sum ← (if 0 ≤ period ∧ i ≥ period then do
        let cp ← rdD changes (i - period)
        some (sum.sub cp)
      else some sum)
    let result ← wrD p.2 i sum
    some (sum, result)) (.fin 0, zerosD n)

/-- The loops of `getSumAbsChanges` (indicators.cpp, lines 245-259) over doubles. -/
def sumAbsChangesComputeD (data : List Dbl) (period : Int) : Option (List Dbl) := do
  let changes ← absChangesD data
  let p ← rollingSumD changes period data.length
  some p.2

/-- The efficiency-ratio loop of `getVAR` (indicators.cpp, lines 131-138) over
doubles. -/
def efficiencyRatioComputeD (n : Nat) (momentum volatility : List Dbl) : Option (List Dbl) :=
  forU 0 n (fun i er => do
    let vol ← rdD volatility i
    if vol.isNonzero = true then do
      let mom ← rdD momentum i
      wrD er i (mom.div vol)
    else wrD er i (.fin 0)) (zerosD n)

/-- The VIDYA loop of `getVAR` (indicators.cpp, lines 141-152) over doubles, with
`alpha = 2.0 / (length + 1.0)`. -/
def vidyaLoopD (data : List Dbl) (length : Int) (efficiencyRatio : List Dbl) :
    Option (List Dbl) :=
  let alpha : Dbl := (Dbl.fin 2).div ((Dbl.fin (length : ℚ)).add (.fin 1))
  forU 0 data.length (fun i result => do
    if i = 0 then do
      let x ← rdD data i
      wrD result i x
    else if length = 1 then do
      let x ← rdD data i
      wrD result i x
    else do
      let er ← rdD efficiencyRatio i
      let x ← rdD data i
      let prev ← rdD result (i - 1)
      wrD result i (((er.mul alpha).mul (x.sub prev)).add prev)) (zerosD data.length)

/-- The computation of `getVAR` (indicators.cpp, lines 121-152) over doubles when
the three maps it consults hold no entry: momentum, volatility, efficiency ratio,
VIDYA. -/
def varComputeD (data : List Dbl) (length : Int) : Option (List Dbl) := do
  let momentum ← absChangeComputeD data 9
  let volatility ← sumAbsChangesComputeD data 9
  let efficiencyRatio ← efficiencyRatioComputeD data.length momentum volatility
  vidyaLoopD data length efficiencyRatio

/-- A series of eleven doubles: a first bar at `-2^53`, then `0, 0.75, 1.5, ..., 6`
in steps of `0.75`, and a last bar at `7.25`. -/
def dip11 : Vec := [-(2 ^ 53), 0, 3 / 4, 3 / 2, 9 / 4, 3, 15 / 4, 9 / 2, 21 / 4, 6, 29 / 4]

/-- A sample RTR record with the stop-loss and the take-profit off. -/
def sampleRtr : RtrParams :=
  { sl_percent := 1, tp_percent := 2, use_sl := false, use_tp := false, pyramiding := true,
    strategy_name := "RTR", atr_length := 14, ma_length := -3 }

/-! ## Stochastic, RSI and ATR over doubles

The loops of `getStochastic`, `getRSI` and `getATR` once more, over the doubles with
infinities and NaN. A comparison that involves NaN is false; `std::min(a, b)` is
`b < a ? b : a` and `std::max(a, b)` is `a < b ? b : a`. -/

/-- The comparison `a < b`. -/
def Dbl.lt : Dbl → Dbl → Bool
  | .fin a, .fin b => decide (a < b)
  | .fin _, .inf t => !t
  | .inf s, .fin _ => s
  | .inf s, .inf t => s && !t
  | _, _ => false

/-- The call `std::min(a, b)`. -/
def Dbl.min (a b : Dbl) : Dbl := if b.lt a = true then b else a

/-- The call `std::max(a, b)`. -/
def Dbl.max (a b : Dbl) : Dbl := if a.lt b = true then b else a

/-- The read `v[i]` that returns `oob v i` outside the bounds of `v`. -/
def rdU (oob : Vec → Int → ℚ) (v : Vec) (i : Int) : ℚ :=
  (rd v i).getD (oob v i)

/-- The seed loop of `getRSI` (indicators.cpp, lines 79-85) with reads that return a
value outside the bounds too. -/
def rsiSeedU (oob : Vec → Int → ℚ) (gains losses : Vec) (length : Int) : Option (ℚ × ℚ) :=
  forS 1 (length + 1) (fun i (p : ℚ × ℚ) =>
    some (p.1 + rdU oob gains i, p.2 + rdU oob losses i)) (0, 0)

/-- The computation of `getRSI` on a cache miss (indicators.cpp, lines 61-102) with
the seed loop `rsiSeedU`. -/
def rsiComputeU (oob : Vec → Int → ℚ) (closes : Vec) (length : Int) : Option Vec := do
  let n := closes.length
  let (_, gains, losses) ← rsiChanges closes
  let (sum_gain, sum_loss) ← rsiSeedU oob gains losses length
  let avg_gain := sum_gain / (length : ℚ)
  let avg_loss := sum_loss / (length : ℚ)
  let (_, _, result) ← rsiSmooth gains losses length n (avg_gain, avg_loss, zeros n)
  some result

/-- The method `IndicatorCache::getRSI` with the seed loop `rsiSeedU`. -/
def getRSIU (oob : Vec → Int → ℚ) (closes : Vec) (length : Int) (s : IndicatorCache) :
    Option (Vec × IndicatorCache) :=
  let cache_key := "rsi_" ++ toString length
  match mapFind s.indicator_cache cache_key with
  | some v => some (v, s)
  | none =>
    (rsiComputeU oob closes length).map
      (fun result =>
        (result, { s with indicator_cache := mapSet s.indicator_cache cache_key result }))

/-- The effect of one call on a cache, with `getRSIU` for `getRSI`. -/
def Call.runU (sqrt : ℚ → ℚ) (oob : Vec → Int → ℚ) (c : Call) (s : IndicatorCache) :
    Option (Vec × IndicatorCache) :=
  match c with
  | .rsi closes length => getRSIU oob closes length s
  | c => c.run sqrt s

/-- Every series that the call passes has the length `N`. -/
def Call.argsLen (N : Nat) : Call → Prop
  | .stochastic closes highs lows _ => closes.length = N ∧ highs.length = N ∧ lows.length = N
  | .rsi closes _ => closes.length = N
  | .var data _ => data.length = N
  | .ott data _ => data.length = N
  | .absChange data _ => data.length = N
  | .sumAbsChanges data _ => data.length = N
  | .highest data _ => data.length = N
  | .lowest data _ => data.length = N
  | .atr highs lows closes _ => highs.length = N ∧ lows.length = N ∧ closes.length = N
  | .bbUpper data _ _ => data.length = N
  | .bbLower data _ _ => data.length = N

/-- The call keeps the seed loop of `getRSI` inside the vectors of size `N`: it is
no call of `getRSI`, or its `length` is below `N`. -/
def Call.seedInBounds (N : Nat) : Call → Prop
  | .rsi _ length => length < (N : Int)
  | _ => True
/-! ## Lemmas on accesses and loops -/

theorem rd_eq (v : Vec) (i : Int) (j : Nat) (h : i = (j : Int)) : rd v i = v[j]? := by
  subst h
  simp [rd]

theorem wr_eq (v : Vec) (i : Int) (j : Nat) (x : ℚ) (h : i = (j : Int))
    (hj : j < v.length) : wr v i x = some (v.set j x) := by
  subst h
  simp [wr, hj]

theorem loopM_inv {σ : Type} (body : Int → σ → Option σ) (P : Nat → σ → Prop) (lo hi : Nat)
    (hstep : ∀ k s, lo ≤ k → k < hi → P k s → ∃ s', body (k : Int) s = some s' ∧ P (k + 1) s') :
    ∀ n k s, lo ≤ k → k + n = hi → P k s →
      ∃ s', loopM body n (k : Int) s = some s' ∧ P hi s' := by
  intro n
  induction n with
  | zero =>
    intro k s _ hk hP
    have : k = hi := by omega
    subst this
    exact ⟨s, rfl, hP⟩
  | succ n ih =>
    intro k s hlo hk hP
    obtain ⟨s1, h1, hP1⟩ := hstep k s hlo (by omega) hP
    obtain ⟨s2, h2, hP2⟩ := ih (k + 1) s1 (by omega) (by omega) hP1
    refine ⟨s2, ?_, hP2⟩
    simp only [loopM, h1, Option.some_bind]
    exact_mod_cast h2

theorem forU_inv {σ : Type} (body : Int → σ → Option σ) (P : Nat → σ → Prop) (lo hi : Nat)
    (hle : lo ≤ hi)
    (hstep : ∀ k s, lo ≤ k → k < hi → P k s → ∃ s', body (k : Int) s = some s' ∧ P (k + 1) s')
    (s : σ) (hP : P lo s) :
    ∃ s', forU (lo : Int) (hi : Int) body s = some s' ∧ P hi s' := by
  have h := loopM_inv body P lo hi hstep (hi - lo) lo s (le_refl _) (by omega) hP
  simp only [forU, Int.natCast_nonneg, if_true]
  have e : ((hi : Int) - (lo : Int)).toNat = hi - lo := by omega
  rw [e]
  exact h

theorem forS_inv {σ : Type} (body : Int → σ → Option σ) (P : Nat → σ → Prop) (lo hi : Nat)
    (hle : lo ≤ hi)
    (hstep : ∀ k s, lo ≤ k → k < hi → P k s → ∃ s', body (k : Int) s = some s' ∧ P (k + 1) s')
    (s : σ) (hP : P lo s) :
    ∃ s', forS (lo : Int) (hi : Int) body s = some s' ∧ P hi s' := by
  have h := loopM_inv body P lo hi hstep (hi - lo) lo s (le_refl _) (by omega) hP
  simp only [forS]
  have e : ((hi : Int) - (lo : Int)).toNat = hi - lo := by omega
  rw [e]
  exact h

theorem tab_length (k : Nat) (f : Nat → ℚ) (n : Nat) : (tab k f n).length = n := by
  simp [tab]

theorem tab_getElem? (k : Nat) (f : Nat → ℚ) (n j : Nat) (hj : j < n) :
    (tab k f n)[j]? = some (if j < k then f j else 0) := by
  simp [tab, List.getElem?_range hj]

theorem zeros_eq_tab (k : Nat) (f : Nat → ℚ) (n : Nat) (h : ∀ j, j < k → f j = 0) :
    zeros n = tab k f n := by
  apply List.ext_getElem?
  intro j
  by_cases hj : j < n
  · rw [tab_getElem? _ _ _ _ hj]
    simp only [zeros, List.getElem?_replicate, hj, if_true]
    split
    · rw [h j (by assumption)]
    · rfl
  · have h1 : (zeros n).length ≤ j := by simp [zeros]; omega
    have h2 : (tab k f n).length ≤ j := by simp [tab]; omega
    rw [List.getElem?_eq_none h1, List.getElem?_eq_none h2]

theorem rd_tab (k : Nat) (f : Nat → ℚ) (n : Nat) (i : Int) (j : Nat) (hi : i = (j : Int))
    (hj : j < k) (hn : j < n) : rd (tab k f n) i = some (f j) := by
  rw [rd_eq _ _ j hi, tab_getElem? _ _ _ _ hn, if_pos hj]

theorem wr_tab (k : Nat) (f : Nat → ℚ) (n : Nat) (i : Int) (x : ℚ) (hi : i = (k : Int))
    (hn : k < n) (hx : x = f k) : wr (tab k f n) i x = some (tab (k + 1) f n) := by
  rw [wr_eq _ _ k _ hi (by rw [tab_length]; exact hn)]
  congr 1
  apply List.ext_getElem?
  intro j
  by_cases hj : j < n
  · rw [tab_getElem? _ _ _ _ hj]
    by_cases hjk : k = j
    · subst hjk
      rw [List.getElem?_set_self (by rw [tab_length]; exact hn), hx]
      simp
    · rw [List.getElem?_set_ne hjk, tab_getElem? _ _ _ _ hj]
      congr 1
      by_cases h1 : j < k
      · rw [if_pos h1, if_pos (by omega)]
      · rw [if_neg h1, if_neg (by omega)]
  · rw [List.getElem?_eq_none (by simp [tab_length]; omega),
      List.getElem?_eq_none (by simp [tab_length]; omega)]

theorem rd_data (data : Vec) (i : Int) (j : Nat) (hi : i = (j : Int)) (hj : j < data.length) :
    rd data i = some (data.getD j 0) := by
  rw [rd_eq _ _ j hi]
  simp [List.getElem?_eq_getElem hj]

/-! ## OTT -/

theorem ott_c_update (x a cp : ℚ) :
    (if x - x * a > cp ∨ x < cp then x - x * a else cp)
      = if x ≥ cp then max (x - a * x) cp else x - a * x := by
  rw [mul_comm x a]
  by_cases h : x ≥ cp
  · rw [if_pos h]
    by_cases h2 : x - a * x > cp
    · rw [if_pos (Or.inl h2), max_eq_left (le_of_lt h2)]
    · rw [if_neg (by rintro (h3 | h3); exact h2 h3; exact absurd h (not_le.mpr h3)),
        max_eq_right (not_lt.mp h2)]
  · rw [if_neg h, if_pos (Or.inr (not_le.mp h))]

theorem ott_d_update (x a dp : ℚ) :
    (if x + x * a < dp ∨ x > dp then x + x * a else dp)
      = if x ≤ dp then min (x + a * x) dp else x + a * x := by
  rw [mul_comm x a]
  by_cases h : x ≤ dp
  · rw [if_pos h]
    by_cases h2 : x + a * x < dp
    · rw [if_pos (Or.inl h2), min_eq_left (le_of_lt h2)]
    · rw [if_neg (by rintro (h3 | h3); exact h2 h3; exact absurd h (not_le.mpr h3)),
        min_eq_right (not_lt.mp h2)]
  · rw [if_neg h, if_pos (Or.inr (not_le.mp h))]

theorem ottBody_step (data : Vec) (a : ℚ) (k : Nat) (hk : k < data.length) :
    ottBody data a (k : Int) (ottStateAt data a k) = some (ottStateAt data a (k + 1)) := by
  generalize hi : (k : Int) = i
  unfold ottBody
  rw [rd_data data i k hi.symm hk]
  simp only [Option.some_bind, Option.bind_eq_bind, ottStateAt]
  cases k with
  | zero =>
    have hi0 : i = 0 := by omega
    rw [if_pos hi0]
    rw [wr_tab 0 (specC data a) _ i _ (by omega) hk (by simp only [specC]; ring)]
    rw [wr_tab 0 (specD data a) _ i _ (by omega) hk (by simp only [specD]; ring)]
    rw [wr_tab 0 (specE data a) _ i _ (by omega) hk (by simp only [specE])]
    simp only [Option.some_bind]
    rw [rd_tab 1 (specE data a) _ i 0 (by omega) (by omega) hk]
    simp only [Option.some_bind]
    rw [wr_tab 0 (specH data a) _ i _ (by omega) hk (by simp only [specH, specE])]
    simp only [Option.some_bind]
    rw [if_neg (by omega)]
    rw [wr_tab 0 _ _ i _ (by omega) hk (by simp)]
    simp only [Option.some_bind]
  | succ k =>
    have hi0 : ¬ i = 0 := by omega
    rw [if_neg hi0]
    rw [rd_tab (k + 1) (specC data a) _ (i - 1) k (by omega) (by omega) (by omega)]
    simp only [Option.some_bind]
    rw [wr_tab (k + 1) (specC data a) _ i _ (by omega) hk
      (by simp only [specC]; exact ott_c_update _ _ _)]
    simp only [Option.some_bind]
    rw [rd_tab (k + 1) (specD data a) _ (i - 1) k (by omega) (by omega) (by omega)]
    simp only [Option.some_bind]
    rw [wr_tab (k + 1) (specD data a) _ i _ (by omega) hk
      (by simp only [specD]; exact ott_d_update _ _ _)]
    simp only [Option.some_bind]
    rw [rd_tab (k + 1) (specE data a) _ (i - 1) k (by omega) (by omega) (by omega)]
    simp only [Option.some_bind]
    rw [rd_tab (k + 1 + 1) (specC data a) _ i (k + 1) (by omega) (by omega) hk]
    simp only [Option.some_bind]
    rw [rd_tab (k + 1 + 1) (specD data a) _ i (k + 1) (by omega) (by omega) hk]
    simp only [Option.some_bind]
    rw [wr_tab (k + 1) (specE data a) _ i _ (by omega) hk (by simp only [specE])]
    simp only [Option.some_bind]
    rw [rd_tab (k + 1 + 1) (specE data a) _ i (k + 1) (by omega) (by omega) hk]
    simp only [Option.some_bind]
    rw [wr_tab (k + 1) (specH data a) _ i _ (by omega) hk (by simp only [specH])]
    simp only [Option.some_bind]
    cases k with
    | zero =>
      rw [if_neg (by omega)]
      rw [wr_tab 1 _ _ i _ (by omega) hk (by simp)]
      simp only [Option.some_bind]
    | succ k =>
      rw [if_pos (by omega)]
      rw [rd_tab (k + 1 + 1 + 1) (specH data a) _ (i - 2) k (by omega) (by omega) (by omega)]
      simp only [Option.some_bind]
      rw [wr_tab (k + 1 + 1) _ _ i _ (by omega) hk
        (by rw [if_neg (by omega), show k + 1 + 1 - 2 = k by omega])]
      simp only [Option.some_bind]

theorem ottCompute_eq (data : Vec) (multiplier : ℚ) :
    ottCompute data multiplier = some (tab data.length
      (fun j => if j < 2 then 0 else specH data (multiplier / 100) (j - 2)) data.length) := by
  have h := forU_inv (ottBody data (multiplier / 100))
    (fun k s => s = ottStateAt data (multiplier / 100) k) 0 data.length (Nat.zero_le _)
    (fun k s _ hk hs => ⟨_, by rw [hs]; exact ottBody_step data _ k hk, rfl⟩)
    (ottStateAt data (multiplier / 100) 0) rfl
  obtain ⟨s', h1, h2⟩ := h
  have h0 : ottStateAt data (multiplier / 100) 0 =
      { result := zeros data.length, c := zeros data.length, d := zeros data.length,
        e := zeros data.length, h := zeros data.length } := by
    simp only [ottStateAt]
    rw [← zeros_eq_tab 0 _ _ (by intro j hj; omega), ← zeros_eq_tab 0 _ _ (by intro j hj; omega),
      ← zeros_eq_tab 0 _ _ (by intro j hj; omega), ← zeros_eq_tab 0 _ _ (by intro j hj; omega),
      ← zeros_eq_tab 0 _ _ (by intro j hj; omega)]
  rw [h0] at h1
  simp only [ottCompute]
  have e0 : ((0 : Nat) : Int) = 0 := rfl
  rw [e0] at h1
  rw [h1, h2]
  rfl

theorem getOTT_miss (data : Vec) (multiplier : ℚ) (s : IndicatorCache)
    (hmiss : mapFind s.ott_cache ((data.length : Int), multiplier) = none) :
    getOTT data multiplier s = some (tab data.length
        (fun j => if j < 2 then 0 else specH data (multiplier / 100) (j - 2)) data.length,
      { s with ott_cache := (mapSet s.ott_cache ((data.length : Int), multiplier)
          (tab data.length
            (fun j => if j < 2 then 0 else specH data (multiplier / 100) (j - 2))
            data.length)) }) := by
  simp only [getOTT, hmiss, ottCompute_eq, Option.map_some']

/-- C3: on a cache holding no OTT entry for the key, `getOTT` returns a series of
the length of `data` whose value is `0` at the indices below `2` and `h[i-2]` at every
index `i ≥ 2`, with `e` and `h` as the claim defines them over the bands `c`, `d`. -/
theorem getOTT_definition (data : Vec) (multiplier : ℚ) (s : IndicatorCache)
    (hmiss : mapFind s.ott_cache ((data.length : Int), multiplier) = none) :
    ∃ r s', getOTT data multiplier s = some (r, s') ∧ r.length = data.length ∧
      ∀ i, i < data.length →
        r[i]? = some (if i < 2 then 0 else specH data (multiplier / 100) (i - 2)) := by
  have hget := getOTT_miss data multiplier s hmiss
  refine ⟨_, _, hget, ?_, ?_⟩
  · exact tab_length _ _ _
  · intro i hi
    rw [tab_getElem? _ _ _ _ hi, if_pos hi]

theorem getOTT_definition_witness :
    mapFind emptyCache.ott_cache ((([10, 11, 12, 13] : Vec).length : Int), (1 : ℚ)) = none ∧
    ∃ r s', getOTT [10, 11, 12, 13] 1 emptyCache = some (r, s') ∧
      r.length = ([10, 11, 12, 13] : Vec).length ∧
      ∀ i, i < ([10, 11, 12, 13] : Vec).length →
        r[i]? = some (if i < 2 then 0 else specH [10, 11, 12, 13] ((1 : ℚ) / 100) (i - 2)) :=
  ⟨rfl, getOTT_definition [10, 11, 12, 13] 1 emptyCache rfl⟩

/-! ## Calls that hit an entry stored for another series -/

/-- C1: the key of `getOTT` holds the size of `data` and the multiplier only. With
the VIDYA of the closes for the lengths 10 and 20 (two different series of the same
size) and the multiplier 0.5, the second call of `getOTT` is a hit and returns the
series of the first call, whose last value is 558593/55000; the OTT series of its own
argument, as an empty cache returns it, ends in 4229347/420000. -/
theorem getOTT_stale_hit :
    ((getVAR closes12 10 emptyCache).bind fun p1 =>
      (getVAR closes12 20 p1.2).bind fun p2 =>
        (getOTT p1.1 (1 / 2) p2.2).bind fun p3 =>
          (getOTT p2.1 (1 / 2) p3.2).map fun p4 => (decide (p1.1 = p2.1), p3.1, p4.1))
      = some (false,
          [0, 0, 0, 79799 / 8000, 79799 / 8000, 79799 / 8000, 79799 / 8000, 79799 / 8000,
            79799 / 8000, 79799 / 8000, 79799 / 8000, 558593 / 55000],
          [0, 0, 0, 79799 / 8000, 79799 / 8000, 79799 / 8000, 79799 / 8000, 79799 / 8000,
            79799 / 8000, 79799 / 8000, 79799 / 8000, 558593 / 55000]) ∧
    ((getVAR closes12 20 emptyCache).bind fun p => (getOTT p.1 (1 / 2) emptyCache).map Prod.fst)
      = some [0, 0, 0, 79799 / 8000, 79799 / 8000, 79799 / 8000, 79799 / 8000, 79799 / 8000,
          79799 / 8000, 79799 / 8000, 79799 / 8000, 4229347 / 420000] := by
  decide!

/-- C2: the key of `getVAR` is the length only, and the keys of `getAbsChange` and
`getSumAbsChanges` are the period only. After `getVAR(closes, 10)`, the call
`getVAR(highest, 10)` on the rolling highest of the closes is a hit and returns the
VIDYA of the closes; the call `getVAR(highest, 5)` is a miss of `var_cache` but takes
the momentum and the volatility of the closes from the two other maps. Neither
result is the VIDYA of the rolling-highest series, as an empty cache returns it. -/
theorem getVAR_stale_hit :
    ((getVAR closes12 10 emptyCache).bind fun p =>
      (getHighest closes12 10 p.2).bind fun q => (getVAR q.1 10 q.2).map Prod.fst)
      = some [10, 10, 10, 10, 10, 10, 10, 10, 10, 112 / 11, 1260 / 121, 125366 / 11979] ∧
    ((getHighest closes12 10 emptyCache).bind fun q =>
      (getVAR q.1 10 emptyCache).map Prod.fst)
      = some [10, 10, 10, 10, 10, 10, 10, 10, 10, 116 / 11, 1352 / 121, 15556 / 1331] ∧
    ((getVAR closes12 10 emptyCache).bind fun p =>
      (getHighest closes12 5 p.2).bind fun q => (getVAR q.1 5 q.2).map Prod.fst)
      = some [10, 10, 10, 10, 10, 10, 10, 10, 10, 31 / 3, 290 / 27, 7918 / 729] ∧
    ((getHighest closes12 5 emptyCache).bind fun q =>
      (getVAR q.1 5 emptyCache).map Prod.fst)
      = some [10, 10, 10, 10, 10, 10, 10, 10, 10, 53 / 5, 282 / 25, 176 / 15] := by
  decide!

/-- C10: `getRSI` sums `gains[i]` and `losses[i]` for `i = 1 .. length` with no test
of `length` against the size of `closes`. On three closes with the length 8, and on
no closes with the length 1, a read is outside the vectors; `getATR`, which tests
the size against the period first, returns the zero series on the same three bars. -/
theorem getRSI_reads_out_of_bounds :
    getRSI [1, 2, 3] 8 emptyCache = none ∧ getRSI [] 1 emptyCache = none ∧
    (getATR [1, 2, 3] [1, 2, 3] [1, 2, 3] 8 emptyCache).map Prod.fst = some [0, 0, 0] := by
  decide!

/-! ## Running extremes -/

theorem getD_mem_window (v : Vec) (lo hi j : Nat) (h1 : lo ≤ j) (h2 : j ≤ hi)
    (hj : j < v.length) : v.getD j 0 ∈ window v lo hi := by
  refine ⟨j, h1, h2, ?_⟩
  simp [List.getElem?_eq_getElem hj]

theorem window_getD (v : Vec) (lo hi : Nat) (x : ℚ) (hx : x ∈ window v lo hi) :
    ∃ j, lo ≤ j ∧ j ≤ hi ∧ j < v.length ∧ x = v.getD j 0 := by
  obtain ⟨j, h1, h2, h3⟩ := hx
  have hj : j < v.length := by
    by_contra hc
    rw [List.getElem?_eq_none (by omega)] at h3
    exact Option.noConfusion h3
  refine ⟨j, h1, h2, hj, ?_⟩
  simp [h3]

theorem runMax_isGreatest (v : Vec) (init : ℚ) (lo : Nat) :
    ∀ m, lo + m < v.length → (∀ j, lo ≤ j → j ≤ lo + m → init ≤ v.getD j 0) →
      IsGreatest (window v lo (lo + m)) (runMax v init lo (m + 1)) := by
  intro m
  induction m with
  | zero =>
    intro hlen hinit
    have h0 : runMax v init lo 1 = v.getD lo 0 := by
      simp only [runMax, Nat.add_zero]
      exact max_eq_right (hinit lo (le_refl _) (by omega))
    rw [h0]
    refine ⟨getD_mem_window v lo _ lo (le_refl _) (by omega) (by omega), ?_⟩
    intro x hx
    obtain ⟨j, h1, h2, _, h4⟩ := window_getD v lo _ x hx
    have : j = lo := by omega
    rw [h4, this]
  | succ m ih =>
    intro hlen hinit
    have ih1 := ih (by omega) (fun j h1 h2 => hinit j h1 (by omega))
    have hdef : runMax v init lo (m + 1 + 1) =
        max (runMax v init lo (m + 1)) (v.getD (lo + (m + 1)) 0) := rfl
    rw [hdef]
    constructor
    · rcases le_total (runMax v init lo (m + 1)) (v.getD (lo + (m + 1)) 0) with h | h
      · rw [max_eq_right h]
        exact getD_mem_window v lo _ _ (by omega) (le_refl _) hlen
      · rw [max_eq_left h]
        obtain ⟨j, h1, h2, h3⟩ := ih1.1
        exact ⟨j, h1, by omega, h3⟩
    · intro x hx
      obtain ⟨j, h1, h2, h3, h4⟩ := window_getD v lo _ x hx
      by_cases hj : j ≤ lo + m
      · exact le_trans (ih1.2 (by rw [h4]; exact getD_mem_window v lo _ j h1 hj h3))
          (le_max_left _ _)
      · have : j = lo + (m + 1) := by omega
        rw [h4, this]
        exact le_max_right _ _

theorem runMin_isLeast (v : Vec) (init : ℚ) (lo : Nat) :
    ∀ m, lo + m < v.length → (∀ j, lo ≤ j → j ≤ lo + m → v.getD j 0 ≤ init) →
      IsLeast (window v lo (lo + m)) (runMin v init lo (m + 1)) := by
  intro m
  induction m with
  | zero =>
    intro hlen hinit
    have h0 : runMin v init lo 1 = v.getD lo 0 := by
      simp only [runMin, Nat.add_zero]
      exact min_eq_right (hinit lo (le_refl _) (by omega))
    rw [h0]
    refine ⟨getD_mem_window v lo _ lo (le_refl _) (by omega) (by omega), ?_⟩
    intro x hx
    obtain ⟨j, h1, h2, _, h4⟩ := window_getD v lo _ x hx
    have : j = lo := by omega
    rw [h4, this]
  | succ m ih =>
    intro hlen hinit
    have ih1 := ih (by omega) (fun j h1 h2 => hinit j h1 (by omega))
    have hdef : runMin v init lo (m + 1 + 1) =
        min (runMin v init lo (m + 1)) (v.getD (lo + (m + 1)) 0) := rfl
    rw [hdef]
    constructor
    · rcases le_total (runMin v init lo (m + 1)) (v.getD (lo + (m + 1)) 0) with h | h
      · rw [min_eq_left h]
        obtain ⟨j, h1, h2, h3⟩ := ih1.1
        exact ⟨j, h1, by omega, h3⟩
      · rw [min_eq_right h]
        exact getD_mem_window v lo _ _ (by omega) (le_refl _) hlen
    · intro x hx
      obtain ⟨j, h1, h2, h3, h4⟩ := window_getD v lo _ x hx
      by_cases hj : j ≤ lo + m
      · exact le_trans (min_le_left _ _)
          (ih1.2 (by rw [h4]; exact getD_mem_window v lo _ j h1 hj h3))
      · have : j = lo + (m + 1) := by omega
        rw [h4, this]
        exact min_le_right _ _

theorem finite_getD (v : Vec) (hv : FiniteSeries v) (j : Nat) (hj : j < v.length) :
    -DBL_MAX ≤ v.getD j 0 ∧ v.getD j 0 ≤ DBL_MAX := by
  have h : v.getD j 0 = v[j] := by simp [List.getElem?_eq_getElem hj]
  rw [h]
  exact hv _ (List.getElem_mem hj)

/-- The running-maximum loop over `j = lo .. hi-1` of a series. -/
theorem maxLoop_eq (data : Vec) (init : ℚ) (lo hi : Nat) (hle : lo ≤ hi)
    (hlen : hi ≤ data.length) :
    forS (lo : Int) (hi : Int) (fun j (highest : ℚ) => do
        let x ← rd data j
        some (max highest x)) init = some (runMax data init lo (hi - lo)) := by
  have h := forS_inv (fun j (highest : ℚ) => do
        let x ← rd data j
        some (max highest x)) (fun k acc => acc = runMax data init lo (k - lo)) lo hi hle
    (by
      intro k s h1 h2 hs
      refine ⟨_, ?_, rfl⟩
      beta_reduce
      rw [rd_data data _ k rfl (by omega), hs]
      simp only [Option.some_bind, Option.bind_eq_bind]
      have e : k + 1 - lo = (k - lo) + 1 := by omega
      rw [e, runMax]
      have e2 : lo + (k - lo) = k := by omega
      rw [e2]) init (by simp [runMax])
  obtain ⟨s', h1, h2⟩ := h
  rw [h1, h2]

/-- The running-minimum loop over `j = lo .. hi-1` of a series. -/
theorem minLoop_eq (data : Vec) (init : ℚ) (lo hi : Nat) (hle : lo ≤ hi)
    (hlen : hi ≤ data.length) :
    forS (lo : Int) (hi : Int) (fun j (lowest : ℚ) => do
        let x ← rd data j
        some (min lowest x)) init = some (runMin data init lo (hi - lo)) := by
  have h := forS_inv (fun j (lowest : ℚ) => do
        let x ← rd data j
        some (min lowest x)) (fun k acc => acc = runMin data init lo (k - lo)) lo hi hle
    (by
      intro k s h1 h2 hs
      refine ⟨_, ?_, rfl⟩
      beta_reduce
      rw [rd_data data _ k rfl (by omega), hs]
      simp only [Option.some_bind, Option.bind_eq_bind]
      have e : k + 1 - lo = (k - lo) + 1 := by omega
      rw [e, runMin]
      have e2 : lo + (k - lo) = k := by omega
      rw [e2]) init (by simp [runMin])
  obtain ⟨s', h1, h2⟩ := h
  rw [h1, h2]

/-- A loop that fills `result[lo], result[lo+1], ...` one element per iteration. -/
theorem forU_tab (body : Int → Vec → Option Vec) (f : Nat → ℚ) (lo n : Nat)
    (hf0 : ∀ j, j < lo → f j = 0)
    (hbody : ∀ k, lo ≤ k → k < n → body (k : Int) (tab k f n) = some (tab (k + 1) f n)) :
    forU (lo : Int) (n : Int) body (zeros n) = some (tab n f n) := by
  by_cases hle : lo ≤ n
  · have h := forU_inv body (fun k s => s = tab k f n) lo n hle
      (fun k s h1 h2 hs => ⟨_, by rw [hs]; exact hbody k h1 h2, rfl⟩) (tab lo f n) rfl
    obtain ⟨s', h1, h2⟩ := h
    rw [zeros_eq_tab lo f n hf0, h1, h2]
  · have e : ((n : Int) - (lo : Int)).toNat = 0 := by omega
    simp only [forU, Int.natCast_nonneg, if_true, e, loopM]
    rw [zeros_eq_tab n f n (fun j hj => hf0 j (by omega))]

/-! ## Rolling highest and lowest -/

theorem fst_some {α β : Type} (x : Option (α × β)) (a : α)
    (h : x.map Prod.fst = some a) : ∃ b, x = some (a, b) := by
  cases x with
  | none => exact Option.noConfusion h
  | some p =>
    obtain ⟨p1, p2⟩ := p
    simp only [Option.map_some', Option.some.injEq] at h
    exact ⟨p2, by rw [← h]⟩

theorem highestCompute_eq (data : Vec) (period : Nat) :
    highestCompute data (period : Int) = some (tab data.length
      (fun i => runMax data (-DBL_MAX) (i + 1 - period) (i + 1 - (i + 1 - period)))
      data.length) := by
  unfold highestCompute
  refine forU_tab _ _ 0 _ ?_ ?_
  · intro j hj; omega
  · intro k _ hk
    have e1 : max (0 : Int) ((k : Int) - (period : Int) + 1) = ((k + 1 - period : Nat) : Int) := by
      omega
    have e2 : (k : Int) + 1 = ((k + 1 : Nat) : Int) := by omega
    rw [e1, e2, maxLoop_eq data _ _ _ (by omega) (by omega)]
    simp only [Option.some_bind, Option.bind_eq_bind]
    exact wr_tab k _ _ _ _ rfl hk rfl

theorem lowestCompute_eq (data : Vec) (period : Nat) :
    lowestCompute data (period : Int) = some (tab data.length
      (fun i => runMin data DBL_MAX (i + 1 - period) (i + 1 - (i + 1 - period)))
      data.length) := by
  unfold lowestCompute
  refine forU_tab _ _ 0 _ ?_ ?_
  · intro j hj; omega
  · intro k _ hk
    have e1 : max (0 : Int) ((k : Int) - (period : Int) + 1) = ((k + 1 - period : Nat) : Int) := by
      omega
    have e2 : (k : Int) + 1 = ((k + 1 : Nat) : Int) := by omega
    rw [e1, e2, minLoop_eq data _ _ _ (by omega) (by omega)]
    simp only [Option.some_bind, Option.bind_eq_bind]
    exact wr_tab k _ _ _ _ rfl hk rfl

theorem getHighest_empty (data : Vec) (period : Nat) :
    (getHighest data (period : Int) emptyCache).map Prod.fst = some (tab data.length
      (fun i => runMax data (-DBL_MAX) (i + 1 - period) (i + 1 - (i + 1 - period)))
      data.length) := by
  simp only [getHighest, emptyCache, mapFind, highestCompute_eq, Option.map_some']

theorem getLowest_empty (data : Vec) (period : Nat) :
    (getLowest data (period : Int) emptyCache).map Prod.fst = some (tab data.length
      (fun i => runMin data DBL_MAX (i + 1 - period) (i + 1 - (i + 1 - period)))
      data.length) := by
  simp only [getLowest, emptyCache, mapFind, lowestCompute_eq, Option.map_some']

/-- C9: on an empty cache, for a series of finite doubles and a period of at least 1,
`getHighest` and `getLowest` return series of the length of `data` whose value at
every index `i` is the maximum, and the minimum, of `data[max(0, i-period+1) .. i]`
(the lower end `i + 1 - period` is a truncated subtraction). -/
theorem rolling_extremes (data : Vec) (period : Nat) (hp : 1 ≤ period) (hfin : FiniteSeries data) :
    ∃ hi s1 lo s2, getHighest data (period : Int) emptyCache = some (hi, s1) ∧
      getLowest data (period : Int) emptyCache = some (lo, s2) ∧
      hi.length = data.length ∧ lo.length = data.length ∧
      ∀ i, i < data.length →
        IsGreatest (window data (i + 1 - period) i) (hi.getD i 0) ∧
        IsLeast (window data (i + 1 - period) i) (lo.getD i 0) := by
  obtain ⟨s1, h1⟩ := fst_some _ _ (getHighest_empty data period)
  obtain ⟨s2, h2⟩ := fst_some _ _ (getLowest_empty data period)
  refine ⟨_, s1, _, s2, h1, h2, tab_length _ _ _, tab_length _ _ _, ?_⟩
  · intro i hi
    have hw : i + 1 - period + (i - (i + 1 - period)) = i := by omega
    have hm : i + 1 - (i + 1 - period) = (i - (i + 1 - period)) + 1 := by omega
    constructor
    · have h := runMax_isGreatest data (-DBL_MAX) (i + 1 - period) (i - (i + 1 - period))
        (by omega) (fun j _ hj => (finite_getD data hfin j (by omega)).1)
      rw [hw] at h
      simp only [List.getD_eq_getElem?_getD, tab_getElem? _ _ _ _ hi, if_pos hi,
        Option.getD_some]
      rw [hm]
      simpa using h
    · have h := runMin_isLeast data DBL_MAX (i + 1 - period) (i - (i + 1 - period))
        (by omega) (fun j _ hj => (finite_getD data hfin j (by omega)).2)
      rw [hw] at h
      simp only [List.getD_eq_getElem?_getD, tab_getElem? _ _ _ _ hi, if_pos hi,
        Option.getD_some]
      rw [hm]
      simpa using h

theorem closes12_finite : FiniteSeries closes12 := by
  unfold FiniteSeries
  decide!

theorem rolling_extremes_witness :
    1 ≤ 3 ∧ FiniteSeries closes12 ∧
    ∃ hi s1 lo s2, getHighest closes12 ((3 : Nat) : Int) emptyCache = some (hi, s1) ∧
      getLowest closes12 ((3 : Nat) : Int) emptyCache = some (lo, s2) ∧
      hi.length = closes12.length ∧ lo.length = closes12.length ∧
      ∀ i, i < closes12.length →
        IsGreatest (window closes12 (i + 1 - 3) i) (hi.getD i 0) ∧
        IsLeast (window closes12 (i + 1 - 3) i) (lo.getD i 0) :=
  ⟨by decide, closes12_finite, rolling_extremes closes12 3 (by decide) closes12_finite⟩

/-! ## Stochastic %K -/

theorem stochWindow_eq (highs lows : Vec) (k m : Nat) (hk : 1 ≤ k) (hkm : k ≤ m)
    (hl : m < lows.length) (hh : m < highs.length) :
    stochWindow highs lows (k : Int) (m : Int)
      = some (runMin lows DBL_MAX (m + 1 - k) k, runMax highs (-DBL_MAX) (m + 1 - k) k) := by
  unfold stochWindow
  have e1 : (m : Int) - (k : Int) + 1 = ((m + 1 - k : Nat) : Int) := by omega
  have e2 : (m : Int) + 1 = ((m + 1 : Nat) : Int) := by omega
  rw [e1, e2]
  have h := forS_inv (fun j (p : ℚ × ℚ) =>
      if j ≥ 0 then do
        let l ← rd lows j
        let h ← rd highs j
        some (min p.1 l, max p.2 h)
      else some p)
    (fun j p => p = (runMin lows DBL_MAX (m + 1 - k) (j - (m + 1 - k)),
      runMax highs (-DBL_MAX) (m + 1 - k) (j - (m + 1 - k)))) (m + 1 - k) (m + 1) (by omega)
    (by
      intro j s h1 h2 hs
      refine ⟨_, ?_, rfl⟩
      beta_reduce
      rw [if_pos (by omega), rd_data lows _ j rfl (by omega), rd_data highs _ j rfl (by omega), hs]
      simp only [Option.some_bind, Option.bind_eq_bind]
      have e : j + 1 - (m + 1 - k) = (j - (m + 1 - k)) + 1 := by omega
      rw [e, runMin, runMax]
      have e3 : m + 1 - k + (j - (m + 1 - k)) = j := by omega
      rw [e3]) (DBL_MAX, -DBL_MAX) (by simp [runMin, runMax])
  obtain ⟨s', h1, h2⟩ := h
  rw [h1, h2]
  have e4 : m + 1 - (m + 1 - k) = k := by omega
  rw [e4]

theorem stochasticCompute_eq (closes highs lows : Vec) (k : Nat) (hk : 1 ≤ k)
    (hh : highs.length = closes.length) (hl : lows.length = closes.length) :
    stochasticCompute closes highs lows (k : Int)
      = some (tab closes.length (stochValue closes highs lows k) closes.length) := by
  unfold stochasticCompute
  refine forU_tab _ _ k _ ?_ ?_
  · intro j hj
    simp only [stochValue, if_pos hj]
  · intro m hkm hm
    beta_reduce
    rw [stochWindow_eq highs lows k m hk hkm (by omega) (by omega)]
    simp only [Option.some_bind, Option.bind_eq_bind]
    by_cases hr : runMax highs (-DBL_MAX) (m + 1 - k) k - runMin lows DBL_MAX (m + 1 - k) k > 0
    · rw [if_pos hr, rd_data closes _ m rfl hm]
      simp only [Option.some_bind]
      exact wr_tab m _ _ _ _ rfl hm (by simp only [stochValue, if_neg (not_lt.mpr hkm), if_pos hr])
    · rw [if_neg hr]
      exact wr_tab m _ _ _ _ rfl hm (by simp only [stochValue, if_neg (not_lt.mpr hkm), if_neg hr])

theorem getStochastic_empty (closes highs lows : Vec) (k : Nat) (hk : 1 ≤ k)
    (hh : highs.length = closes.length) (hl : lows.length = closes.length) :
    (getStochastic closes highs lows (k : Int) emptyCache).map Prod.fst
      = some (tab closes.length (stochValue closes highs lows k) closes.length) := by
  simp only [getStochastic, emptyCache, mapFind, stochasticCompute_eq closes highs lows k hk hh hl,
    Option.map_some']

/-- C6 as amended: on an empty cache, for closes, highs and lows of equal length
(finite doubles) and `k ≥ 1`, `getStochastic` returns a series `r` of that length with
`r[i] = 0` for `i < k` and, for every `i ≥ k`, with `L` the minimum of
`lows[i-k+1..i]` and `H` the maximum of `highs[i-k+1..i]`, `r[i] = 100` if the range
`H - L` is zero or negative and `r[i] = 100*(closes[i] - L)/(H - L)` otherwise. -/
theorem getStochastic_definition (closes highs lows : Vec) (k : Nat) (hk : 1 ≤ k)
    (hh : highs.length = closes.length) (hl : lows.length = closes.length)
    (hfh : FiniteSeries highs) (hfl : FiniteSeries lows) :
    ∃ r s', getStochastic closes highs lows (k : Int) emptyCache = some (r, s') ∧
      r.length = closes.length ∧
      ∀ i, i < closes.length →
        (i < k → r[i]? = some 0) ∧
        (k ≤ i → ∃ L H, IsLeast (window lows (i - k + 1) i) L ∧
          IsGreatest (window highs (i - k + 1) i) H ∧
          r[i]? = some (if H - L ≤ 0 then 100 else 100 * (closes.getD i 0 - L) / (H - L))) := by
  obtain ⟨s', h1⟩ := fst_some _ _ (getStochastic_empty closes highs lows k hk hh hl)
  refine ⟨_, s', h1, tab_length _ _ _, ?_⟩
  intro i hi
  rw [tab_getElem? _ _ _ _ hi, if_pos hi]
  constructor
  · intro hik
    simp only [stochValue, if_pos hik]
  · intro hki
    have e : i + 1 - k = i - k + 1 := by omega
    have e2 : i - k + 1 + (k - 1) = i := by omega
    have e3 : k = (k - 1) + 1 := by omega
    have hL := runMin_isLeast lows DBL_MAX (i - k + 1) (k - 1) (by omega)
      (fun j _ hj => (finite_getD lows hfl j (by omega)).2)
    have hH := runMax_isGreatest highs (-DBL_MAX) (i - k + 1) (k - 1) (by omega)
      (fun j _ hj => (finite_getD highs hfh j (by omega)).1)
    rw [e2, ← e3] at hL hH
    refine ⟨_, _, hL, hH, ?_⟩
    simp only [stochValue, if_neg (not_lt.mpr hki), e]
    by_cases hr : runMax highs (-DBL_MAX) (i - k + 1) k - runMin lows DBL_MAX (i - k + 1) k > 0
    · rw [if_pos hr, if_neg (not_le.mpr hr)]
      congr 1
      ring
    · rw [if_neg hr, if_pos (not_lt.mp hr)]

theorem getStochastic_definition_witness :
    1 ≤ 3 ∧ (closes12.map (· + 1)).length = closes12.length ∧
    (closes12.map (· - 1)).length = closes12.length ∧
    FiniteSeries (closes12.map (· + 1)) ∧ FiniteSeries (closes12.map (· - 1)) ∧
    ∃ r s', getStochastic closes12 (closes12.map (· + 1)) (closes12.map (· - 1))
        ((3 : Nat) : Int) emptyCache = some (r, s') ∧
      r.length = closes12.length ∧
      ∀ i, i < closes12.length →
        (i < 3 → r[i]? = some 0) ∧
        (3 ≤ i → ∃ L H, IsLeast (window (closes12.map (· - 1)) (i - 3 + 1) i) L ∧
          IsGreatest (window (closes12.map (· + 1)) (i - 3 + 1) i) H ∧
          r[i]? = some (if H - L ≤ 0 then 100
            else 100 * (closes12.getD i 0 - L) / (H - L))) :=
  ⟨by decide, rfl, rfl, by unfold FiniteSeries; decide!, by unfold FiniteSeries; decide!,
    getStochastic_definition closes12 (closes12.map (· + 1)) (closes12.map (· - 1)) 3
      (by decide) rfl rfl (by unfold FiniteSeries; decide!) (by unfold FiniteSeries; decide!)⟩

/-- C6 as stated fails: with highs below lows the range `H - L` is negative, not
zero, and `getStochastic` stores `100` where the formula of the claim gives `-200`
(closes `[1, 3]`, highs `[0, 0]`, lows `[1, 1]`, `k = 1`, index `1`). -/
theorem getStochastic_negative_range :
    ¬ ∃ r s', getStochastic [1, 3] [0, 0] [1, 1] ((1 : Nat) : Int) emptyCache = some (r, s') ∧
      r.length = ([1, 3] : Vec).length ∧
      ∀ i, i < ([1, 3] : Vec).length →
        (i < 1 → r[i]? = some 0) ∧
        (1 ≤ i → ∃ L H, IsLeast (window [1, 1] (i - 1 + 1) i) L ∧
          IsGreatest (window [0, 0] (i - 1 + 1) i) H ∧
          r[i]? = some (if H - L = 0 then 100
            else 100 * (([1, 3] : Vec).getD i 0 - L) / (H - L))) := by
  rintro ⟨r, s', h1, -, h3⟩
  have hr : (getStochastic [1, 3] [0, 0] [1, 1] ((1 : Nat) : Int) emptyCache).map Prod.fst
      = some [0, 100] := by decide!
  rw [h1] at hr
  simp only [Option.map_some', Option.some.injEq] at hr
  subst hr
  obtain ⟨L, H, hL, hH, hv⟩ := (h3 1 (by decide)).2 (le_refl _)
  obtain ⟨j, hj1, hj2, hj3⟩ := hL.1
  obtain ⟨j', hj1', hj2', hj3'⟩ := hH.1
  have ej : j = 1 := by omega
  have ej' : j' = 1 := by omega
  subst ej
  subst ej'
  simp only [List.getElem?_cons_succ, List.getElem?_cons_zero, Option.some.injEq] at hj3 hj3'
  subst hj3
  subst hj3'
  norm_num at hv

/-! ## ATR -/

/-- A loop that fills `result[lo], result[lo+1], ...` of a vector already filled
below `lo`. -/
theorem forU_tab_from (body : Int → Vec → Option Vec) (f : Nat → ℚ) (lo n : Nat) (hle : lo ≤ n)
    (hbody : ∀ k, lo ≤ k → k < n → body (k : Int) (tab k f n) = some (tab (k + 1) f n)) :
    forU (lo : Int) (n : Int) body (tab lo f n) = some (tab n f n) := by
  have h := forU_inv body (fun k s => s = tab k f n) lo n hle
    (fun k s h1 h2 hs => ⟨_, by rw [hs]; exact hbody k h1 h2, rfl⟩) (tab lo f n) rfl
  obtain ⟨s', h1, h2⟩ := h
  rw [h1, h2]

theorem trueRange_eq (highs lows closes : Vec) (hl : lows.length = highs.length)
    (hc : closes.length = highs.length) :
    trueRange highs lows closes
      = some (tab highs.length (trValue highs lows closes) highs.length) := by
  unfold trueRange
  refine forU_tab _ _ 1 _ ?_ ?_
  · intro j hj
    simp only [trValue, if_pos hj]
  · intro k h1 hk
    beta_reduce
    rw [rd_data highs _ k rfl hk, rd_data lows _ k rfl (by omega),
      rd_data closes ((k : Int) - 1) (k - 1) (by omega) (by omega)]
    simp only [Option.some_bind, Option.bind_eq_bind]
    exact wr_tab k _ _ _ _ rfl hk (by simp only [trValue, if_neg (not_lt.mpr h1), specTR])

theorem atrSeed_eq (f : Nat → ℚ) (n p : Nat) (hp : p < n) :
    atrSeed (tab n f n) (p : Int) = some (∑ j in Finset.Ico 1 (p + 1), f j) := by
  unfold atrSeed
  have e2 : (p : Int) + 1 = ((p + 1 : Nat) : Int) := by omega
  rw [e2]
  have hsum := forS_inv (fun i (sum : ℚ) => do
      let t ← rd (tab n f n) i
      some (sum + t))
    (fun k acc => acc = ∑ j in Finset.Ico 1 k, f j) 1 (p + 1) (by omega)
    (by
      intro k s h1 h2 hs
      refine ⟨_, ?_, rfl⟩
      beta_reduce
      rw [rd_tab _ _ _ _ k rfl (by omega) (by omega), hs]
      simp only [Option.some_bind, Option.bind_eq_bind]
      rw [Finset.sum_Ico_succ_top h1]) 0 (by simp)
  obtain ⟨s', h1, h2⟩ := hsum
  rw [← h2]
  exact h1

theorem atrCompute_eq (highs lows closes : Vec) (p : Nat) (hp : p < highs.length)
    (hl : lows.length = highs.length) (hc : closes.length = highs.length) :
    atrCompute highs lows closes (p : Int)
      = some (tab highs.length (atrValue highs lows closes p) highs.length) := by
  unfold atrCompute
  rw [trueRange_eq highs lows closes hl hc]
  simp only [Option.some_bind, Option.bind_eq_bind]
  rw [if_pos ⟨by omega, by omega⟩, atrSeed_eq _ _ p hp]
  simp only [Option.some_bind]
  rw [zeros_eq_tab p (atrValue highs lows closes p) highs.length (by
    intro j hj
    cases j with
    | zero => simp only [atrValue, if_neg (show ¬ p = 0 by omega)]
    | succ j => simp only [atrValue, if_pos hj])]
  rw [wr_tab p _ _ _ _ rfl hp (by
    cases p with
    | zero => simp only [atrValue, if_true, Int.cast_natCast]
    | succ q => simp only [atrValue, lt_irrefl, if_false, if_true, Int.cast_natCast])]
  simp only [Option.some_bind]
  unfold atrSmooth
  have e2 : (p : Int) + 1 = ((p + 1 : Nat) : Int) := by omega
  rw [e2]
  refine forU_tab_from _ _ (p + 1) _ (by omega) ?_
  intro k h1 hk
  beta_reduce
  rw [rd_tab _ _ _ _ (k - 1) (by omega) (by omega) (by omega),
    rd_tab _ _ _ _ k rfl (by omega) (by omega)]
  simp only [Option.some_bind, Option.bind_eq_bind]
  refine wr_tab k _ _ _ _ rfl hk ?_
  cases k with
  | zero => omega
  | succ q =>
    simp only [atrValue, if_neg (show ¬ q + 1 < p by omega), if_neg (show ¬ q + 1 = p by omega),
      Nat.add_sub_cancel, Int.cast_natCast]

theorem getATR_empty (highs lows closes : Vec) (p : Nat) (hp : p < highs.length)
    (hl : lows.length = highs.length) (hc : closes.length = highs.length) :
    (getATR highs lows closes (p : Int) emptyCache).map Prod.fst
      = some (tab highs.length (atrValue highs lows closes p) highs.length) := by
  simp only [getATR, emptyCache, mapFind, atrCompute_eq highs lows closes p hp hl hc,
    Option.map_some']

theorem sum_trValue (highs lows closes : Vec) (p : Nat) :
    ∑ j in Finset.Ico 1 (p + 1), trValue highs lows closes j
      = ∑ j in Finset.Icc 1 p, specTR highs lows closes j := by
  rw [Nat.Ico_succ_right]
  apply Finset.sum_congr rfl
  intro j hj
  have h1 : 1 ≤ j := (Finset.mem_Icc.mp hj).1
  simp only [trValue, if_neg (not_lt.mpr h1)]

/-- C7: on an empty cache, for highs, lows and closes of equal length `N` and a
period with `1 ≤ period < N`, `getATR` returns a series `r` of length `N` with
`r[i] = 0` for `i < period`, `r[period]` the mean of `tr[1..period]`, and
`r[i] = (r[i-1]*(period-1) + tr[i])/period` for every `i > period`, where `tr` is
the true range. -/
theorem getATR_definition (highs lows closes : Vec) (period : Nat) (hp : 1 ≤ period)
    (hN : period < highs.length) (hl : lows.length = highs.length)
    (hc : closes.length = highs.length) :
    ∃ r s', getATR highs lows closes (period : Int) emptyCache = some (r, s') ∧
      r.length = highs.length ∧
      (∀ i, i < period → r[i]? = some 0) ∧
      r[period]? = some ((∑ j in Finset.Icc 1 period, specTR highs lows closes j) / (period : ℚ)) ∧
      ∀ i, period < i → i < highs.length →
        r[i]? = some ((r.getD (i - 1) 0 * ((period : ℚ) - 1) + specTR highs lows closes i)
          / (period : ℚ)) := by
  obtain ⟨s', h1⟩ := fst_some _ _ (getATR_empty highs lows closes period hN hl hc)
  refine ⟨_, s', h1, tab_length _ _ _, ?_, ?_, ?_⟩
  · intro i hi
    rw [tab_getElem? _ _ _ _ (by omega), if_pos (by omega)]
    cases i with
    | zero => simp only [atrValue, if_neg (show ¬ period = 0 by omega)]
    | succ i => simp only [atrValue, if_pos hi]
  · rw [tab_getElem? _ _ _ _ hN, if_pos hN, ← sum_trValue]
    cases period with
    | zero => omega
    | succ q => simp only [atrValue, lt_irrefl, if_false, if_true]
  · intro i hpi hi
    rw [tab_getElem? _ _ _ _ hi, if_pos hi]
    cases i with
    | zero => omega
    | succ q =>
      simp only [atrValue, if_neg (show ¬ q + 1 < period by omega),
        if_neg (show ¬ q + 1 = period by omega), Nat.add_sub_cancel,
        List.getD_eq_getElem?_getD, tab_getElem? _ _ _ q (show q < highs.length by omega),
        if_pos (show q < highs.length by omega), Option.getD_some, trValue,
        if_neg (show ¬ q + 1 < 1 by omega)]

theorem getATR_definition_witness :
    1 ≤ 3 ∧ 3 < (closes12.map (· + 1)).length ∧
    (closes12.map (· - 1)).length = (closes12.map (· + 1)).length ∧
    closes12.length = (closes12.map (· + 1)).length ∧
    ∃ r s', getATR (closes12.map (· + 1)) (closes12.map (· - 1)) closes12 ((3 : Nat) : Int)
        emptyCache = some (r, s') ∧
      r.length = (closes12.map (· + 1)).length ∧
      (∀ i, i < 3 → r[i]? = some 0) ∧
      r[3]? = some ((∑ j in Finset.Icc 1 3,
        specTR (closes12.map (· + 1)) (closes12.map (· - 1)) closes12 j) / ((3 : Nat) : ℚ)) ∧
      ∀ i, 3 < i → i < (closes12.map (· + 1)).length →
        r[i]? = some ((r.getD (i - 1) 0 * (((3 : Nat) : ℚ) - 1)
          + specTR (closes12.map (· + 1)) (closes12.map (· - 1)) closes12 i) / ((3 : Nat) : ℚ)) :=
  ⟨by decide, by decide, rfl, rfl,
    getATR_definition (closes12.map (· + 1)) (closes12.map (· - 1)) closes12 3
      (by decide) (by decide) rfl rfl⟩

/-! ## RSI -/

theorem forU_inv_max {σ : Type} (body : Int → σ → Option σ) (P : Nat → σ → Prop) (lo hi : Nat)
    (hstep : ∀ k s, lo ≤ k → k < hi → P k s → ∃ s', body (k : Int) s = some s' ∧ P (k + 1) s')
    (s : σ) (hP : P lo s) :
    ∃ s', forU (lo : Int) (hi : Int) body s = some s' ∧ P (max lo hi) s' := by
  by_cases hle : lo ≤ hi
  · rw [max_eq_right hle]
    exact forU_inv body P lo hi hle hstep s hP
  · have e : ((hi : Int) - (lo : Int)).toNat = 0 := by omega
    rw [max_eq_left (by omega)]
    exact ⟨s, by simp only [forU, Int.natCast_nonneg, if_true, e, loopM], hP⟩

theorem tab_ge (k : Nat) (f : Nat → ℚ) (n : Nat) (h : n ≤ k) : tab k f n = tab n f n := by
  apply List.ext_getElem?
  intro j
  by_cases hj : j < n
  · rw [tab_getElem? _ _ _ _ hj, tab_getElem? _ _ _ _ hj, if_pos hj, if_pos (by omega)]
  · rw [List.getElem?_eq_none (by simp [tab_length]; omega),
      List.getElem?_eq_none (by simp [tab_length]; omega)]

theorem rsiChanges_eq (closes : Vec) :
    rsiChanges closes = some (tab closes.length (changeValue closes) closes.length,
      tab closes.length (gainValue closes) closes.length,
      tab closes.length (lossValue closes) closes.length) := by
  unfold rsiChanges
  have h := forU_inv_max (fun i (p : Vec × Vec × Vec) => do
      let x ← rd closes i
      let y ← rd closes (i - 1)
      let changes ← wr p.1 i (x - y)
      let ch ← rd changes i
      if ch > 0 then do
        let gains ← wr p.2.1 i ch
        let losses ← wr p.2.2 i 0
        some (changes, gains, losses)
      else do
        let gains ← wr p.2.1 i 0
        let losses ← wr p.2.2 i (-ch)
        some (changes, gains, losses))
    (fun k s => s = (tab k (changeValue closes) closes.length,
      tab k (gainValue closes) closes.length, tab k (lossValue closes) closes.length))
    1 closes.length
    (by
      intro k s h1 h2 hs
      refine ⟨_, ?_, rfl⟩
      have hk : k < closes.length := by omega
      have hch : changeValue closes k = closes.getD k 0 - closes.getD (k - 1) 0 := by
        simp only [changeValue, if_neg (not_lt.mpr h1)]
      beta_reduce
      rw [hs, rd_data closes _ k rfl hk,
        rd_data closes ((k : Int) - 1) (k - 1) (by omega) (by omega)]
      simp only [Option.some_bind, Option.bind_eq_bind]
      rw [wr_tab k (changeValue closes) _ _ _ rfl hk hch.symm]
      simp only [Option.some_bind]
      rw [rd_tab (k + 1) (changeValue closes) _ _ k rfl (by omega) hk]
      simp only [Option.some_bind]
      by_cases hpos : changeValue closes k > 0
      · rw [if_pos hpos,
          wr_tab k (gainValue closes) _ _ _ rfl hk
            (by simp only [gainValue, if_neg (not_lt.mpr h1), if_pos hpos]),
          wr_tab k (lossValue closes) _ _ _ rfl hk
            (by simp only [lossValue, if_neg (not_lt.mpr h1), if_pos hpos])]
        simp only [Option.some_bind]
      · rw [if_neg hpos,
          wr_tab k (gainValue closes) _ _ _ rfl hk
            (by simp only [gainValue, if_neg (not_lt.mpr h1), if_neg hpos]),
          wr_tab k (lossValue closes) _ _ _ rfl hk
            (by simp only [lossValue, if_neg (not_lt.mpr h1), if_neg hpos])]
        simp only [Option.some_bind])
    (zeros closes.length, zeros closes.length, zeros closes.length)
    (by
      show (zeros _, zeros _, zeros _) = (tab 1 _ _, tab 1 _ _, tab 1 _ _)
      rw [← zeros_eq_tab 1 (changeValue closes) _ (fun j hj => by simp only [changeValue, if_pos hj]),
        ← zeros_eq_tab 1 (gainValue closes) _ (fun j hj => by simp only [gainValue, if_pos hj]),
        ← zeros_eq_tab 1 (lossValue closes) _ (fun j hj => by simp only [lossValue, if_pos hj])])
  obtain ⟨s', h1, h2⟩ := h
  have e1 : ((1 : Nat) : Int) = 1 := rfl
  rw [e1] at h1
  rw [h1, h2, tab_ge _ (changeValue closes) _ (le_max_right _ _),
    tab_ge _ (gainValue closes) _ (le_max_right _ _),
    tab_ge _ (lossValue closes) _ (le_max_right _ _)]

theorem rsiSeed_eq (g l : Nat → ℚ) (n len : Nat) (hlen : len < n) :
    rsiSeed (tab n g n) (tab n l n) (len : Int)
      = some (∑ j in Finset.Icc 1 len, g j, ∑ j in Finset.Icc 1 len, l j) := by
  unfold rsiSeed
  have e2 : (len : Int) + 1 = ((len + 1 : Nat) : Int) := by omega
  rw [e2]
  have hsum := forS_inv (fun i (p : ℚ × ℚ) => do
      let x ← rd (tab n g n) i
      let y ← rd (tab n l n) i
      some (p.1 + x, p.2 + y))
    (fun k acc => acc = (∑ j in Finset.Ico 1 k, g j, ∑ j in Finset.Ico 1 k, l j))
    1 (len + 1) (by omega)
    (by
      intro k s h1 h2 hs
      refine ⟨_, ?_, rfl⟩
      beta_reduce
      rw [rd_tab _ _ _ _ k rfl (by omega) (by omega), rd_tab _ _ _ _ k rfl (by omega) (by omega),
        hs]
      simp only [Option.some_bind, Option.bind_eq_bind]
      rw [Finset.sum_Ico_succ_top h1, Finset.sum_Ico_succ_top h1]) (0, 0) (by simp)
  obtain ⟨s', h1, h2⟩ := hsum
  rw [Nat.Ico_succ_right] at h2
  rw [← h2]
  exact h1

theorem specAvg_le (x : Nat → ℚ) (len i : Nat) (h : i ≤ len) :
    specAvg x len i = (∑ j in Finset.Icc 1 len, x j) / (len : ℚ) := by
  cases i with
  | zero => simp only [specAvg]
  | succ i => simp only [specAvg, if_pos h]

theorem specAvg_gt (x : Nat → ℚ) (len i : Nat) (h : len < i) :
    specAvg x len i = (specAvg x len (i - 1) * ((len : ℚ) - 1) + x i) / (len : ℚ) := by
  cases i with
  | zero => omega
  | succ i => simp only [specAvg, if_neg (show ¬ i + 1 ≤ len by omega), Nat.add_sub_cancel]

theorem rsiSmooth_eq (closes : Vec) (len : Nat) (hlen : len < closes.length) :
    rsiSmooth (tab closes.length (gainValue closes) closes.length)
        (tab closes.length (lossValue closes) closes.length) (len : Int) closes.length
        ((∑ j in Finset.Icc 1 len, gainValue closes j) / ((len : Int) : ℚ),
          (∑ j in Finset.Icc 1 len, lossValue closes j) / ((len : Int) : ℚ),
          zeros closes.length)
      = some (specAvg (gainValue closes) len (closes.length - 1),
          specAvg (lossValue closes) len (closes.length - 1),
          tab closes.length (rsiValue closes len) closes.length) := by
  unfold rsiSmooth
  have e2 : (len : Int) + 1 = ((len + 1 : Nat) : Int) := by omega
  rw [e2]
  have h := forU_inv (fun i (p : ℚ × ℚ × Vec) => do
      let g ← rd (tab closes.length (gainValue closes) closes.length) i
      let avg_gain := (p.1 * ((((len : Int) : ℚ)) - 1) + g) / ((len : Int) : ℚ)
      let l ← rd (tab closes.length (lossValue closes) closes.length) i
      let avg_loss := (p.2.1 * ((((len : Int) : ℚ)) - 1) + l) / ((len : Int) : ℚ)
      let result ← (if avg_loss = 0 then wr p.2.2 i 100
        else
          let rs := avg_gain / avg_loss
          wr p.2.2 i (100 - 100 / (1 + rs)))
      some (avg_gain, avg_loss, result))
    (fun k s => s = (specAvg (gainValue closes) len (k - 1),
      specAvg (lossValue closes) len (k - 1), tab k (rsiValue closes len) closes.length))
    (len + 1) closes.length (by omega)
    (by
      intro k s h1 h2 hs
      refine ⟨_, ?_, rfl⟩
      beta_reduce
      rw [hs, rd_tab _ _ _ _ k rfl (by omega) (by omega),
        rd_tab _ _ _ _ k rfl (by omega) (by omega)]
      simp only [Option.some_bind, Option.bind_eq_bind, Int.cast_natCast, Nat.add_sub_cancel]
      rw [← specAvg_gt (gainValue closes) len k (by omega),
        ← specAvg_gt (lossValue closes) len k (by omega)]
      by_cases hz : specAvg (lossValue closes) len k = 0
      · rw [if_pos hz, wr_tab k _ _ _ _ rfl h2
          (by simp only [rsiValue, if_neg (show ¬ k ≤ len by omega), if_pos hz])]
        simp only [Option.some_bind]
      · rw [if_neg hz, wr_tab k _ _ _ _ rfl h2
          (by simp only [rsiValue, if_neg (show ¬ k ≤ len by omega), if_neg hz])]
        simp only [Option.some_bind])
    ((∑ j in Finset.Icc 1 len, gainValue closes j) / ((len : Int) : ℚ),
      (∑ j in Finset.Icc 1 len, lossValue closes j) / ((len : Int) : ℚ),
      zeros closes.length)
    (by
      show (_, _, zeros _) = (_, _, tab _ _ _)
      rw [← zeros_eq_tab (len + 1) (rsiValue closes len) _
        (fun j hj => by simp only [rsiValue, if_pos (show j ≤ len by omega)]),
        Nat.add_sub_cancel, specAvg_le _ _ _ (le_refl _), specAvg_le _ _ _ (le_refl _),
        Int.cast_natCast])
  obtain ⟨s', h1, h2⟩ := h
  rw [h1, h2]

theorem rsiCompute_eq (closes : Vec) (len : Nat) (hlen : len < closes.length) :
    rsiCompute closes (len : Int)
      = some (tab closes.length (rsiValue closes len) closes.length) := by
  unfold rsiCompute
  rw [rsiChanges_eq]
  simp only [Option.some_bind, Option.bind_eq_bind]
  rw [rsiSeed_eq _ _ _ len hlen]
  simp only [Option.some_bind]
  rw [rsiSmooth_eq closes len hlen]
  simp only [Option.some_bind]

theorem getRSI_empty (closes : Vec) (len : Nat) (hlen : len < closes.length) :
    (getRSI closes (len : Int) emptyCache).map Prod.fst
      = some (tab closes.length (rsiValue closes len) closes.length) := by
  simp only [getRSI, emptyCache, mapFind, rsiCompute_eq closes len hlen, Option.map_some']

theorem gainValue_eq_specGain (closes : Vec) (j : Nat) (hj : 1 ≤ j) :
    gainValue closes j = specGain closes j := by
  simp only [gainValue, changeValue, specGain, if_neg (not_lt.mpr hj)]
  by_cases h : closes.getD j 0 - closes.getD (j - 1) 0 > 0
  · rw [if_pos h, max_eq_left (le_of_lt h)]
  · rw [if_neg h, max_eq_right (not_lt.mp h)]

theorem lossValue_eq_specLoss (closes : Vec) (j : Nat) (hj : 1 ≤ j) :
    lossValue closes j = specLoss closes j := by
  simp only [lossValue, changeValue, specLoss, if_neg (not_lt.mpr hj)]
  by_cases h : closes.getD j 0 - closes.getD (j - 1) 0 > 0
  · rw [if_pos h, max_eq_right (by linarith)]
  · rw [if_neg h, max_eq_left (by linarith)]

theorem specAvg_congr (x y : Nat → ℚ) (len : Nat) (hxy : ∀ j, 1 ≤ j → x j = y j) :
    ∀ i, specAvg x len i = specAvg y len i := by
  have hs : (∑ j in Finset.Icc 1 len, x j) = ∑ j in Finset.Icc 1 len, y j :=
    Finset.sum_congr rfl (fun j hj => hxy j (Finset.mem_Icc.mp hj).1)
  intro i
  induction i with
  | zero => simp only [specAvg, hs]
  | succ i ih => simp only [specAvg, hs, ih, hxy (i + 1) (by omega)]

/-- C5: on an empty cache, for closes of length `N` and `1 ≤ length < N`, `getRSI`
returns a series `r` of length `N` with `r[i] = 0` for `i ≤ length` and, for
`i > length`, `r[i] = 100` when the average loss at `i` is zero and
`100 - 100/(1 + avgGain_i/avgLoss_i)` otherwise; the averages are seeded with the
arithmetic means of the gains and losses over `1..length` and smoothed by
`avg_i = (avg_{i-1}*(length-1) + new_i)/length` from `length+1` on. -/
theorem getRSI_definition (closes : Vec) (length : Nat) (_h1 : 1 ≤ length)
    (h2 : length < closes.length) :
    ∃ r s', getRSI closes (length : Int) emptyCache = some (r, s') ∧
      r.length = closes.length ∧
      ∀ i, i < closes.length →
        r[i]? = some (if i ≤ length then 0
          else if specAvg (specLoss closes) length i = 0 then 100
          else 100 - 100 / (1 + specAvg (specGain closes) length i
            / specAvg (specLoss closes) length i)) := by
  obtain ⟨s', h⟩ := fst_some _ _ (getRSI_empty closes length h2)
  refine ⟨_, s', h, tab_length _ _ _, ?_⟩
  intro i hi
  rw [tab_getElem? _ _ _ _ hi, if_pos hi]
  simp only [rsiValue]
  rw [specAvg_congr _ _ length (gainValue_eq_specGain closes) i,
    specAvg_congr _ _ length (lossValue_eq_specLoss closes) i]

theorem getRSI_definition_witness :
    1 ≤ 3 ∧ 3 < closes12.length ∧
    ∃ r s', getRSI closes12 ((3 : Nat) : Int) emptyCache = some (r, s') ∧
      r.length = closes12.length ∧
      ∀ i, i < closes12.length →
        r[i]? = some (if i ≤ 3 then 0
          else if specAvg (specLoss closes12) 3 i = 0 then 100
          else 100 - 100 / (1 + specAvg (specGain closes12) 3 i
            / specAvg (specLoss closes12) 3 i)) :=
  ⟨by decide, by decide, getRSI_definition closes12 3 (by decide) (by decide)⟩

/-! ## Absolute change, rolling sum and VIDYA -/

theorem absChangeCompute_eq (data : Vec) (period : Nat) :
    absChangeCompute data (period : Int)
      = some (tab data.length (momValue data period) data.length) := by
  unfold absChangeCompute
  refine forU_tab _ _ period _ ?_ ?_
  · intro j hj
    simp only [momValue, if_pos hj]
  · intro k h1 hk
    beta_reduce
    rw [rd_data data _ k rfl hk,
      rd_data data ((k : Int) - (period : Int)) (k - period) (by omega) (by omega)]
    simp only [Option.some_bind, Option.bind_eq_bind]
    exact wr_tab k _ _ _ _ rfl hk (by simp only [momValue, if_neg (not_lt.mpr h1)])

theorem absChanges_eq (data : Vec) :
    absChanges data = some (tab data.length (chgValue data) data.length) := by
  unfold absChanges
  refine forU_tab _ _ 1 _ ?_ ?_
  · intro j hj
    simp only [chgValue, if_pos hj]
  · intro k h1 hk
    beta_reduce
    rw [rd_data data _ k rfl hk, rd_data data ((k : Int) - 1) (k - 1) (by omega) (by omega)]
    simp only [Option.some_bind, Option.bind_eq_bind]
    exact wr_tab k _ _ _ _ rfl hk (by simp only [chgValue, if_neg (not_lt.mpr h1)])

theorem window_sum_step (f : Nat → ℚ) (p k : Nat) :
    (if p ≤ k then (∑ j in Finset.Ico (k - p) k, f j) + f k - f (k - p)
      else (∑ j in Finset.Ico (k - p) k, f j) + f k)
      = ∑ j in Finset.Ico (k + 1 - p) (k + 1), f j := by
  by_cases h : p ≤ k
  · rw [if_pos h]
    by_cases hp : p = 0
    · subst hp
      simp
    · have e : k + 1 - p = (k - p) + 1 := by omega
      rw [e, Finset.sum_Ico_succ_top (by omega : k - p + 1 ≤ k),
        Finset.sum_eq_sum_Ico_succ_bot (by omega : k - p < k)]
      ring
  · rw [if_neg h]
    have e : k + 1 - p = k - p := by omega
    rw [e, Finset.sum_Ico_succ_top (by omega)]

theorem rollingSum_eq (data : Vec) (period : Nat) :
    (rollingSum (tab data.length (chgValue data) data.length) (period : Int) data.length).map
        Prod.snd
      = some (tab data.length (volValue data period) data.length) := by
  unfold rollingSum
  have h := forU_inv (fun i (p : ℚ × Vec) => do
      let ci ← rd (tab data.length (chgValue data) data.length) i
      let sum := p.1 + ci
      let sum ← (if 0 ≤ (period : Int) ∧ i ≥ (period : Int) then do
          let cp ← rd (tab data.length (chgValue data) data.length) (i - (period : Int))
          some (sum - cp)
        else some sum)
      let result ← wr p.2 i sum
      some (sum, result))
    (fun k s => s = (∑ j in Finset.Ico (k - period) k, chgValue data j,
      tab k (volValue data period) data.length)) 0 data.length (Nat.zero_le _)
    (by
      intro k s _ hk hs
      refine ⟨_, ?_, rfl⟩
      beta_reduce
      rw [hs, rd_tab _ _ _ _ k rfl (by omega) hk]
      simp only [Option.some_bind, Option.bind_eq_bind]
      have hv := window_sum_step (chgValue data) period k
      by_cases hp : period ≤ k
      · rw [if_pos hp] at hv
        rw [if_pos ⟨by omega, by omega⟩,
          rd_tab _ _ _ ((k : Int) - (period : Int)) (k - period) (by omega) (by omega) (by omega)]
        simp only [Option.some_bind]
        rw [hv, wr_tab k _ _ _ _ rfl hk (by simp only [volValue])]
        simp only [Option.some_bind]
      · rw [if_neg hp] at hv
        rw [if_neg (by omega)]
        simp only [Option.some_bind]
        rw [hv, wr_tab k _ _ _ _ rfl hk (by simp only [volValue])]
        simp only [Option.some_bind])
    (0, zeros data.length)
    (by
      show (_, zeros _) = (_, tab _ _ _)
      rw [← zeros_eq_tab 0 _ _ (fun j hj => by omega)]
      simp)
  obtain ⟨s', h1, h2⟩ := h
  have e0 : ((0 : Nat) : Int) = 0 := rfl
  rw [e0] at h1
  rw [h1, h2]
  rfl

theorem sumAbsChangesCompute_eq (data : Vec) (period : Nat) :
    sumAbsChangesCompute data (period : Int)
      = some (tab data.length (volValue data period) data.length) := by
  unfold sumAbsChangesCompute
  rw [absChanges_eq]
  simp only [Option.some_bind, Option.bind_eq_bind]
  have h := rollingSum_eq data period
  cases hr : rollingSum (tab data.length (chgValue data) data.length) (period : Int) data.length with
  | none => rw [hr] at h; exact Option.noConfusion h
  | some p =>
    rw [hr] at h
    simp only [Option.map_some', Option.some.injEq] at h
    simp only [Option.some_bind, h]

theorem getAbsChange_miss (data : Vec) (period : Nat) (s : IndicatorCache)
    (hmiss : mapFind s.abs_change_cache (period : Int) = none) :
    getAbsChange data (period : Int) s
      = some (tab data.length (momValue data period) data.length,
          { s with abs_change_cache := (mapSet s.abs_change_cache (period : Int)
              (tab data.length (momValue data period) data.length)) }) := by
  simp only [getAbsChange, hmiss, absChangeCompute_eq, Option.map_some']

theorem getSumAbsChanges_miss (data : Vec) (period : Nat) (s : IndicatorCache)
    (hmiss : mapFind s.sum_abs_changes_cache (period : Int) = none) :
    getSumAbsChanges data (period : Int) s
      = some (tab data.length (volValue data period) data.length,
          { s with sum_abs_changes_cache := (mapSet s.sum_abs_changes_cache (period : Int)
              (tab data.length (volValue data period) data.length)) }) := by
  simp only [getSumAbsChanges, hmiss, sumAbsChangesCompute_eq, Option.map_some']

theorem efficiencyRatioCompute_eq (data : Vec) :
    efficiencyRatioCompute data.length (tab data.length (momValue data 9) data.length)
        (tab data.length (volValue data 9) data.length)
      = some (tab data.length (erValue data) data.length) := by
  unfold efficiencyRatioCompute
  refine forU_tab _ _ 0 _ ?_ ?_
  · intro j hj; omega
  · intro k _ hk
    beta_reduce
    rw [rd_tab _ _ _ _ k rfl hk hk]
    simp only [Option.some_bind, Option.bind_eq_bind]
    by_cases hv : volValue data 9 k ≠ 0
    · rw [if_pos hv, rd_tab _ _ _ _ k rfl hk hk]
      simp only [Option.some_bind]
      exact wr_tab k _ _ _ _ rfl hk (by simp only [erValue, if_pos hv])
    · rw [if_neg hv]
      exact wr_tab k _ _ _ _ rfl hk (by simp only [erValue, if_neg hv])

theorem vidyaLoop_eq (data : Vec) (length : Int) :
    vidyaLoop data length (tab data.length (erValue data) data.length)
      = some (tab data.length (vidyaValue data length) data.length) := by
  unfold vidyaLoop
  refine forU_tab _ _ 0 _ ?_ ?_
  · intro j hj; omega
  · intro k _ hk
    beta_reduce
    cases k with
    | zero =>
      rw [if_pos (show ((0 : Nat) : Int) = 0 from rfl), rd_data data _ 0 rfl hk]
      simp only [Option.some_bind, Option.bind_eq_bind]
      exact wr_tab 0 _ _ _ _ rfl hk (by simp only [vidyaValue])
    | succ k =>
      rw [if_neg (by omega)]
      by_cases hl : length = 1
      · rw [if_pos hl, rd_data data _ (k + 1) rfl hk]
        simp only [Option.some_bind, Option.bind_eq_bind]
        exact wr_tab (k + 1) _ _ _ _ rfl hk (by simp only [vidyaValue, if_pos hl])
      · rw [if_neg hl, rd_tab _ _ _ _ (k + 1) rfl hk hk, rd_data data _ (k + 1) rfl hk]
        simp only [Option.some_bind, Option.bind_eq_bind]
        rw [rd_tab _ _ _ (((k + 1 : Nat) : Int) - 1) k (by omega) (by omega) (by omega)]
        simp only [Option.some_bind]
        exact wr_tab (k + 1) _ _ _ _ rfl hk (by simp only [vidyaValue, if_neg hl])

/-- The call `getVAR` on a cache with no entry in the three maps it reads. -/
theorem getVAR_miss (data : Vec) (length : Int) (s : IndicatorCache)
    (h1 : mapFind s.var_cache length = none)
    (h2 : mapFind s.abs_change_cache 9 = none)
    (h3 : mapFind s.sum_abs_changes_cache 9 = none) :
    (getVAR data length s).map Prod.fst
      = some (tab data.length (vidyaValue data length) data.length) := by
  unfold getVAR
  rw [h1]
  have e9 : (9 : Int) = ((9 : Nat) : Int) := rfl
  simp only []
  rw [e9, getAbsChange_miss data 9 s (by rw [← e9]; exact h2)]
  simp only [Option.some_bind, Option.bind_eq_bind]
  rw [getSumAbsChanges_miss data 9 _ (by rw [← e9]; exact h3)]
  simp only [Option.some_bind]
  rw [efficiencyRatioCompute_eq]
  simp only [Option.some_bind]
  rw [vidyaLoop_eq]
  simp only [Option.some_bind, Option.map_some']

theorem getVAR_empty (data : Vec) (length : Int) :
    (getVAR data length emptyCache).map Prod.fst
      = some (tab data.length (vidyaValue data length) data.length) :=
  getVAR_miss data length emptyCache rfl rfl rfl

theorem bbSumSq_eq (data : Vec) (basis : Nat → ℚ) (length k : Nat) (hl : 1 ≤ length)
    (hlk : length ≤ k) (hk : k < data.length) :
    bbSumSq data (tab data.length basis data.length) (length : Int) (k : Int)
      = some (bbSumValue data basis length k) := by
  unfold bbSumSq
  have e1 : (k : Int) - (length : Int) + 1 = ((k + 1 - length : Nat) : Int) := by omega
  have e2 : (k : Int) + 1 = ((k + 1 : Nat) : Int) := by omega
  rw [e1, e2]
  have h := forU_inv (fun j (sum_sq : ℚ) => do
      let x ← rd data j
      let b ← rd (tab data.length basis data.length) (k : Int)
      some (sum_sq + (x - b) * (x - b)))
    (fun m acc => acc = ∑ j in Finset.Ico (k + 1 - length) m,
      (data.getD j 0 - basis k) * (data.getD j 0 - basis k))
    (k + 1 - length) (k + 1) (by omega)
    (by
      intro m s h1 h2 hs
      refine ⟨_, ?_, rfl⟩
      beta_reduce
      rw [hs, rd_data data _ m rfl (by omega), rd_tab _ _ _ _ k rfl hk hk]
      simp only [Option.some_bind, Option.bind_eq_bind]
      rw [Finset.sum_Ico_succ_top h1]) 0 (by simp)
  obtain ⟨s', h1, h2⟩ := h
  rw [h1, h2]
  rfl

theorem bbUpperLoop_eq (sqrt : ℚ → ℚ) (data : Vec) (basis : Nat → ℚ) (length : Nat)
    (multiplier : ℚ) (hl : 1 ≤ length) :
    bbUpperLoop sqrt data (tab data.length basis data.length) (length : Int) multiplier
      = some (tab data.length (bbUpperValue sqrt data basis length multiplier) data.length) := by
  unfold bbUpperLoop
  refine forU_tab _ _ length _ ?_ ?_
  · intro j hj
    simp only [bbUpperValue, if_pos hj]
  · intro k h1 hk
    beta_reduce
    rw [bbSumSq_eq data basis length k hl h1 hk]
    simp only [Option.some_bind, Option.bind_eq_bind]
    rw [rd_tab _ _ _ _ k rfl hk hk]
    simp only [Option.some_bind]
    exact wr_tab k _ _ _ _ rfl hk
      (by simp only [bbUpperValue, if_neg (not_lt.mpr h1), Int.cast_natCast])

theorem bbLowerLoop_eq (sqrt : ℚ → ℚ) (data : Vec) (basis : Nat → ℚ) (length : Nat)
    (multiplier : ℚ) (hl : 1 ≤ length) :
    bbLowerLoop sqrt data (tab data.length basis data.length) (length : Int) multiplier
      = some (tab data.length (bbLowerValue sqrt data basis length multiplier) data.length) := by
  unfold bbLowerLoop
  refine forU_tab _ _ length _ ?_ ?_
  · intro j hj
    simp only [bbLowerValue, if_pos hj]
  · intro k h1 hk
    beta_reduce
    rw [bbSumSq_eq data basis length k hl h1 hk]
    simp only [Option.some_bind, Option.bind_eq_bind]
    rw [rd_tab _ _ _ _ k rfl hk hk]
    simp only [Option.some_bind]
    exact wr_tab k _ _ _ _ rfl hk
      (by simp only [bbLowerValue, if_neg (not_lt.mpr h1), Int.cast_natCast])

theorem getBBUpper_empty (sqrt : ℚ → ℚ) (data : Vec) (length : Nat) (multiplier : ℚ)
    (hl : 1 ≤ length) :
    (getBBUpper sqrt data (length : Int) multiplier emptyCache).map Prod.fst
      = some (tab data.length
          (bbUpperValue sqrt data (vidyaValue data (length : Int)) length multiplier)
          data.length) := by
  obtain ⟨s0, h0⟩ := fst_some _ _ (getVAR_empty data (length : Int))
  unfold getBBUpper
  have hm : mapFind emptyCache.indicator_cache
      ("bb_upper_" ++ toString (length : Int) ++ "_" ++ to_string_double multiplier) = none := rfl
  simp only [hm, h0, Option.some_bind, Option.bind_eq_bind, bbUpperLoop_eq sqrt data _ length
    multiplier hl, Option.map_some']

theorem getBBLower_empty (sqrt : ℚ → ℚ) (data : Vec) (length : Nat) (multiplier : ℚ)
    (hl : 1 ≤ length) :
    (getBBLower sqrt data (length : Int) multiplier emptyCache).map Prod.fst
      = some (tab data.length
          (bbLowerValue sqrt data (vidyaValue data (length : Int)) length multiplier)
          data.length) := by
  obtain ⟨s0, h0⟩ := fst_some _ _ (getVAR_empty data (length : Int))
  unfold getBBLower
  have hm : mapFind emptyCache.indicator_cache
      ("bb_lower_" ++ toString (length : Int) ++ "_" ++ to_string_double multiplier) = none := rfl
  simp only [hm, h0, Option.some_bind, Option.bind_eq_bind, bbLowerLoop_eq sqrt data _ length
    multiplier hl, Option.map_some']

theorem bbSumValue_eq (data : Vec) (basis : Nat → ℚ) (length i : Nat) (hi : length ≤ i) :
    bbSumValue data basis length i
      = ∑ j in Finset.Icc (i - length + 1) i, (data.getD j 0 - basis i) ^ 2 := by
  unfold bbSumValue
  rw [Nat.Ico_succ_right, show i + 1 - length = i - length + 1 by omega]
  apply Finset.sum_congr rfl
  intro j _
  ring

/-- C8: on an empty cache, for `length ≥ 1` and every index `i` with
`length ≤ i < N`, `getBBUpper(data,length,mult)[i] = basis[i] + mult*sigma[i]` and
`getBBLower(data,length,mult)[i] = basis[i] - mult*sigma[i]`, where `basis` is the
series of `getVAR(data, length)` and `sigma[i]` is the square root of the sum over
`j = i-length+1..i` of `(data[j] - basis[i])^2` divided by `length`; for `i < length`
both bands are `0`. -/
theorem bollinger_definition (sqrt : ℚ → ℚ) (data : Vec) (length : Nat) (multiplier : ℚ)
    (hl : 1 ≤ length) :
    ∃ basis s0 up s1 lo s2,
      getVAR data (length : Int) emptyCache = some (basis, s0) ∧
      getBBUpper sqrt data (length : Int) multiplier emptyCache = some (up, s1) ∧
      getBBLower sqrt data (length : Int) multiplier emptyCache = some (lo, s2) ∧
      up.length = data.length ∧ lo.length = data.length ∧
      ∀ i, i < data.length →
        (i < length → up[i]? = some 0 ∧ lo[i]? = some 0) ∧
        (length ≤ i →
          up[i]? = some (basis.getD i 0 + multiplier * sqrt
            ((∑ j in Finset.Icc (i - length + 1) i, (data.getD j 0 - basis.getD i 0) ^ 2)
              / (length : ℚ))) ∧
          lo[i]? = some (basis.getD i 0 - multiplier * sqrt
            ((∑ j in Finset.Icc (i - length + 1) i, (data.getD j 0 - basis.getD i 0) ^ 2)
              / (length : ℚ)))) := by
  obtain ⟨s0, h0⟩ := fst_some _ _ (getVAR_empty data (length : Int))
  obtain ⟨s1, h1⟩ := fst_some _ _ (getBBUpper_empty sqrt data length multiplier hl)
  obtain ⟨s2, h2⟩ := fst_some _ _ (getBBLower_empty sqrt data length multiplier hl)
  refine ⟨_, s0, _, s1, _, s2, h0, h1, h2, tab_length _ _ _, tab_length _ _ _, ?_⟩
  intro i hi
  simp only [tab_getElem? _ _ _ _ hi, if_pos hi]
  constructor
  · intro hlt
    simp only [bbUpperValue, bbLowerValue, if_pos hlt, and_self]
  · intro hle
    have hb : (tab data.length (vidyaValue data (length : Int)) data.length).getD i 0
        = vidyaValue data (length : Int) i := by
      simp only [List.getD_eq_getElem?_getD, tab_getElem? _ _ _ _ hi, if_pos hi, Option.getD_some]
    rw [hb, ← bbSumValue_eq data _ length i hle]
    simp only [bbUpperValue, bbLowerValue, if_neg (not_lt.mpr hle), and_self]

theorem bollinger_definition_witness :
    1 ≤ 3 ∧
    ∃ basis s0 up s1 lo s2,
      getVAR closes12 ((3 : Nat) : Int) emptyCache = some (basis, s0) ∧
      getBBUpper (fun x => x) closes12 ((3 : Nat) : Int) 2 emptyCache = some (up, s1) ∧
      getBBLower (fun x => x) closes12 ((3 : Nat) : Int) 2 emptyCache = some (lo, s2) ∧
      up.length = closes12.length ∧ lo.length = closes12.length ∧
      ∀ i, i < closes12.length →
        (i < 3 → up[i]? = some 0 ∧ lo[i]? = some 0) ∧
        (3 ≤ i →
          up[i]? = some (basis.getD i 0 + 2 * (fun x => x)
            ((∑ j in Finset.Icc (i - 3 + 1) i, (closes12.getD j 0 - basis.getD i 0) ^ 2)
              / ((3 : Nat) : ℚ))) ∧
          lo[i]? = some (basis.getD i 0 - 2 * (fun x => x)
            ((∑ j in Finset.Icc (i - 3 + 1) i, (closes12.getD j 0 - basis.getD i 0) ^ 2)
              / ((3 : Nat) : ℚ)))) :=
  ⟨by decide, bollinger_definition (fun x => x) closes12 3 2 (by decide)⟩

/-! ## Cache keys -/

theorem digitChar_toNat (m : Nat) (h : m < 10) : (Nat.digitChar m).toNat - 48 = m := by
  interval_cases m <;> rfl

theorem digitChar_ne_minus (m : Nat) (h : m < 10) : Nat.digitChar m ≠ '-' := by
  interval_cases m <;> decide

theorem digitsValue_toDigitsCore (fuel : Nat) :
    ∀ n ds, n < fuel → digitsValue (Nat.toDigitsCore 10 fuel n ds) 0 = digitsValue ds n := by
  induction fuel with
  | zero => intro n ds h; omega
  | succ fuel ih =>
    intro n ds h
    simp only [Nat.toDigitsCore]
    by_cases h0 : n / 10 = 0
    · rw [if_pos h0]
      simp only [digitsValue, List.foldl_cons, Nat.zero_mul, Nat.zero_add]
      rw [digitChar_toNat _ (Nat.mod_lt _ (by decide))]
      congr 1
      omega
    · rw [if_neg h0, ih _ _ (by omega)]
      simp only [digitsValue, List.foldl_cons]
      rw [digitChar_toNat _ (Nat.mod_lt _ (by decide))]
      congr 1
      omega

theorem toDigitsCore_no_minus (fuel : Nat) :
    ∀ n ds, (∀ c ∈ ds, c ≠ '-') → ∀ c ∈ Nat.toDigitsCore 10 fuel n ds, c ≠ '-' := by
  induction fuel with
  | zero => intro n ds h; simpa [Nat.toDigitsCore] using h
  | succ fuel ih =>
    intro n ds h
    simp only [Nat.toDigitsCore]
    have hd : ∀ c ∈ Nat.digitChar (n % 10) :: ds, c ≠ '-' := by
      intro c hc
      rcases List.mem_cons.mp hc with rfl | hc
      · exact digitChar_ne_minus _ (Nat.mod_lt _ (by decide))
      · exact h c hc
    by_cases h0 : n / 10 = 0
    · rw [if_pos h0]; exact hd
    · rw [if_neg h0]; exact ih _ _ hd

theorem Nat_repr_injective (m n : Nat) (h : Nat.repr m = Nat.repr n) : m = n := by
  have h1 : Nat.toDigits 10 m = Nat.toDigits 10 n := by
    simp only [Nat.repr, List.asString] at h
    exact congrArg String.data h
  have hm := digitsValue_toDigitsCore (m + 1) m [] (by omega)
  have hn := digitsValue_toDigitsCore (n + 1) n [] (by omega)
  simp only [Nat.toDigits] at h1
  rw [h1, hn] at hm
  simpa [digitsValue] using hm.symm

theorem Nat_repr_no_minus (m : Nat) : ∀ c ∈ (Nat.repr m).data, c ≠ '-' := by
  simp only [Nat.repr, List.asString, Nat.toDigits]
  exact toDigitsCore_no_minus _ _ _ (by intro c hc; cases hc)

theorem Int_toString_injective (m n : Int) (h : toString m = toString n) : m = n := by
  cases m with
  | ofNat a =>
    cases n with
    | ofNat b =>
      have : Nat.repr a = Nat.repr b := h
      rw [Nat_repr_injective a b this]
    | negSucc b =>
      exfalso
      have h1 : Nat.repr a = "-" ++ Nat.repr (b + 1) := h
      have h2 := Nat_repr_no_minus a '-' (by rw [h1, String.data_append]; simp)
      exact h2 rfl
  | negSucc a =>
    cases n with
    | ofNat b =>
      exfalso
      have h1 : "-" ++ Nat.repr (a + 1) = Nat.repr b := h
      have h2 := Nat_repr_no_minus b '-' (by rw [← h1, String.data_append]; simp)
      exact h2 rfl
    | negSucc b =>
      have h1 : "-" ++ Nat.repr (a + 1) = "-" ++ Nat.repr (b + 1) := h
      have h2 := congrArg String.data h1
      simp only [String.data_append, List.append_cancel_left_eq] at h2
      have h3 : Nat.repr (a + 1) = Nat.repr (b + 1) := String.ext h2
      have := Nat_repr_injective _ _ h3
      have e : a = b := by omega
      rw [e]

theorem append_left_cancel_string (p a b : String) (h : p ++ a = p ++ b) : a = b := by
  have h2 := congrArg String.data h
  simp only [String.data_append, List.append_cancel_left_eq] at h2
  exact String.ext h2

theorem key_int_injective (p : String) (m n : Int) (h : p ++ toString m = p ++ toString n) :
    m = n :=
  Int_toString_injective m n (append_left_cancel_string p _ _ h)

theorem mapFind_filter_ne {κ : Type} [DecidableEq κ] (m : List (κ × Vec)) (k k' : κ)
    (h : k ≠ k') : mapFind (m.filter (fun p => decide (p.1 ≠ k))) k' = mapFind m k' := by
  induction m with
  | nil => rfl
  | cons p rest ih =>
    obtain ⟨k0, v0⟩ := p
    by_cases h0 : k0 = k
    · subst h0
      simp only [List.filter_cons, ne_eq, not_true_eq_false, decide_False, mapFind, if_neg h]
      exact ih
    · simp only [List.filter_cons, ne_eq, h0, not_false_eq_true, decide_True, if_true, mapFind]
      rw [ih]

theorem mapFind_mapSet {κ : Type} [DecidableEq κ] (m : List (κ × Vec)) (k k' : κ) (v : Vec) :
    mapFind (mapSet m k v) k' = if k = k' then some v else mapFind m k' := by
  unfold mapSet
  by_cases h : k = k'
  · simp only [mapFind, h, if_true]
  · simp only [mapFind, if_neg h]
    exact mapFind_filter_ne m k k' h

theorem mapFind_mem {κ : Type} [DecidableEq κ] (m : List (κ × Vec)) (k : κ) (v : Vec)
    (h : mapFind m k = some v) : (k, v) ∈ m := by
  induction m with
  | nil => exact Option.noConfusion h
  | cons p rest ih =>
    obtain ⟨k0, v0⟩ := p
    simp only [mapFind] at h
    by_cases h0 : k0 = k
    · rw [if_pos h0] at h
      simp only [Option.some.injEq] at h
      rw [h0, h]
      exact List.mem_cons_self _ _
    · rw [if_neg h0] at h
      exact List.mem_cons_of_mem _ (ih h)

theorem mem_mapSet {κ : Type} [DecidableEq κ] (m : List (κ × Vec)) (k : κ) (v : Vec)
    (p : κ × Vec) (h : p ∈ mapSet m k v) : p = (k, v) ∨ p ∈ m := by
  unfold mapSet at h
  rcases List.mem_cons.mp h with h | h
  · exact Or.inl h
  · exact Or.inr (List.mem_filter.mp h).1

/-! ## What a call returns and stores -/

/-- The two ways a memoised operation returns: a hit, or a miss that computes and
stores. -/
theorem memo_cases {σ : Type} (found compute : Option Vec) (s : σ) (upd : Vec → σ) (r : Vec)
    (s' : σ)
    (h : (match found with
      | some v => some (v, s)
      | none => compute.map (fun result => (result, upd result))) = some (r, s')) :
    (found = some r ∧ s' = s) ∨ (found = none ∧ compute = some r ∧ s' = upd r) := by
  cases found with
  | some v =>
    simp only [Option.some.injEq, Prod.mk.injEq] at h
    exact Or.inl ⟨by rw [h.1], h.2.symm⟩
  | none =>
    cases compute with
    | none => exact Option.noConfusion h
    | some v =>
      simp only [Option.map_some', Option.some.injEq, Prod.mk.injEq] at h
      exact Or.inr ⟨rfl, by rw [h.1], by rw [← h.2, h.1]⟩

theorem getRSI_cases (closes : Vec) (length : Int) (s : IndicatorCache) (r : Vec)
    (s' : IndicatorCache) (h : getRSI closes length s = some (r, s')) :
    (mapFind s.indicator_cache ("rsi_" ++ toString length) = some r ∧ s' = s) ∨
    (mapFind s.indicator_cache ("rsi_" ++ toString length) = none ∧
      rsiCompute closes length = some r ∧
      s' = { s with indicator_cache := (mapSet s.indicator_cache ("rsi_" ++ toString length) r) }) :=
  memo_cases _ _ s _ r s' h

theorem getStochastic_cases (closes highs lows : Vec) (k_length : Int) (s : IndicatorCache) (r : Vec)
    (s' : IndicatorCache) (h : getStochastic closes highs lows k_length s = some (r, s')) :
    (mapFind s.indicator_cache ("stoch_" ++ toString k_length) = some r ∧ s' = s) ∨
    (mapFind s.indicator_cache ("stoch_" ++ toString k_length) = none ∧
      stochasticCompute closes highs lows k_length = some r ∧
      s' = { s with indicator_cache := (mapSet s.indicator_cache ("stoch_" ++ toString k_length) r) }) :=
  memo_cases _ _ s _ r s' h

theorem getATR_cases (highs lows closes : Vec) (period : Int) (s : IndicatorCache) (r : Vec)
    (s' : IndicatorCache) (h : getATR highs lows closes period s = some (r, s')) :
    (mapFind s.atr_cache period = some r ∧ s' = s) ∨
    (mapFind s.atr_cache period = none ∧
      atrCompute highs lows closes period = some r ∧
      s' = { s with atr_cache := (mapSet s.atr_cache period r) }) :=
  memo_cases _ _ s _ r s' h

theorem getOTT_cases (data : Vec) (multiplier : ℚ) (s : IndicatorCache) (r : Vec)
    (s' : IndicatorCache) (h : getOTT data multiplier s = some (r, s')) :
    (mapFind s.ott_cache ((data.length : Int), multiplier) = some r ∧ s' = s) ∨
    (mapFind s.ott_cache ((data.length : Int), multiplier) = none ∧
      ottCompute data multiplier = some r ∧
      s' = { s with ott_cache := (mapSet s.ott_cache ((data.length : Int), multiplier) r) }) :=
  memo_cases _ _ s _ r s' h

theorem getAbsChange_cases (data : Vec) (period : Int) (s : IndicatorCache) (r : Vec)
    (s' : IndicatorCache) (h : getAbsChange data period s = some (r, s')) :
    (mapFind s.abs_change_cache period = some r ∧ s' = s) ∨
    (mapFind s.abs_change_cache period = none ∧
      absChangeCompute data period = some r ∧
      s' = { s with abs_change_cache := (mapSet s.abs_change_cache period r) }) :=
  memo_cases _ _ s _ r s' h

theorem getSumAbsChanges_cases (data : Vec) (period : Int) (s : IndicatorCache) (r : Vec)
    (s' : IndicatorCache) (h : getSumAbsChanges data period s = some (r, s')) :
    (mapFind s.sum_abs_changes_cache period = some r ∧ s' = s) ∨
    (mapFind s.sum_abs_changes_cache period = none ∧
      sumAbsChangesCompute data period = some r ∧
      s' = { s with sum_abs_changes_cache := (mapSet s.sum_abs_changes_cache period r) }) :=
  memo_cases _ _ s _ r s' h

theorem getHighest_cases (data : Vec) (period : Int) (s : IndicatorCache) (r : Vec)
    (s' : IndicatorCache) (h : getHighest data period s = some (r, s')) :
    (mapFind s.highest_cache period = some r ∧ s' = s) ∨
    (mapFind s.highest_cache period = none ∧
      highestCompute data period = some r ∧
      s' = { s with highest_cache := (mapSet s.highest_cache period r) }) :=
  memo_cases _ _ s _ r s' h

theorem getLowest_cases (data : Vec) (period : Int) (s : IndicatorCache) (r : Vec)
    (s' : IndicatorCache) (h : getLowest data period s = some (r, s')) :
    (mapFind s.lowest_cache period = some r ∧ s' = s) ∨
    (mapFind s.lowest_cache period = none ∧
      lowestCompute data period = some r ∧
      s' = { s with lowest_cache := (mapSet s.lowest_cache period r) }) :=
  memo_cases _ _ s _ r s' h


theorem getVAR_cases (data : Vec) (length : Int) (s : IndicatorCache) (r : Vec)
    (s' : IndicatorCache) (h : getVAR data length s = some (r, s')) :
    (mapFind s.var_cache length = some r ∧ s' = s) ∨
    (mapFind s.var_cache length = none ∧
      ∃ momentum s1 volatility s2 er,
        getAbsChange data 9 s = some (momentum, s1) ∧
        getSumAbsChanges data 9 s1 = some (volatility, s2) ∧
        efficiencyRatioCompute data.length momentum volatility = some er ∧
        vidyaLoop data length er = some r ∧
        s' = { s2 with var_cache := (mapSet s2.var_cache length r) }) := by
  unfold getVAR at h
  cases hf : mapFind s.var_cache length with
  | some v =>
    rw [hf] at h
    simp only [Option.some.injEq, Prod.mk.injEq] at h
    exact Or.inl ⟨by rw [h.1], h.2.symm⟩
  | none =>
    rw [hf] at h
    right
    refine ⟨rfl, ?_⟩
    simp only [Option.bind_eq_bind] at h
    cases h1 : getAbsChange data 9 s with
    | none => rw [h1] at h; exact Option.noConfusion h
    | some p1 =>
      obtain ⟨momentum, s1⟩ := p1
      rw [h1] at h
      simp only [Option.some_bind] at h
      cases h2 : getSumAbsChanges data 9 s1 with
      | none => rw [h2] at h; exact Option.noConfusion h
      | some p2 =>
        obtain ⟨volatility, s2⟩ := p2
        rw [h2] at h
        simp only [Option.some_bind] at h
        cases h3 : efficiencyRatioCompute data.length momentum volatility with
        | none => rw [h3] at h; exact Option.noConfusion h
        | some er =>
          rw [h3] at h
          simp only [Option.some_bind] at h
          cases h4 : vidyaLoop data length er with
          | none => rw [h4] at h; exact Option.noConfusion h
          | some res =>
            rw [h4] at h
            simp only [Option.some_bind, Option.some.injEq, Prod.mk.injEq] at h
            exact ⟨momentum, s1, volatility, s2, er, rfl, h2, h3, by rw [← h.1, h4],
              by rw [← h.2, h.1]⟩

theorem getBBUpper_cases (sqrt : ℚ → ℚ) (data : Vec) (length : Int) (multiplier : ℚ)
    (s : IndicatorCache) (r : Vec) (s' : IndicatorCache)
    (h : getBBUpper sqrt data length multiplier s = some (r, s')) :
    (mapFind s.indicator_cache
        ("bb_upper_" ++ toString length ++ "_" ++ to_string_double multiplier) = some r ∧
      s' = s) ∨
    (mapFind s.indicator_cache
        ("bb_upper_" ++ toString length ++ "_" ++ to_string_double multiplier) = none ∧
      ∃ basis s1, getVAR data length s = some (basis, s1) ∧
        bbUpperLoop sqrt data basis length multiplier = some r ∧
        s' = { s1 with indicator_cache := (mapSet s1.indicator_cache
          ("bb_upper_" ++ toString length ++ "_" ++ to_string_double multiplier) r) }) := by
  unfold getBBUpper at h
  simp only at h
  cases hf : mapFind s.indicator_cache
      ("bb_upper_" ++ toString length ++ "_" ++ to_string_double multiplier) with
  | some v =>
    rw [hf] at h
    simp only [Option.some.injEq, Prod.mk.injEq] at h
    exact Or.inl ⟨by rw [h.1], h.2.symm⟩
  | none =>
    rw [hf] at h
    right
    refine ⟨rfl, ?_⟩
    simp only [Option.bind_eq_bind] at h
    cases h1 : getVAR data length s with
    | none => rw [h1] at h; exact Option.noConfusion h
    | some p1 =>
      obtain ⟨basis, s1⟩ := p1
      rw [h1] at h
      simp only [Option.some_bind] at h
      cases h2 : bbUpperLoop sqrt data basis length multiplier with
      | none => rw [h2] at h; exact Option.noConfusion h
      | some res =>
        rw [h2] at h
        simp only [Option.some_bind, Option.some.injEq, Prod.mk.injEq] at h
        exact ⟨basis, s1, rfl, by rw [← h.1, h2], by rw [← h.2, h.1]⟩

theorem getBBLower_cases (sqrt : ℚ → ℚ) (data : Vec) (length : Int) (multiplier : ℚ)
    (s : IndicatorCache) (r : Vec) (s' : IndicatorCache)
    (h : getBBLower sqrt data length multiplier s = some (r, s')) :
    (mapFind s.indicator_cache
        ("bb_lower_" ++ toString length ++ "_" ++ to_string_double multiplier) = some r ∧
      s' = s) ∨
    (mapFind s.indicator_cache
        ("bb_lower_" ++ toString length ++ "_" ++ to_string_double multiplier) = none ∧
      ∃ basis s1, getVAR data length s = some (basis, s1) ∧
        bbLowerLoop sqrt data basis length multiplier = some r ∧
        s' = { s1 with indicator_cache := (mapSet s1.indicator_cache
          ("bb_lower_" ++ toString length ++ "_" ++ to_string_double multiplier) r) }) := by
  unfold getBBLower at h
  simp only at h
  cases hf : mapFind s.indicator_cache
      ("bb_lower_" ++ toString length ++ "_" ++ to_string_double multiplier) with
  | some v =>
    rw [hf] at h
    simp only [Option.some.injEq, Prod.mk.injEq] at h
    exact Or.inl ⟨by rw [h.1], h.2.symm⟩
  | none =>
    rw [hf] at h
    right
    refine ⟨rfl, ?_⟩
    simp only [Option.bind_eq_bind] at h
    cases h1 : getVAR data length s with
    | none => rw [h1] at h; exact Option.noConfusion h
    | some p1 =>
      obtain ⟨basis, s1⟩ := p1
      rw [h1] at h
      simp only [Option.some_bind] at h
      cases h2 : bbLowerLoop sqrt data basis length multiplier with
      | none => rw [h2] at h; exact Option.noConfusion h
      | some res =>
        rw [h2] at h
        simp only [Option.some_bind, Option.some.injEq, Prod.mk.injEq] at h
        exact ⟨basis, s1, rfl, by rw [← h.1, h2], by rw [← h.2, h.1]⟩

/-! ## Transparency of the operations on the price vectors -/

theorem key_ne_of_head (p q a b : String) (c d : Char) (cs ds : List Char)
    (hp : p.data = c :: cs) (hq : q.data = d :: ds) (hcd : c ≠ d) : p ++ a ≠ q ++ b := by
  intro h
  have h2 := congrArg String.data h
  simp only [String.data_append, hp, hq, List.cons_append, List.cons.injEq] at h2
  exact hcd h2.1

theorem rsi_ne_stoch (a b : String) : "rsi_" ++ a ≠ "stoch_" ++ b :=
  key_ne_of_head _ _ a b 'r' 's' _ _ rfl rfl (by decide)

theorem bb_upper_ne_rsi (a m b : String) : "bb_upper_" ++ a ++ "_" ++ m ≠ "rsi_" ++ b := by
  rw [String.append_assoc, String.append_assoc]
  exact key_ne_of_head _ _ _ b 'b' 'r' _ _ rfl rfl (by decide)

theorem bb_upper_ne_stoch (a m b : String) : "bb_upper_" ++ a ++ "_" ++ m ≠ "stoch_" ++ b := by
  rw [String.append_assoc, String.append_assoc]
  exact key_ne_of_head _ _ _ b 'b' 's' _ _ rfl rfl (by decide)

theorem bb_lower_ne_rsi (a m b : String) : "bb_lower_" ++ a ++ "_" ++ m ≠ "rsi_" ++ b := by
  rw [String.append_assoc, String.append_assoc]
  exact key_ne_of_head _ _ _ b 'b' 'r' _ _ rfl rfl (by decide)

theorem bb_lower_ne_stoch (a m b : String) : "bb_lower_" ++ a ++ "_" ++ m ≠ "stoch_" ++ b := by
  rw [String.append_assoc, String.append_assoc]
  exact key_ne_of_head _ _ _ b 'b' 's' _ _ rfl rfl (by decide)

/-- A state with the same `indicator_cache` and `atr_cache` keeps the invariant. -/
theorem PriceInv_frame (closes highs lows : Vec) (s s' : IndicatorCache)
    (hi : s'.indicator_cache = s.indicator_cache) (ha : s'.atr_cache = s.atr_cache)
    (h : PriceInv closes highs lows s) : PriceInv closes highs lows s' := by
  unfold PriceInv
  rw [hi, ha]
  exact h

theorem getVAR_frame (data : Vec) (length : Int) (s : IndicatorCache) (r : Vec)
    (s' : IndicatorCache) (h : getVAR data length s = some (r, s')) :
    s'.indicator_cache = s.indicator_cache ∧ s'.atr_cache = s.atr_cache := by
  rcases getVAR_cases data length s r s' h with ⟨_, h2⟩ | ⟨_, m, s1, v, s2, er, h1, h2, _, _, h5⟩
  · rw [h2]; exact ⟨rfl, rfl⟩
  · have e1 : s1.indicator_cache = s.indicator_cache ∧ s1.atr_cache = s.atr_cache := by
      rcases getAbsChange_cases data 9 s m s1 h1 with ⟨_, e⟩ | ⟨_, _, e⟩ <;> rw [e] <;>
        exact ⟨rfl, rfl⟩
    have e2 : s2.indicator_cache = s1.indicator_cache ∧ s2.atr_cache = s1.atr_cache := by
      rcases getSumAbsChanges_cases data 9 s1 v s2 h2 with ⟨_, e⟩ | ⟨_, _, e⟩ <;> rw [e] <;>
        exact ⟨rfl, rfl⟩
    rw [h5]
    exact ⟨e2.1.trans e1.1, e2.2.trans e1.2⟩

theorem PriceInv_step (sqrt : ℚ → ℚ) (closes highs lows : Vec) (c : Call) (s : IndicatorCache)
    (r : Vec) (s' : IndicatorCache) (hc : c.usesPrices closes highs lows)
    (hinv : PriceInv closes highs lows s) (h : c.run sqrt s = some (r, s')) :
    PriceInv closes highs lows s' := by
  cases c with
  | stochastic c0 h0 l0 k =>
    obtain ⟨rfl, rfl, rfl⟩ := hc
    rcases getStochastic_cases _ _ _ k s r s' h with ⟨_, e⟩ | ⟨_, hcomp, e⟩
    · rw [e]; exact hinv
    · rw [e]
      refine ⟨?_, ?_, hinv.2.2⟩
      · intro n v hv
        simp only [mapFind_mapSet, if_neg (rsi_ne_stoch _ _).symm] at hv
        exact hinv.1 n v hv
      · intro k' v hv
        simp only [mapFind_mapSet] at hv
        by_cases hk : "stoch_" ++ toString k = "stoch_" ++ toString k'
        · rw [if_pos hk] at hv
          have := key_int_injective _ _ _ hk
          subst this
          rw [← Option.some.inj hv]
          exact hcomp
        · rw [if_neg hk] at hv
          exact hinv.2.1 k' v hv
  | rsi c0 n0 =>
    have hc' : c0 = closes := hc
    subst hc'
    rcases getRSI_cases _ n0 s r s' h with ⟨_, e⟩ | ⟨_, hcomp, e⟩
    · rw [e]; exact hinv
    · rw [e]
      refine ⟨?_, ?_, hinv.2.2⟩
      · intro n v hv
        simp only [mapFind_mapSet] at hv
        by_cases hk : "rsi_" ++ toString n0 = "rsi_" ++ toString n
        · rw [if_pos hk] at hv
          have := key_int_injective _ _ _ hk
          subst this
          rw [← Option.some.inj hv]
          exact hcomp
        · rw [if_neg hk] at hv
          exact hinv.1 n v hv
      · intro k v hv
        simp only [mapFind_mapSet, if_neg (rsi_ne_stoch _ _)] at hv
        exact hinv.2.1 k v hv
  | atr h0 l0 c0 p0 =>
    obtain ⟨rfl, rfl, rfl⟩ := hc
    rcases getATR_cases _ _ _ p0 s r s' h with ⟨_, e⟩ | ⟨_, hcomp, e⟩
    · rw [e]; exact hinv
    · rw [e]
      refine ⟨hinv.1, hinv.2.1, ?_⟩
      intro p v hv
      simp only [mapFind_mapSet] at hv
      by_cases hk : p0 = p
      · rw [if_pos hk] at hv
        subst hk
        rw [← Option.some.inj hv]
        exact hcomp
      · rw [if_neg hk] at hv
        exact hinv.2.2 p v hv
  | var data length =>
    have hf := getVAR_frame data length s r s' h
    exact PriceInv_frame _ _ _ s s' hf.1 hf.2 hinv
  | ott data m =>
    rcases getOTT_cases data m s r s' h with ⟨_, e⟩ | ⟨_, _, e⟩ <;> rw [e] <;> exact hinv
  | absChange data p =>
    rcases getAbsChange_cases data p s r s' h with ⟨_, e⟩ | ⟨_, _, e⟩ <;> rw [e] <;> exact hinv
  | sumAbsChanges data p =>
    rcases getSumAbsChanges_cases data p s r s' h with ⟨_, e⟩ | ⟨_, _, e⟩ <;> rw [e] <;>
      exact hinv
  | highest data p =>
    rcases getHighest_cases data p s r s' h with ⟨_, e⟩ | ⟨_, _, e⟩ <;> rw [e] <;> exact hinv
  | lowest data p =>
    rcases getLowest_cases data p s r s' h with ⟨_, e⟩ | ⟨_, _, e⟩ <;> rw [e] <;> exact hinv
  | bbUpper data length m =>
    rcases getBBUpper_cases sqrt data length m s r s' h with ⟨_, e⟩ | ⟨_, b, s1, h1, _, e⟩
    · rw [e]; exact hinv
    · have hf := getVAR_frame data length s b s1 h1
      have hinv1 := PriceInv_frame _ _ _ s s1 hf.1 hf.2 hinv
      rw [e]
      refine ⟨?_, ?_, hinv1.2.2⟩
      · intro n v hv
        simp only [mapFind_mapSet, if_neg (bb_upper_ne_rsi _ _ _)] at hv
        exact hinv1.1 n v hv
      · intro k v hv
        simp only [mapFind_mapSet, if_neg (bb_upper_ne_stoch _ _ _)] at hv
        exact hinv1.2.1 k v hv
  | bbLower data length m =>
    rcases getBBLower_cases sqrt data length m s r s' h with ⟨_, e⟩ | ⟨_, b, s1, h1, _, e⟩
    · rw [e]; exact hinv
    · have hf := getVAR_frame data length s b s1 h1
      have hinv1 := PriceInv_frame _ _ _ s s1 hf.1 hf.2 hinv
      rw [e]
      refine ⟨?_, ?_, hinv1.2.2⟩
      · intro n v hv
        simp only [mapFind_mapSet, if_neg (bb_lower_ne_rsi _ _ _)] at hv
        exact hinv1.1 n v hv
      · intro k v hv
        simp only [mapFind_mapSet, if_neg (bb_lower_ne_stoch _ _ _)] at hv
        exact hinv1.2.1 k v hv

theorem PriceInv_empty (closes highs lows : Vec) : PriceInv closes highs lows emptyCache :=
  ⟨fun _ _ h => Option.noConfusion h, fun _ _ h => Option.noConfusion h,
    fun _ _ h => Option.noConfusion h⟩

theorem PriceInv_runCalls (sqrt : ℚ → ℚ) (closes highs lows : Vec) :
    ∀ (calls : List Call) (s0 s : IndicatorCache),
      (∀ c ∈ calls, c.usesPrices closes highs lows) → PriceInv closes highs lows s0 →
      runCalls sqrt calls s0 = some s → PriceInv closes highs lows s := by
  intro calls
  induction calls with
  | nil =>
    intro s0 s _ hinv h
    simp only [runCalls, Option.some.injEq] at h
    rw [← h]; exact hinv
  | cons c cs ih =>
    intro s0 s hc hinv h
    simp only [runCalls] at h
    cases h1 : c.run sqrt s0 with
    | none => rw [h1] at h; exact Option.noConfusion h
    | some p =>
      obtain ⟨r, s1⟩ := p
      rw [h1] at h
      simp only [Option.some_bind] at h
      exact ih s1 s (fun c' hc' => hc c' (List.mem_cons_of_mem _ hc'))
        (PriceInv_step sqrt closes highs lows c s0 r s1 (hc c (List.mem_cons_self _ _)) hinv h1) h

theorem memo_transparent {σ : Type} (found compute : Option Vec) (s : σ) (upd : Vec → σ)
    (h : ∀ v, found = some v → compute = some v) :
    (match found with
      | some v => some (v, s)
      | none => compute.map (fun result => (result, upd result))).map Prod.fst = compute := by
  cases found with
  | some v => rw [h v rfl]; rfl
  | none =>
    cases compute with
    | none => rfl
    | some v => rfl

/-- C12: when every call made on a cache passes the same closes, highs and lows,
then after every sequence of calls (each of which returned) and for every
parameter, `getRSI`, `getStochastic` and `getATR` on those vectors return exactly
the series that an empty cache returns for the same arguments. -/
theorem price_ops_transparent (sqrt : ℚ → ℚ) (closes highs lows : Vec) (calls : List Call)
    (s : IndicatorCache) (hcalls : ∀ c ∈ calls, c.usesPrices closes highs lows)
    (hrun : runCalls sqrt calls emptyCache = some s) (n k p : Int) :
    (getRSI closes n s).map Prod.fst = (getRSI closes n emptyCache).map Prod.fst ∧
    (getStochastic closes highs lows k s).map Prod.fst
      = (getStochastic closes highs lows k emptyCache).map Prod.fst ∧
    (getATR highs lows closes p s).map Prod.fst
      = (getATR highs lows closes p emptyCache).map Prod.fst := by
  have hinv := PriceInv_runCalls sqrt closes highs lows calls emptyCache s hcalls
    (PriceInv_empty closes highs lows) hrun
  have hinv0 := PriceInv_empty closes highs lows
  refine ⟨?_, ?_, ?_⟩
  · exact (memo_transparent _ _ s _ (hinv.1 n)).trans
      (memo_transparent _ _ emptyCache _ (hinv0.1 n)).symm
  · exact (memo_transparent _ _ s _ (hinv.2.1 k)).trans
      (memo_transparent _ _ emptyCache _ (hinv0.2.1 k)).symm
  · exact (memo_transparent _ _ s _ (hinv.2.2 p)).trans
      (memo_transparent _ _ emptyCache _ (hinv0.2.2 p)).symm

theorem price_ops_transparent_witness :
    (∀ c ∈ [Call.rsi [1, 2, 3] 1, Call.highest [1, 2, 3] 2],
      c.usesPrices [1, 2, 3] [2, 3, 4] [0, 1, 2]) ∧
    runCalls (fun x => x) [Call.rsi [1, 2, 3] 1, Call.highest [1, 2, 3] 2] emptyCache
      = some { emptyCache with indicator_cache := [("rsi_1", [0, 0, 100])],
                               highest_cache := [(2, [1, 2, 3])] } ∧
    ((getRSI [1, 2, 3] 1 { emptyCache with indicator_cache := [("rsi_1", [0, 0, 100])],
                                            highest_cache := [(2, [1, 2, 3])] }).map Prod.fst
        = (getRSI [1, 2, 3] 1 emptyCache).map Prod.fst ∧
      (getStochastic [1, 2, 3] [2, 3, 4] [0, 1, 2] 1
          { emptyCache with indicator_cache := [("rsi_1", [0, 0, 100])],
                            highest_cache := [(2, [1, 2, 3])] }).map Prod.fst
        = (getStochastic [1, 2, 3] [2, 3, 4] [0, 1, 2] 1 emptyCache).map Prod.fst ∧
      (getATR [2, 3, 4] [0, 1, 2] [1, 2, 3] 1
          { emptyCache with indicator_cache := [("rsi_1", [0, 0, 100])],
                            highest_cache := [(2, [1, 2, 3])] }).map Prod.fst
        = (getATR [2, 3, 4] [0, 1, 2] [1, 2, 3] 1 emptyCache).map Prod.fst) :=
  ⟨by
      intro c hc
      simp only [List.mem_cons, List.mem_singleton, List.not_mem_nil, or_false] at hc
      rcases hc with rfl | rfl
      · exact rfl
      · exact trivial,
    by decide!,
    price_ops_transparent (fun x => x) [1, 2, 3] [2, 3, 4] [0, 1, 2]
      [Call.rsi [1, 2, 3] 1, Call.highest [1, 2, 3] 2] _
      (by
        intro c hc
        simp only [List.mem_cons, List.mem_singleton, List.not_mem_nil, or_false] at hc
        rcases hc with rfl | rfl
        · exact rfl
        · exact trivial)
      (by decide!) 1 1 1⟩

/-! ## Parameter strings and hashes -/

theorem to_string_double_ne_off (x : ℚ) : to_string_double x ≠ "off" := by
  intro h
  have h2 : '.' ∈ (to_string_double x).data := by
    simp only [to_string_double, String.data_append]
    simp
  rw [h] at h2
  revert h2
  decide

theorem item_eq (lit f : String) (h : lit = "-" ++ f ++ "=") (rest : String) :
    "-" ++ (f ++ ("=" ++ rest)) = lit ++ rest := by
  rw [h, String.append_assoc, String.append_assoc]

/-- C13: for every parameter record of every family, `getParamString` is
`Strategy=` followed by the strategy name, then the items `-Field=Value` of the
family, and ends with `-SL=`, `-TP=` and `-Pyramiding=`; the text after `-SL=` is
`off` exactly when `use_sl` is false (else the rendering of `sl_percent`), the text
after `-TP=` is `off` exactly when `use_tp` is false, and the last text is `on` if
`pyramiding` and `off` otherwise. -/
theorem getParamString_format (os : ℚ → String) (p : Params) :
    p.getParamString os
      = "Strategy=" ++ p.common.strategy_name ++ renderItems (p.familyFields os)
        ++ "-SL=" ++ slText p.common ++ "-TP=" ++ tpText p.common
        ++ "-Pyramiding=" ++ pyramidingText p.common ∧
    (slText p.common = "off" ↔ p.common.use_sl = false) ∧
    (p.common.use_sl = true → slText p.common = to_string_double p.common.sl_percent) ∧
    (tpText p.common = "off" ↔ p.common.use_tp = false) ∧
    (p.common.use_tp = true → tpText p.common = to_string_double p.common.tp_percent) ∧
    (pyramidingText p.common = if p.common.pyramiding then "on" else "off") := by
  refine ⟨?_, ?_, ?_, ?_, ?_, rfl⟩
  · cases p <;>
      simp only [Params.getParamString, Params.common, Params.familyFields, renderItems,
        slText, tpText, pyramidingText, OttParams.getParamString, TottParams.getParamString,
        OttChannelParams.getParamString, RisottoParams.getParamString,
        SottParams.getParamString, HottLottParams.getParamString, RottParams.getParamString,
        FtParams.getParamString, RtrParams.getParamString, MottParams.getParamString,
        BootsParams.getParamString, String.append_assoc, String.append_empty,
        String.empty_append,
        item_eq "-SupportLength=" "SupportLength" rfl,
        item_eq "-OTTMultiplier=" "OTTMultiplier" rfl,
        item_eq "-BandMultiplier=" "BandMultiplier" rfl,
        item_eq "-ChannelType=" "ChannelType" rfl,
        item_eq "-MALength=" "MALength" rfl,
        item_eq "-UpperMultiplier=" "UpperMultiplier" rfl,
        item_eq "-LowerMultiplier=" "LowerMultiplier" rfl,
        item_eq "-RSILength=" "RSILength" rfl,
        item_eq "-StochKLength=" "StochKLength" rfl,
        item_eq "-StochDLength=" "StochDLength" rfl,
        item_eq "-HLLength=" "HLLength" rfl,
        item_eq "-UseSumNBars=" "UseSumNBars" rfl,
        item_eq "-SumNBars=" "SumNBars" rfl,
        item_eq "-MajorOTTMultiplier=" "MajorOTTMultiplier" rfl,
        item_eq "-MinorOTTMultiplier=" "MinorOTTMultiplier" rfl,
        item_eq "-ATRLength=" "ATRLength" rfl,
        item_eq "-Reference=" "Reference" rfl,
        item_eq "-BBLength=" "BBLength" rfl]
    rename_i q
    by_cases hs : q.use_sum = true
    · simp only [hs, if_true, List.append, renderItems, String.append_empty,
        String.append_assoc, item_eq "-SumNBars=" "SumNBars" rfl]
    · have hf : q.use_sum = false := by simpa using hs
      simp only [hf, Bool.false_eq_true, if_false, List.append, renderItems,
        String.append_empty, String.empty_append]
  · unfold slText
    cases hb : p.common.use_sl
    · simp
    · simp [to_string_double_ne_off]
  · intro hs
    simp only [slText, hs, if_true]
  · unfold tpText
    cases hb : p.common.use_tp
    · simp
    · simp [to_string_double_ne_off]
  · intro hs
    simp only [tpText, hs, if_true]

theorem strategyParams_eq_of_eq (p q : StrategyParams) (h : p.eq q = true) : p = q := by
  obtain ⟨a1, a2, a3, a4, a5, a6⟩ := p
  obtain ⟨b1, b2, b3, b4, b5, b6⟩ := q
  simp only [StrategyParams.eq, Bool.and_eq_true, decide_eq_true_eq] at h
  obtain ⟨⟨⟨⟨⟨h1, h2⟩, h3⟩, h4⟩, h5⟩, h6⟩ := h
  subst h1 h2 h3 h4 h5 h6
  rfl

theorem params_eq_of_eq (p q : Params) (h : Params.eq p q = true) : p = q := by
  cases p <;> cases q <;>
    first
    | (simp [Params.eq] at h; done)
    | (rename_i a b
       obtain ⟨a0, _⟩ := a
       obtain ⟨b0, _⟩ := b
       simp only [Params.eq, OttParams.eq, TottParams.eq, OttChannelParams.eq, RisottoParams.eq,
         SottParams.eq, HottLottParams.eq, RottParams.eq, FtParams.eq, RtrParams.eq,
         MottParams.eq, BootsParams.eq, Bool.and_eq_true, decide_eq_true_eq] at h
       have h0 := strategyParams_eq_of_eq a0 b0 (by tauto)
       subst h0
       simp_all)

/-- C14: for every family and every two parameter records `p`, `q` of that family,
if `p == q` by the `operator==` of the family then `p.hash() = q.hash()`. -/
theorem hash_eq_of_eq (H : StdHash) (p q : Params) (h : Params.eq p q = true) :
    p.hash H = q.hash H := by
  rw [params_eq_of_eq p q h]

theorem hash_eq_of_eq_witness :
    Params.eq
      (.hottLott { sl_percent := 1, tp_percent := 2, use_sl := true, use_tp := false,
                   pyramiding := false, strategy_name := "HOTT-LOTT", hl_length := 5,
                   ott_multiplier := 1 / 2, use_sum := false, sum_n_bars := 3 })
      (.hottLott { sl_percent := 1, tp_percent := 2, use_sl := true, use_tp := false,
                   pyramiding := false, strategy_name := "HOTT-LOTT", hl_length := 5,
                   ott_multiplier := 1 / 2, use_sum := false, sum_n_bars := 3 }) = true ∧
    Params.hash ⟨fun x => x.num.natAbs, fun b => b.toNat, fun n => n.natAbs, fun s => s.length⟩
      (.hottLott { sl_percent := 1, tp_percent := 2, use_sl := true, use_tp := false,
                   pyramiding := false, strategy_name := "HOTT-LOTT", hl_length := 5,
                   ott_multiplier := 1 / 2, use_sum := false, sum_n_bars := 3 })
    = Params.hash ⟨fun x => x.num.natAbs, fun b => b.toNat, fun n => n.natAbs, fun s => s.length⟩
      (.hottLott { sl_percent := 1, tp_percent := 2, use_sl := true, use_tp := false,
                   pyramiding := false, strategy_name := "HOTT-LOTT", hl_length := 5,
                   ott_multiplier := 1 / 2, use_sum := false, sum_n_bars := 3 }) :=
  ⟨by decide!, hash_eq_of_eq _ _ _ (by decide!)⟩

/-! ## The program entry -/

/-- C15: for an argument list that holds only the program name and a csv file, the
option parser of `main` yields the strategy list `["OTT"]`, the hardware
parallelism as thread count, 5 minimum trades, a minimum win rate of 55, stop loss
and take profit on, pyramiding off and no exclusion of stop-loss trades. -/
theorem parseOptions_defaults (env : Env) (prog csv : String) :
    parseOptions env [prog, csv]
      = some { strategies := ["OTT"], num_threads := (env.hardware_concurrency : Int),
               min_trades := 5, min_win_rate := 55, use_sl := true, use_tp := true,
               pyramiding := false, exclude_sl_from_winrate := false } :=
  rfl

theorem gridLoop_mono (stop step : ℚ) :
    ∀ fuel i L, gridLoop stop step fuel i = some L → gridLoop stop step (fuel + 1) i = some L := by
  intro fuel
  induction fuel with
  | zero => intro i L h; exact Option.noConfusion h
  | succ fuel ih =>
    intro i L h
    rw [gridLoop] at h
    rw [gridLoop]
    by_cases hi : i ≤ stop
    · rw [if_pos hi] at h ⊢
      cases hr : gridLoop stop step fuel (fl (i + step)) with
      | none => rw [hr] at h; exact Option.noConfusion h
      | some rest =>
        rw [hr] at h
        rw [ih _ _ hr]
        exact h
    · rw [if_neg hi] at h ⊢
      exact h

theorem gridLoop_mono_le (stop step : ℚ) (fuel : Nat) (i : ℚ) (L : List ℚ)
    (h : gridLoop stop step fuel i = some L) :
    ∀ fuel', fuel ≤ fuel' → gridLoop stop step fuel' i = some L := by
  intro fuel' hle
  induction fuel' with
  | zero =>
    have : fuel = 0 := by omega
    subst this
    exact h
  | succ n ih =>
    by_cases hn : fuel ≤ n
    · exact gridLoop_mono stop step n i L (ih hn)
    · have : fuel = n + 1 := by omega
      subst this
      exact h

theorem slGrid_eq (fuel : Nat) (h : 8 ≤ fuel) : slGrid fuel = some slValues :=
  gridLoop_mono_le _ _ 8 _ _ (by decide!) fuel h

theorem fl_tenth : fl (1 / 10) = 3602879701896397 / 36028797018963968 := by decide!

theorem fl_four_tenths : fl (4 / 10) = 3602879701896397 / 9007199254740992 := by decide!

theorem tp_step_1 :
    fl (3602879701896397 / 9007199254740992 + 3602879701896397 / 36028797018963968)
      = 1 / 2 := by
  decide!

theorem tp_step_2 :
    fl (1 / 2 + 3602879701896397 / 36028797018963968)
      = 5404319552844595 / 9007199254740992 := by
  decide!

theorem tp_step_3 :
    fl (5404319552844595 / 9007199254740992 + 3602879701896397 / 36028797018963968)
      = 3152519739159347 / 4503599627370496 := by
  decide!

theorem tp_step_4 :
    fl (3152519739159347 / 4503599627370496 + 3602879701896397 / 36028797018963968)
      = 7205759403792793 / 9007199254740992 := by
  decide!

theorem tp_step_5 :
    fl (7205759403792793 / 9007199254740992 + 3602879701896397 / 36028797018963968)
      = 2026619832316723 / 2251799813685248 := by
  decide!

theorem tp_step_6 :
    fl (2026619832316723 / 2251799813685248 + 3602879701896397 / 36028797018963968)
      = 9007199254740991 / 9007199254740992 := by
  decide!

theorem tp_step_7 :
    fl (9007199254740991 / 9007199254740992 + 3602879701896397 / 36028797018963968)
      = 4953959590107545 / 4503599627370496 := by
  decide!

theorem tpGrid_eight : tpGrid 8 = some tpValues := by
  simp only [tpGrid, gridLoop, fl_tenth, fl_four_tenths, tp_step_1, tp_step_2, tp_step_3,
    tp_step_4, tp_step_5, tp_step_6, tp_step_7]
  norm_num [tpValues]

theorem tpGrid_eq (fuel : Nat) (h : 8 ≤ fuel) : tpGrid fuel = some tpValues :=
  gridLoop_mono_le _ _ 8 _ _ tpGrid_eight fuel h

theorem parseArgs_append (env : Env) (a b : List String) (o : Options) :
    parseArgs env (a ++ b) o = (parseArgs env a o).bind (parseArgs env b) := by
  induction a generalizing o with
  | nil => rfl
  | cons x rest ih =>
    simp only [List.cons_append, parseArgs]
    cases parseArg env x o with
    | none => rfl
    | some o' => exact ih o'

theorem parseArg_unrecognised (env : Env) (arg : String) (o : Options) (h : ¬ Recognised arg) :
    parseArg env arg o = some o := by
  unfold Recognised at h
  simp only [not_or] at h
  obtain ⟨h1, h2, h3, h4, h5, h6, h7, h8⟩ := h
  simp only [parseArg, h1, h2, h3, h4, h5, h6, h7, h8, if_false, Bool.false_eq_true]

theorem main_cons_cons (env : Env) (fuel : Nat) (prog csv : String) (args : List String) :
    main env fuel (prog :: csv :: args)
      = match parseArgs env args (defaultOptions env) with
        | none => some .uncaught_exception
        | some o =>
          if (env.loadCSV csv).isEmpty then some (.returned 1 [])
          else (slGrid fuel).bind fun sl_percents => (tpGrid fuel).bind fun tp_percents =>
            some (.returned 0
              [{ bars := env.loadCSV csv, strategies := o.strategies,
                 sl_percents := sl_percents, tp_percents := tp_percents, use_sl := o.use_sl,
                 use_tp := o.use_tp, pyramiding := o.pyramiding, initial_capital := 10000,
                 min_trades := o.min_trades, min_win_rate := o.min_win_rate,
                 exclude_sl_from_winrate := o.exclude_sl_from_winrate,
                 num_threads := o.num_threads }]) := by
  have hlen : ¬ (prog :: csv :: args).length < 2 := by
    simp only [List.length_cons]
    omega
  simp only [main, if_neg hlen, parseOptions, List.drop_succ_cons, List.drop_zero,
    List.getD_cons_succ, List.getD_cons_zero]
  rfl

theorem main_runs (env : Env) (fuel : Nat) (prog csv : String) (args : List String)
    (o : Options) (hfuel : 8 ≤ fuel) (hp : parseArgs env args (defaultOptions env) = some o)
    (hb : env.loadCSV csv ≠ []) :
    main env fuel (prog :: csv :: args)
      = some (.returned 0 [optimizerCall o (env.loadCSV csv)]) := by
  have he : (env.loadCSV csv).isEmpty = false := by
    cases hl : env.loadCSV csv with
    | nil => exact absurd hl hb
    | cons b bs => rfl
  rw [main_cons_cons, hp]
  simp only [he, Bool.false_eq_true, if_false, slGrid_eq fuel hfuel, tpGrid_eq fuel hfuel,
    Option.some_bind, optimizerCall]

theorem main_load_failure (env : Env) (fuel : Nat) (prog csv : String) (args : List String)
    (o : Options) (hp : parseArgs env args (defaultOptions env) = some o)
    (hb : env.loadCSV csv = []) :
    main env fuel (prog :: csv :: args) = some (.returned 1 []) := by
  rw [main_cons_cons, hp]
  simp only [hb, List.isEmpty_nil, if_true]

theorem main_throws (env : Env) (fuel : Nat) (prog csv : String) (args : List String)
    (hp : parseArgs env args (defaultOptions env) = none) :
    main env fuel (prog :: csv :: args) = some .uncaught_exception := by
  rw [main_cons_cons, hp]

/-- C16 as amended: an argument after the csv file that is not one of the
recognised options is ignored: `main` ends exactly as it ends on the argument list
without that argument (it neither aborts nor returns 1 because of it). -/
theorem main_ignores_unrecognised (env : Env) (fuel : Nat) (prog csv : String)
    (before after : List String) (arg : String) (h : ¬ Recognised arg) :
    main env fuel (prog :: csv :: (before ++ arg :: after))
      = main env fuel (prog :: csv :: (before ++ after)) := by
  have hp : parseArgs env (before ++ arg :: after) (defaultOptions env)
      = parseArgs env (before ++ after) (defaultOptions env) := by
    simp only [parseArgs_append, parseArgs]
    cases parseArgs env before (defaultOptions env) with
    | none => rfl
    | some o => simp only [Option.some_bind, parseArg_unrecognised env arg o h]
  rw [main_cons_cons, main_cons_cons, hp]

/-- C16 as stated fails: on `prog data.csv --bogus`, with a loader that finds one
bar, `main` runs the optimizer once with the default options and returns 0. -/
theorem main_unknown_flag_runs :
    main sampleEnv 8 ["prog", "data.csv", "--bogus"]
      = some (.returned 0 [optimizerCall (defaultOptions sampleEnv) [sampleBar]]) := by
  exact main_runs sampleEnv 8 "prog" "data.csv" ["--bogus"] (defaultOptions sampleEnv)
    (le_refl _) (by decide) (by decide)

theorem main_ignores_unrecognised_witness :
    ¬ Recognised "--bogus" ∧
    main sampleEnv 8 ("prog" :: "data.csv" :: (["--no-sl"] ++ "--bogus" :: ["--threads=4"]))
      = main sampleEnv 8 ("prog" :: "data.csv" :: (["--no-sl"] ++ ["--threads=4"])) :=
  ⟨by unfold Recognised; decide,
    main_ignores_unrecognised sampleEnv 8 "prog" "data.csv" ["--no-sl"] ["--threads=4"]
      "--bogus" (by unfold Recognised; decide)⟩

theorem startsWith_append (p v : String) : startsWith (p ++ v) p = true := by
  simp only [startsWith, String.data_append, List.isPrefixOf_iff_prefix]
  exact List.prefix_append _ _

theorem substr_append (p v : String) : substr (p ++ v) p.data.length = v := by
  simp only [substr, String.data_append, List.drop_left]

theorem parseArg_rejected (env : Env) (arg : String) (o : Options) (h : Rejected env arg) :
    parseArg env arg o = none := by
  rcases h with ⟨v, rfl, hv⟩ | ⟨v, rfl, hv⟩ | ⟨v, rfl, hv⟩
  · have h1 : startsWith ("--threads=" ++ v) "--strategies=" = false := by
      simp [startsWith, String.data_append, List.isPrefixOf]
    have h2 := startsWith_append "--threads=" v
    have h3 : substr ("--threads=" ++ v) 10 = v := substr_append "--threads=" v
    simp only [parseArg, h1, h2, h3, hv, if_true, Bool.false_eq_true, if_false, Option.map_none']
  · have h1 : startsWith ("--min-trades=" ++ v) "--strategies=" = false := by
      simp [startsWith, String.data_append, List.isPrefixOf]
    have h1' : startsWith ("--min-trades=" ++ v) "--threads=" = false := by
      simp [startsWith, String.data_append, List.isPrefixOf]
    have h2 := startsWith_append "--min-trades=" v
    have h3 : substr ("--min-trades=" ++ v) 13 = v := substr_append "--min-trades=" v
    simp only [parseArg, h1, h1', h2, h3, hv, if_true, Bool.false_eq_true, if_false,
      Option.map_none']
  · have h1 : startsWith ("--min-winrate=" ++ v) "--strategies=" = false := by
      simp [startsWith, String.data_append, List.isPrefixOf]
    have h1' : startsWith ("--min-winrate=" ++ v) "--threads=" = false := by
      simp [startsWith, String.data_append, List.isPrefixOf]
    have h1'' : startsWith ("--min-winrate=" ++ v) "--min-trades=" = false := by
      simp [startsWith, String.data_append, List.isPrefixOf]
    have h2 := startsWith_append "--min-winrate=" v
    have h3 : substr ("--min-winrate=" ++ v) 14 = v := substr_append "--min-winrate=" v
    simp only [parseArg, h1, h1', h1'', h2, h3, hv, if_true, Bool.false_eq_true, if_false,
      Option.map_none']

theorem parseArgs_rejected (env : Env) (args : List String)
    (h : ∃ arg ∈ args, Rejected env arg) : ∀ o, parseArgs env args o = none := by
  induction args with
  | nil =>
    obtain ⟨arg, hmem, _⟩ := h
    cases hmem
  | cons x rest ih =>
    intro o
    obtain ⟨arg, hmem, hr⟩ := h
    simp only [parseArgs]
    rcases List.mem_cons.mp hmem with rfl | hrest
    · rw [parseArg_rejected env arg o hr]
      rfl
    · cases parseArg env x o with
      | none => rfl
      | some o' => exact ih ⟨arg, hrest, hr⟩ o'

/-- C17 as amended: for every argument list in which the value of `--threads=`,
`--min-trades=` or `--min-winrate=` is one on which `std::stoi`, respectively
`std::stod`, throws, `main` does not return a status: the exception is not caught. -/
theorem main_malformed_value (env : Env) (fuel : Nat) (prog csv : String) (args : List String)
    (h : ∃ arg ∈ args, Rejected env arg) :
    main env fuel (prog :: csv :: args) = some .uncaught_exception :=
  main_throws env fuel prog csv args (parseArgs_rejected env args h _)

theorem main_malformed_value_witness :
    (∃ arg ∈ ["--no-tp", "--min-winrate=high"], Rejected sampleEnv arg) ∧
    main sampleEnv 8 ("prog" :: "data.csv" :: ["--no-tp", "--min-winrate=high"])
      = some .uncaught_exception :=
  ⟨⟨"--min-winrate=high", by simp, Or.inr (Or.inr ⟨"high", by decide, by decide⟩)⟩,
    main_malformed_value sampleEnv 8 "prog" "data.csv" ["--no-tp", "--min-winrate=high"]
      ⟨"--min-winrate=high", by simp, Or.inr (Or.inr ⟨"high", by decide, by decide⟩)⟩⟩

/-- C17 as stated fails: on `prog data.csv --threads=abc`, `std::stoi` throws on
`abc` and nothing catches the exception; `main` returns no status. -/
theorem main_threads_not_a_number :
    main sampleEnv 8 ["prog", "data.csv", "--threads=abc"] = some .uncaught_exception ∧
    main sampleEnv 8 ["prog", "data.csv", "--threads=abc"] ≠ some (.returned 1 []) := by
  have h : main sampleEnv 8 ["prog", "data.csv", "--threads=abc"]
      = some .uncaught_exception :=
    main_throws sampleEnv 8 "prog" "data.csv" ["--threads=abc"] (by decide)
  rw [h]
  exact ⟨rfl, by decide⟩

/-- C18: `main` returns 1 when fewer than two arguments are given, and returns 1
when the loader returns no bar, in both cases without a run of the optimizer; when
the option loop ends without an exception and the loader returns bars, `main` runs
the optimizer once, with the parsed options, and returns 0. -/
theorem main_exit_codes (env : Env) (fuel : Nat) (argv : List String) (hfuel : 8 ≤ fuel) :
    (argv.length < 2 → main env fuel argv = some (.returned 1 [])) ∧
    (∀ o, 2 ≤ argv.length → parseOptions env argv = some o →
      env.loadCSV (argv.getD 1 "") = [] → main env fuel argv = some (.returned 1 [])) ∧
    (∀ o, 2 ≤ argv.length → parseOptions env argv = some o →
      env.loadCSV (argv.getD 1 "") ≠ [] →
      main env fuel argv
        = some (.returned 0 [optimizerCall o (env.loadCSV (argv.getD 1 ""))])) := by
  refine ⟨?_, ?_, ?_⟩
  · intro h
    simp only [main, if_pos h]
  · intro o hlen hp hb
    match argv, hlen with
    | prog :: csv :: args, _ =>
      exact main_load_failure env fuel prog csv args o hp hb
  · intro o hlen hp hb
    match argv, hlen with
    | prog :: csv :: args, _ =>
      exact main_runs env fuel prog csv args o hfuel hp hb

theorem main_exit_codes_witness :
    8 ≤ 8 ∧
    ((["prog", "data.csv", "--no-sl"] : List String).length < 2 →
      main sampleEnv 8 ["prog", "data.csv", "--no-sl"] = some (.returned 1 [])) ∧
    (∀ o, 2 ≤ (["prog", "data.csv", "--no-sl"] : List String).length →
      parseOptions sampleEnv ["prog", "data.csv", "--no-sl"] = some o →
      sampleEnv.loadCSV ((["prog", "data.csv", "--no-sl"] : List String).getD 1 "") = [] →
      main sampleEnv 8 ["prog", "data.csv", "--no-sl"] = some (.returned 1 [])) ∧
    (∀ o, 2 ≤ (["prog", "data.csv", "--no-sl"] : List String).length →
      parseOptions sampleEnv ["prog", "data.csv", "--no-sl"] = some o →
      sampleEnv.loadCSV ((["prog", "data.csv", "--no-sl"] : List String).getD 1 "") ≠ [] →
      main sampleEnv 8 ["prog", "data.csv", "--no-sl"]
        = some (.returned 0 [optimizerCall o
            (sampleEnv.loadCSV ((["prog", "data.csv", "--no-sl"] : List String).getD 1 ""))])) :=
  ⟨le_refl _, main_exit_codes sampleEnv 8 ["prog", "data.csv", "--no-sl"] (le_refl _)⟩

/-- C19 as amended: with enough fuel the two grid loops of `main` end; the stop-loss
list is exactly `[0.5, 1.0, 1.5, 2.0, 2.5, 3.0]` (6 values); the take-profit list has
7 values in increasing order: the doubles nearest `0.4`, `0.5`, `0.6`, `0.7`, then
three values one unit in the last place (`2^-53`) below the doubles nearest `0.8`,
`0.9` and `1.0`; `std::to_string` renders the seven as `0.400000` to `1.000000`; and
these are the lists passed to `MultiStrategyOptimizer`. -/
theorem default_grids (fuel : Nat) (hfuel : 8 ≤ fuel) :
    slGrid fuel = some [1 / 2, 1, 3 / 2, 2, 5 / 2, 3] ∧
    tpGrid fuel = some tpValues ∧
    tpValues = [fl (4 / 10), fl (5 / 10), fl (6 / 10), fl (7 / 10),
      fl (8 / 10) - 1 / 2 ^ 53, fl (9 / 10) - 1 / 2 ^ 53, 1 - 1 / 2 ^ 53] ∧
    tpValues.length = 7 ∧ List.Chain' (· < ·) tpValues ∧
    tpValues.map to_string_double
      = ["0.400000", "0.500000", "0.600000", "0.700000", "0.800000", "0.900000",
          "1.000000"] ∧
    ∀ (env : Env) (prog csv : String) (args : List String) (o : Options),
      parseArgs env args (defaultOptions env) = some o → env.loadCSV csv ≠ [] →
      ∃ call, main env fuel (prog :: csv :: args) = some (.returned 0 [call]) ∧
        call.sl_percents = [1 / 2, 1, 3 / 2, 2, 5 / 2, 3] ∧ call.tp_percents = tpValues := by
  refine ⟨slGrid_eq fuel hfuel, tpGrid_eq fuel hfuel, by decide!, rfl, ?_, by decide!, ?_⟩
  · simp only [tpValues, List.chain'_cons, List.chain'_singleton, and_true]
    norm_num
  · intro env prog csv args o hp hb
    exact ⟨_, main_runs env fuel prog csv args o hfuel hp hb, rfl, rfl⟩

theorem default_grids_witness :
    8 ≤ 8 ∧
    slGrid 8 = some [1 / 2, 1, 3 / 2, 2, 5 / 2, 3] ∧
    tpGrid 8 = some tpValues ∧
    tpValues = [fl (4 / 10), fl (5 / 10), fl (6 / 10), fl (7 / 10),
      fl (8 / 10) - 1 / 2 ^ 53, fl (9 / 10) - 1 / 2 ^ 53, 1 - 1 / 2 ^ 53] ∧
    tpValues.length = 7 ∧ List.Chain' (· < ·) tpValues ∧
    tpValues.map to_string_double
      = ["0.400000", "0.500000", "0.600000", "0.700000", "0.800000", "0.900000",
          "1.000000"] ∧
    ∀ (env : Env) (prog csv : String) (args : List String) (o : Options),
      parseArgs env args (defaultOptions env) = some o → env.loadCSV csv ≠ [] →
      ∃ call, main env 8 (prog :: csv :: args) = some (.returned 0 [call]) ∧
        call.sl_percents = [1 / 2, 1, 3 / 2, 2, 5 / 2, 3] ∧ call.tp_percents = tpValues :=
  ⟨le_refl _, default_grids 8 (le_refl _)⟩

/-- C19 as stated fails: for no amount of fuel is the take-profit list the list of
the doubles `0.4, 0.5, 0.6, 0.7, 0.8, 0.9, 1.0`; its last three values are
`0.7999999999999999`, `0.8999999999999999` and `0.9999999999999999`. -/
theorem tpGrid_not_nominal :
    ¬ ∃ fuel, tpGrid fuel
      = some [fl (4 / 10), fl (5 / 10), fl (6 / 10), fl (7 / 10), fl (8 / 10), fl (9 / 10), 1] := by
  rintro ⟨fuel, h⟩
  have h1 := gridLoop_mono_le _ _ fuel _ _ h (max fuel 8) (le_max_left _ _)
  have h2 := tpGrid_eq (max fuel 8) (le_max_right _ _)
  unfold tpGrid at h2
  rw [h1] at h2
  have h3 := Option.some.inj h2
  revert h3
  decide!

/-! ## Repeating a call, and `clear` -/

/-- C24: for each of the eleven get operations, every cache state `s` and every
argument tuple, if the call returns the series `r` and leaves the state `s1`, then the
same call on `s1` returns the same series `r` and leaves `s1` unchanged. -/
theorem cache_idempotent (sqrt : ℚ → ℚ) (c : Call) (s : IndicatorCache) (r : Vec)
    (s1 : IndicatorCache) (h : c.run sqrt s = some (r, s1)) :
    c.run sqrt s1 = some (r, s1) := by
  cases c with
  | stochastic closes highs lows k =>
    rcases getStochastic_cases _ _ _ _ _ _ _ h with ⟨hf, rfl⟩ | ⟨_, _, rfl⟩
    · simp only [Call.run, getStochastic, hf]
    · simp [Call.run, getStochastic, mapFind_mapSet]
  | rsi closes length =>
    rcases getRSI_cases _ _ _ _ _ h with ⟨hf, rfl⟩ | ⟨_, _, rfl⟩
    · simp only [Call.run, getRSI, hf]
    · simp [Call.run, getRSI, mapFind_mapSet]
  | var data length =>
    rcases getVAR_cases _ _ _ _ _ h with ⟨hf, rfl⟩ | ⟨_, _, _, _, _, _, _, _, _, _, rfl⟩
    · simp only [Call.run, getVAR, hf]
    · simp [Call.run, getVAR, mapFind_mapSet]
  | ott data multiplier =>
    rcases getOTT_cases _ _ _ _ _ h with ⟨hf, rfl⟩ | ⟨_, _, rfl⟩
    · simp only [Call.run, getOTT, hf]
    · simp [Call.run, getOTT, mapFind_mapSet]
  | absChange data period =>
    rcases getAbsChange_cases _ _ _ _ _ h with ⟨hf, rfl⟩ | ⟨_, _, rfl⟩
    · simp only [Call.run, getAbsChange, hf]
    · simp [Call.run, getAbsChange, mapFind_mapSet]
  | sumAbsChanges data period =>
    rcases getSumAbsChanges_cases _ _ _ _ _ h with ⟨hf, rfl⟩ | ⟨_, _, rfl⟩
    · simp only [Call.run, getSumAbsChanges, hf]
    · simp [Call.run, getSumAbsChanges, mapFind_mapSet]
  | highest data period =>
    rcases getHighest_cases _ _ _ _ _ h with ⟨hf, rfl⟩ | ⟨_, _, rfl⟩
    · simp only [Call.run, getHighest, hf]
    · simp [Call.run, getHighest, mapFind_mapSet]
  | lowest data period =>
    rcases getLowest_cases _ _ _ _ _ h with ⟨hf, rfl⟩ | ⟨_, _, rfl⟩
    · simp only [Call.run, getLowest, hf]
    · simp [Call.run, getLowest, mapFind_mapSet]
  | atr highs lows closes period =>
    rcases getATR_cases _ _ _ _ _ _ _ h with ⟨hf, rfl⟩ | ⟨_, _, rfl⟩
    · simp only [Call.run, getATR, hf]
    · simp [Call.run, getATR, mapFind_mapSet]
  | bbUpper data length multiplier =>
    rcases getBBUpper_cases _ _ _ _ _ _ _ h with ⟨hf, rfl⟩ | ⟨_, _, _, _, _, rfl⟩
    · simp only [Call.run, getBBUpper, hf]
    · simp [Call.run, getBBUpper, mapFind_mapSet]
  | bbLower data length multiplier =>
    rcases getBBLower_cases _ _ _ _ _ _ _ h with ⟨hf, rfl⟩ | ⟨_, _, _, _, _, rfl⟩
    · simp only [Call.run, getBBLower, hf]
    · simp [Call.run, getBBLower, mapFind_mapSet]

theorem cache_idempotent_witness :
    Call.run (fun x => x) (Call.var [1, 2, 3] 2) emptyCache
      = some ([1, 1, 1], { emptyCache with var_cache := [(2, [1, 1, 1])],
                                           abs_change_cache := [(9, [0, 0, 0])],
                                           sum_abs_changes_cache := [(9, [0, 1, 2])] }) ∧
    Call.run (fun x => x) (Call.var [1, 2, 3] 2)
        { emptyCache with var_cache := [(2, [1, 1, 1])],
                          abs_change_cache := [(9, [0, 0, 0])],
                          sum_abs_changes_cache := [(9, [0, 1, 2])] }
      = some ([1, 1, 1], { emptyCache with var_cache := [(2, [1, 1, 1])],
                                           abs_change_cache := [(9, [0, 0, 0])],
                                           sum_abs_changes_cache := [(9, [0, 1, 2])] }) :=
  ⟨by decide!, cache_idempotent (fun x => x) (Call.var [1, 2, 3] 2) emptyCache _ _ (by decide!)⟩

/-- C25: `clear()` leaves all eight maps empty, whatever the cache held before, so
every operation called next, with every argument tuple, returns what it returns on
an empty cache. -/
theorem clear_resets (sqrt : ℚ → ℚ) (s : IndicatorCache) (c : Call) :
    (clear s).var_cache = [] ∧ (clear s).ott_cache = [] ∧ (clear s).indicator_cache = [] ∧
    (clear s).abs_change_cache = [] ∧ (clear s).sum_abs_changes_cache = [] ∧
    (clear s).highest_cache = [] ∧ (clear s).lowest_cache = [] ∧ (clear s).atr_cache = [] ∧
    c.run sqrt (clear s) = c.run sqrt emptyCache :=
  ⟨rfl, rfl, rfl, rfl, rfl, rfl, rfl, rfl, rfl⟩

/-! ## The band update of OTT, one iteration in any state -/

/-- C22: one iteration of the loop of `getOTT`, in any state of the five vectors
(each of the size of `data`): at `i = 0` it stores `c[0] = data[0] - a*data[0]` and
`d[0] = data[0] + a*data[0]`; at `i ≥ 1`, for every value of `c[i-1]` and `d[i-1]`,
the values it stores in `c[i]` and `d[i]` by its two-test form are those of the
max/min form of the specification. -/
theorem ott_band_update (data : Vec) (a : ℚ) (s : OttState) (i : Nat)
    (hi : i < data.length) (hr : s.result.length = data.length)
    (hc : s.c.length = data.length) (hd : s.d.length = data.length)
    (he : s.e.length = data.length) (hh : s.h.length = data.length) :
    ∃ s', ottBody data a (i : Int) s = some s' ∧
      s'.c[i]? = some (if i = 0 then data.getD 0 0 - a * data.getD 0 0
        else if data.getD i 0 ≥ s.c.getD (i - 1) 0
          then max (data.getD i 0 - a * data.getD i 0) (s.c.getD (i - 1) 0)
          else data.getD i 0 - a * data.getD i 0) ∧
      s'.d[i]? = some (if i = 0 then data.getD 0 0 + a * data.getD 0 0
        else if data.getD i 0 ≤ s.d.getD (i - 1) 0
          then min (data.getD i 0 + a * data.getD i 0) (s.d.getD (i - 1) 0)
          else data.getD i 0 + a * data.getD i 0) := by
  obtain ⟨result, c, d, e, h⟩ := s
  simp only at hr hc hd he hh
  unfold ottBody
  rw [rd_data data i i rfl hi]
  simp only [Option.some_bind, Option.bind_eq_bind]
  cases i with
  | zero =>
    rw [if_pos (by rfl)]
    rw [wr_eq c _ 0 _ rfl (by omega), wr_eq d _ 0 _ rfl (by omega),
      wr_eq e _ 0 _ rfl (by omega)]
    simp only [Option.some_bind]
    rw [rd_data _ _ 0 rfl (by rw [List.length_set]; omega)]
    simp only [Option.some_bind]
    rw [wr_eq h _ 0 _ rfl (by omega)]
    simp only [Option.some_bind]
    rw [if_neg (by omega)]
    rw [wr_eq result _ 0 _ rfl (by omega)]
    refine ⟨_, rfl, ?_, ?_⟩
    · simp only [List.getElem?_set_self (show 0 < c.length by omega), if_true]
      congr 1
      ring
    · simp only [List.getElem?_set_self (show 0 < d.length by omega), if_true]
      congr 1
      ring
  | succ k =>
    have hk : ((k + 1 : Nat) : Int) - 1 = (k : Int) := by push_cast; ring
    rw [if_neg (by omega), hk]
    rw [rd_data c _ k rfl (by omega), rd_data d _ k rfl (by omega),
      rd_data e _ k rfl (by omega)]
    simp only [Option.some_bind]
    rw [wr_eq c _ (k + 1) _ rfl (by omega), wr_eq d _ (k + 1) _ rfl (by omega)]
    simp only [Option.some_bind]
    rw [rd_data _ _ (k + 1) rfl (by rw [List.length_set]; omega),
      rd_data _ _ (k + 1) rfl (by rw [List.length_set]; omega)]
    simp only [Option.some_bind]
    rw [wr_eq e _ (k + 1) _ rfl (by omega)]
    simp only [Option.some_bind]
    rw [rd_data _ _ (k + 1) rfl (by rw [List.length_set]; omega)]
    simp only [Option.some_bind]
    rw [wr_eq h _ (k + 1) _ rfl (by omega)]
    simp only [Option.some_bind]
    have hfin : ∀ (v : ℚ), (c.set (k + 1) v)[k + 1]? = some v :=
      fun v => List.getElem?_set_self (by omega)
    have hfin2 : ∀ (v : ℚ), (d.set (k + 1) v)[k + 1]? = some v :=
      fun v => List.getElem?_set_self (by omega)
    by_cases h2 : ((k + 1 : Nat) : Int) ≥ 2
    · rw [if_pos h2]
      rw [rd_data _ _ (k - 1) (by omega) (by rw [List.length_set]; omega)]
      simp only [Option.some_bind]
      rw [wr_eq result _ (k + 1) _ rfl (by omega)]
      refine ⟨_, rfl, ?_, ?_⟩
      · simp only [hfin, Nat.succ_ne_zero, if_false, Nat.add_sub_cancel]
        rw [ott_c_update]
      · simp only [hfin2, Nat.succ_ne_zero, if_false, Nat.add_sub_cancel]
        rw [ott_d_update]
    · rw [if_neg h2]
      rw [wr_eq result _ (k + 1) _ rfl (by omega)]
      refine ⟨_, rfl, ?_, ?_⟩
      · simp only [hfin, Nat.succ_ne_zero, if_false, Nat.add_sub_cancel]
        rw [ott_c_update]
      · simp only [hfin2, Nat.succ_ne_zero, if_false, Nat.add_sub_cancel]
        rw [ott_d_update]

theorem ott_band_update_witness :
    ∃ s', ottBody [10, 11, 12] (1 / 100) ((1 : Nat) : Int)
        { result := [0, 0, 0], c := [99 / 10, 0, 0], d := [101 / 10, 0, 0], e := [0, 0, 0],
          h := [0, 0, 0] } = some s' ∧
      s'.c[1]? = some (1089 / 100) ∧ s'.d[1]? = some (1111 / 100) := by
  obtain ⟨s', h1, h2, h3⟩ := ott_band_update [10, 11, 12] (1 / 100)
    { result := [0, 0, 0], c := [99 / 10, 0, 0], d := [101 / 10, 0, 0], e := [0, 0, 0],
      h := [0, 0, 0] } 1 (by decide) rfl rfl rfl rfl rfl
  refine ⟨s', h1, ?_, ?_⟩
  · rw [h2]
    decide!
  · rw [h3]
    decide!

/-! ## The rolling sum against the direct sum -/

theorem chgValue_eq (data : Vec) (j : Nat) :
    chgValue data j = if 1 ≤ j then |data.getD j 0 - data.getD (j - 1) 0| else 0 := by
  unfold chgValue
  by_cases h : j < 1
  · rw [if_pos h, if_neg (by omega)]
  · rw [if_neg h, if_pos (by omega)]

theorem volValue_eq_direct (data : Vec) (period i : Nat) :
    volValue data period i
      = ∑ j in Finset.Icc (max 1 (i + 1 - period)) i,
          |data.getD j 0 - data.getD (j - 1) 0| := by
  unfold volValue
  simp only [chgValue_eq]
  rw [← Finset.sum_filter]
  congr 1
  ext j
  simp only [Finset.mem_filter, Finset.mem_Ico, Finset.mem_Icc]
  omega

/-- C23: on an empty cache, for every `data` and every period (in particular every
period `≥ 1`), `getSumAbsChanges(data, period)` returns a series of the length of
`data` whose value at every index `i` is the sum over `j` from `max(1, i-period+1)`
to `i` of `|data[j] - data[j-1]|`: the running add/subtract loop computes the sum of
the window. -/
theorem sliding_sum_eq_direct (data : Vec) (period : Nat) :
    ∃ r s', getSumAbsChanges data (period : Int) emptyCache = some (r, s') ∧
      r.length = data.length ∧
      ∀ i, i < data.length →
        r[i]? = some (∑ j in Finset.Icc (max 1 (i + 1 - period)) i,
          |data.getD j 0 - data.getD (j - 1) 0|) := by
  refine ⟨_, _, getSumAbsChanges_miss data period emptyCache rfl, tab_length _ _ _, ?_⟩
  intro i hi
  rw [tab_getElem? _ _ _ _ hi, if_pos hi, volValue_eq_direct]

/-! ## The efficiency ratio -/

theorem abs_sub_le_sum (f : Nat → ℚ) (a m : Nat) :
    |f (a + m) - f a| ≤ ∑ j in Finset.Ico (a + 1) (a + m + 1), |f j - f (j - 1)| := by
  induction m with
  | zero => simp
  | succ m ih =>
    rw [Finset.sum_Ico_succ_top (by omega)]
    have h := abs_sub_le (f (a + (m + 1))) (f (a + m)) (f a)
    have e : a + (m + 1) - 1 = a + m := by omega
    rw [e]
    have ih2 : |f (a + m) - f a|
        ≤ ∑ j in Finset.Ico (a + 1) (a + (m + 1)), |f j - f (j - 1)| := ih
    linarith

theorem volValue_nonneg (data : Vec) (period i : Nat) : 0 ≤ volValue data period i := by
  rw [volValue_eq_direct]
  exact Finset.sum_nonneg (fun j _ => abs_nonneg _)

theorem momValue_le_volValue (data : Vec) (i : Nat) : momValue data 9 i ≤ volValue data 9 i := by
  unfold momValue
  by_cases h : i < 9
  · rw [if_pos h]
    exact volValue_nonneg data 9 i
  · rw [if_neg h, volValue_eq_direct]
    have h1 := abs_sub_le_sum (fun j => data.getD j 0) (i - 9) 9
    have e1 : i - 9 + 9 = i := by omega
    have e2 : max 1 (i + 1 - 9) = i - 9 + 1 := by omega
    rw [e2]
    simp only [e1] at h1
    have e3 : Finset.Icc (i - 9 + 1) i = Finset.Ico (i - 9 + 1) (i + 1) := by
      ext j
      simp only [Finset.mem_Icc, Finset.mem_Ico]
      omega
    rw [e3]
    exact h1

theorem erValue_bounds (data : Vec) (i : Nat) : 0 ≤ erValue data i ∧ erValue data i ≤ 1 := by
  unfold erValue
  have hv := volValue_nonneg data 9 i
  have hm := momValue_le_volValue data i
  have hm0 : 0 ≤ momValue data 9 i := by
    unfold momValue
    split
    · exact le_refl _
    · exact abs_nonneg _
  by_cases h : volValue data 9 i ≠ 0
  · rw [if_pos h]
    have hpos : 0 < volValue data 9 i := lt_of_le_of_ne hv (Ne.symm h)
    exact ⟨div_nonneg hm0 hv, (div_le_one hpos).mpr hm⟩
  · rw [if_neg h]
    exact ⟨le_refl _, zero_le_one⟩

/-- C30: on an empty cache, for every series `data`, the calls that `getVAR` makes
return momentum `getAbsChange(data, 9)` and volatility `getSumAbsChanges(data, 9)`
with `momentum[i] ≤ volatility[i]` at every index `i`, and the efficiency ratio that
`getVAR` forms from them satisfies `0 ≤ er[i] ≤ 1`. -/
theorem efficiency_ratio_bounds (data : Vec) :
    ∃ momentum s1 volatility s2 er,
      getAbsChange data 9 emptyCache = some (momentum, s1) ∧
      getSumAbsChanges data 9 s1 = some (volatility, s2) ∧
      efficiencyRatioCompute data.length momentum volatility = some er ∧
      ∀ i, i < data.length →
        ∃ m v e, momentum[i]? = some m ∧ volatility[i]? = some v ∧ er[i]? = some e ∧
          m ≤ v ∧ 0 ≤ e ∧ e ≤ 1 := by
  refine ⟨_, _, _, _, _, getAbsChange_miss data 9 emptyCache rfl,
    getSumAbsChanges_miss data 9 _ rfl, efficiencyRatioCompute_eq data, ?_⟩
  intro i hi
  refine ⟨momValue data 9 i, volValue data 9 i, erValue data i, ?_, ?_, ?_, ?_, ?_, ?_⟩
  · rw [tab_getElem? _ _ _ _ hi, if_pos hi]
  · rw [tab_getElem? _ _ _ _ hi, if_pos hi]
  · rw [tab_getElem? _ _ _ _ hi, if_pos hi]
  · exact momValue_le_volValue data i
  · exact (erValue_bounds data i).1
  · exact (erValue_bounds data i).2

theorem rounded_id_eq_exact (data : Vec) (period : Int) (n : Nat) (momentum volatility : Vec) :
    absChangeComputeR id data period = absChangeCompute data period ∧
    sumAbsChangesComputeR id data period = sumAbsChangesCompute data period ∧
    efficiencyRatioComputeR id n momentum volatility
      = efficiencyRatioCompute n momentum volatility :=
  ⟨rfl, rfl, rfl⟩

theorem steps11_doubles : steps11.map fl = steps11 := by decide!

theorem steps11_momentum :
    absChangeComputeR fl steps11 9
      = some [0, 0, 0, 0, 0, 0, 0, 0, 0, 2 ^ 52 - 10, 45 / 4] := by decide!

theorem steps11_changes :
    absChangesR fl steps11
      = some [0, 2 ^ 52, 5 / 4, 5 / 4, 5 / 4, 5 / 4, 5 / 4, 5 / 4, 5 / 4, 5 / 4, 5 / 4] := by
  decide!

theorem steps11_volatility :
    sumAbsChangesComputeR fl steps11 9
      = some [0, 2 ^ 52, 2 ^ 52 + 1, 2 ^ 52 + 2, 2 ^ 52 + 3, 2 ^ 52 + 4, 2 ^ 52 + 5, 2 ^ 52 + 6,
          2 ^ 52 + 7, 2 ^ 52 + 8, 9] := by
  decide!

theorem steps11_er :
    efficiencyRatioComputeR fl 11 [0, 0, 0, 0, 0, 0, 0, 0, 0, 2 ^ 52 - 10, 45 / 4]
        [0, 2 ^ 52, 2 ^ 52 + 1, 2 ^ 52 + 2, 2 ^ 52 + 3, 2 ^ 52 + 4, 2 ^ 52 + 5, 2 ^ 52 + 6,
          2 ^ 52 + 7, 2 ^ 52 + 8, 9]
      = some [0, 0, 0, 0, 0, 0, 0, 0, 0, fl ((2 ^ 52 - 10) / (2 ^ 52 + 8)), 5 / 4] := by
  decide!

/-- C30 as stated fails in the arithmetic of `double`: on the eleven doubles
`2^52, 0, 1.25, 2.5, ..., 11.25` the loops of `getAbsChange(data, 9)` and
`getSumAbsChanges(data, 9)` store the momentum `11.25` and the volatility `9` at the
index `10` (the running sum lost the fractions while `2^52` was in the window), and
the efficiency ratio there is `1.25`. -/
theorem efficiency_ratio_above_one :
    steps11.map fl = steps11 ∧
    ∃ momentum volatility er,
      absChangeComputeR fl steps11 9 = some momentum ∧
      sumAbsChangesComputeR fl steps11 9 = some volatility ∧
      efficiencyRatioComputeR fl steps11.length momentum volatility = some er ∧
      momentum[10]? = some (45 / 4) ∧ volatility[10]? = some 9 ∧ er[10]? = some (5 / 4) ∧
      ¬ ((45 / 4 : ℚ) ≤ 9) ∧ ¬ ((5 / 4 : ℚ) ≤ 1) :=
  ⟨steps11_doubles, _, _, _, steps11_momentum, steps11_volatility, steps11_er, rfl, rfl, rfl,
    by norm_num, by norm_num⟩

/-! ## RSI of a series that never falls -/

theorem lossValue_zero (closes : Vec)
    (hmono : ∀ j, j + 1 < closes.length → closes.getD j 0 ≤ closes.getD (j + 1) 0)
    (j : Nat) (hj : j < closes.length) : lossValue closes j = 0 := by
  unfold lossValue
  by_cases h : j < 1
  · rw [if_pos h]
  · rw [if_neg h]
    have h1 : 0 ≤ changeValue closes j := by
      unfold changeValue
      rw [if_neg h]
      have := hmono (j - 1) (by omega)
      have e : j - 1 + 1 = j := by omega
      rw [e] at this
      linarith
    by_cases h2 : changeValue closes j > 0
    · rw [if_pos h2]
    · rw [if_neg h2]
      have : changeValue closes j = 0 := le_antisymm (not_lt.mp h2) h1
      rw [this, neg_zero]

theorem specAvg_loss_zero (closes : Vec) (len : Nat) (hlen : len < closes.length)
    (hmono : ∀ j, j + 1 < closes.length → closes.getD j 0 ≤ closes.getD (j + 1) 0) :
    ∀ i, i < closes.length → specAvg (lossValue closes) len i = 0 := by
  have hsum : (∑ j in Finset.Icc 1 len, lossValue closes j) = 0 := by
    apply Finset.sum_eq_zero
    intro j hj
    rw [Finset.mem_Icc] at hj
    exact lossValue_zero closes hmono j (by omega)
  intro i
  induction i with
  | zero =>
    intro _
    rw [specAvg_le _ _ _ (Nat.zero_le _), hsum, zero_div]
  | succ i ih =>
    intro hi
    by_cases h : i + 1 ≤ len
    · rw [specAvg_le _ _ _ h, hsum, zero_div]
    · rw [specAvg_gt _ _ _ (by omega), Nat.add_sub_cancel, ih (by omega),
        lossValue_zero closes hmono (i + 1) hi, zero_mul, zero_add, zero_div]

/-- C26: on an empty cache, for every closes series that never falls (in particular
a constant one) and every length with `1 ≤ length < N`, `getRSI(closes, length)`
returns a series of length `N` whose value is `100` at every index `i` with
`length < i < N`. -/
theorem rsi_no_losses (closes : Vec) (len : Nat) (_h1 : 1 ≤ len) (hlen : len < closes.length)
    (hmono : ∀ j, j + 1 < closes.length → closes.getD j 0 ≤ closes.getD (j + 1) 0) :
    ∃ r s', getRSI closes (len : Int) emptyCache = some (r, s') ∧ r.length = closes.length ∧
      ∀ i, len < i → i < closes.length → r[i]? = some 100 := by
  obtain ⟨s', hs⟩ := fst_some _ _ (getRSI_empty closes len hlen)
  refine ⟨_, s', hs, tab_length _ _ _, ?_⟩
  intro i hli hi
  rw [tab_getElem? _ _ _ _ hi, if_pos hi]
  unfold rsiValue
  rw [if_neg (by omega), if_pos (specAvg_loss_zero closes len hlen hmono i hi)]

theorem rsi_no_losses_witness :
    ∃ r s', getRSI [5, 5, 6, 8] ((1 : Nat) : Int) emptyCache = some (r, s') ∧
      r.length = ([5, 5, 6, 8] : Vec).length ∧
      ∀ i, 1 < i → i < ([5, 5, 6, 8] : Vec).length → r[i]? = some 100 :=
  rsi_no_losses [5, 5, 6, 8] 1 (by decide) (by decide) (by
    intro j hj
    have hj3 : j < 3 := by simp at hj; omega
    interval_cases j <;> decide!)

/-! ## Parameter strings of records that differ in an unused field -/

/-- C27: for every family and every record `p` with `use_sl = false`, the record
that differs from `p` in `sl_percent` only has the same parameter string; likewise
for `tp_percent` when `use_tp = false`. -/
theorem disabled_sl_tp_collapse (os : ℚ → String) (p : Params) (x : ℚ) :
    (p.common.use_sl = false →
      (p.withSlPercent x).getParamString os = p.getParamString os) ∧
    (p.common.use_tp = false →
      (p.withTpPercent x).getParamString os = p.getParamString os) := by
  constructor
  · intro h
    cases p <;>
      simp only [Params.common] at h <;>
      simp [Params.withSlPercent, Params.getParamString, OttParams.getParamString,
        TottParams.getParamString, OttChannelParams.getParamString,
        RisottoParams.getParamString, SottParams.getParamString, HottLottParams.getParamString,
        RottParams.getParamString, FtParams.getParamString, RtrParams.getParamString,
        MottParams.getParamString, BootsParams.getParamString, h]
  · intro h
    cases p <;>
      simp only [Params.common] at h <;>
      simp [Params.withTpPercent, Params.getParamString, OttParams.getParamString,
        TottParams.getParamString, OttChannelParams.getParamString,
        RisottoParams.getParamString, SottParams.getParamString, HottLottParams.getParamString,
        RottParams.getParamString, FtParams.getParamString, RtrParams.getParamString,
        MottParams.getParamString, BootsParams.getParamString, h]

theorem disabled_sl_tp_collapse_witness :
    (Params.hottLott sampleHottLott).common.use_sl = false ∧
    (Params.hottLott sampleHottLott).common.use_tp = false ∧
    ((Params.hottLott sampleHottLott).withSlPercent 7).getParamString to_string_double
      = (Params.hottLott sampleHottLott).getParamString to_string_double ∧
    ((Params.hottLott sampleHottLott).withTpPercent 7).getParamString to_string_double
      = (Params.hottLott sampleHottLott).getParamString to_string_double :=
  ⟨rfl, rfl,
    (disabled_sl_tp_collapse to_string_double (Params.hottLott sampleHottLott) 7).1 rfl,
    (disabled_sl_tp_collapse to_string_double (Params.hottLott sampleHottLott) 7).2 rfl⟩

theorem hashCombine_injective (h v w : Nat) (hvw : v % 2 ^ 64 ≠ w % 2 ^ 64) :
    hashCombine h v ≠ hashCombine h w := by
  unfold hashCombine
  intro heq
  have h1 := Nat.xor_right_injective heq
  apply hvw
  have h2 : (v + (0x9e3779b9 + (h <<< 6) + (h >>> 2))) % 2 ^ 64
      = (w + (0x9e3779b9 + (h <<< 6) + (h >>> 2))) % 2 ^ 64 := by
    simp only [← Nat.add_assoc]
    exact h1
  exact Nat.ModEq.add_right_cancel' _ h2

/-- C29: for every HOTT-LOTT record `p`, when `use_sum` is true the parameter string
holds the item `-SumNBars=<sum_n_bars>` right after `-UseSumNBars=on`; when `use_sum`
is false it reads `-UseSumNBars=off`, goes on with `-SL=` at once, and is the same
for every value of `sum_n_bars`. A record that differs from `p` in `sum_n_bars`
only is still different from `p` for `operator==`, and for `hash()` whenever
`std::hash<int>` gives the two values different hashes. -/
theorem hottLott_sum_n_bars (os : ℚ → String) (H : StdHash) (p : HottLottParams) (n : Int) :
    (p.use_sum = true → p.getParamString os
      = "Strategy=" ++ p.strategy_name ++ "-HLLength=" ++ toString p.hl_length
        ++ "-OTTMultiplier=" ++ os p.ott_multiplier
        ++ "-UseSumNBars=on" ++ ("-SumNBars=" ++ toString p.sum_n_bars)
        ++ "-SL=" ++ slText p.toStrategyParams ++ "-TP=" ++ tpText p.toStrategyParams
        ++ "-Pyramiding=" ++ pyramidingText p.toStrategyParams) ∧
    (p.use_sum = false →
      p.getParamString os
        = "Strategy=" ++ p.strategy_name ++ "-HLLength=" ++ toString p.hl_length
          ++ "-OTTMultiplier=" ++ os p.ott_multiplier
          ++ "-UseSumNBars=off"
          ++ "-SL=" ++ slText p.toStrategyParams ++ "-TP=" ++ tpText p.toStrategyParams
          ++ "-Pyramiding=" ++ pyramidingText p.toStrategyParams ∧
      HottLottParams.getParamString os { p with sum_n_bars := n } = p.getParamString os) ∧
    (n ≠ p.sum_n_bars → HottLottParams.eq { p with sum_n_bars := n } p = false) ∧
    (H.hash_int n % 2 ^ 64 ≠ H.hash_int p.sum_n_bars % 2 ^ 64 →
      HottLottParams.hash H { p with sum_n_bars := n } ≠ p.hash H) := by
  refine ⟨?_, ?_, ?_, ?_⟩
  · intro h
    simp [HottLottParams.getParamString, h, slText, tpText, pyramidingText, String.append_assoc]
  · intro h
    constructor
    · simp [HottLottParams.getParamString, h, slText, tpText, pyramidingText,
        String.append_assoc]
    · simp [HottLottParams.getParamString, h]
  · intro h
    simp [HottLottParams.eq, h]
  · intro h
    simp only [HottLottParams.hash]
    exact hashCombine_injective _ _ _ h

theorem hottLott_sum_n_bars_witness :
    sampleHottLottSum.use_sum = true ∧
    sampleHottLottSum.getParamString (fun _ => "0.5")
      = "Strategy=" ++ sampleHottLottSum.strategy_name
        ++ "-HLLength=" ++ toString sampleHottLottSum.hl_length
        ++ "-OTTMultiplier=" ++ (fun _ => "0.5") sampleHottLottSum.ott_multiplier
        ++ "-UseSumNBars=on" ++ ("-SumNBars=" ++ toString sampleHottLottSum.sum_n_bars)
        ++ "-SL=" ++ slText sampleHottLottSum.toStrategyParams
        ++ "-TP=" ++ tpText sampleHottLottSum.toStrategyParams
        ++ "-Pyramiding=" ++ pyramidingText sampleHottLottSum.toStrategyParams ∧
    sampleHottLott.use_sum = false ∧ (4 : Int) ≠ sampleHottLott.sum_n_bars ∧
    sampleHash.hash_int 4 % 2 ^ 64 ≠ sampleHash.hash_int sampleHottLott.sum_n_bars % 2 ^ 64 ∧
    HottLottParams.getParamString (fun _ => "0.5") { sampleHottLott with sum_n_bars := 4 }
      = sampleHottLott.getParamString (fun _ => "0.5") ∧
    HottLottParams.eq { sampleHottLott with sum_n_bars := 4 } sampleHottLott = false ∧
    HottLottParams.hash sampleHash { sampleHottLott with sum_n_bars := 4 }
      ≠ sampleHottLott.hash sampleHash :=
  ⟨rfl, (hottLott_sum_n_bars (fun _ => "0.5") sampleHash sampleHottLottSum 4).1 rfl,
    rfl, by decide, by decide,
    ((hottLott_sum_n_bars (fun _ => "0.5") sampleHash sampleHottLott 4).2.1 rfl).2,
    (hottLott_sum_n_bars (fun _ => "0.5") sampleHash sampleHottLott 4).2.2.1 (by decide),
    (hottLott_sum_n_bars (fun _ => "0.5") sampleHash sampleHottLott 4).2.2.2 (by decide)⟩

/-! ## The option `--strategies=` -/

theorem getlineTokens_name (s : List Char) (hs : ',' ∉ s) :
    ∀ (cur rest : List Char),
      getlineTokens cur (s ++ rest) = getlineTokens (s.reverse ++ cur) rest := by
  induction s with
  | nil => intro cur rest; rfl
  | cons c s ih =>
    intro cur rest
    have hc : c ≠ ',' := fun h => hs (by rw [h]; exact List.mem_cons_self _ _)
    have hs2 : ',' ∉ s := fun h => hs (List.mem_cons_of_mem _ h)
    rw [List.cons_append, getlineTokens, if_neg hc, ih hs2, List.reverse_cons,
      List.append_assoc, List.singleton_append]

theorem getlineTokens_commaList (names : List String)
    (hnames : ∀ s ∈ names, s ≠ "" ∧ ',' ∉ s.data) :
    getlineTokens [] (commaList names).data = names := by
  induction names with
  | nil => rfl
  | cons s rest ih =>
    have hs := hnames s (List.mem_cons_self _ _)
    have hdata : s.data ≠ [] := fun h => hs.1 (String.ext h)
    cases rest with
    | nil =>
      have h := getlineTokens_name s.data hs.2 [] []
      simp only [List.append_nil] at h
      simp only [commaList, h, getlineTokens, List.reverse_eq_nil_iff, if_neg hdata,
        List.reverse_reverse]
    | cons t rest =>
      have h := getlineTokens_name s.data hs.2 [] (',' :: (commaList (t :: rest)).data)
      have ih2 := ih (fun x hx => hnames x (List.mem_cons_of_mem _ hx))
      have hd : (s ++ "," ++ commaList (t :: rest)).data
          = s.data ++ ',' :: (commaList (t :: rest)).data := by
        simp [String.data_append]
      simp only [commaList, hd, h, List.append_nil, getlineTokens, if_true, List.reverse_reverse,
        ih2]

/-- C28: for every list of names `s1, ..., sn` with `n ≥ 1`, each non-empty and
without a comma, the argument `--strategies=s1,...,sn` replaces the strategy list by
`[s1, ..., sn]`, in the given order and whatever the names are; after the program
name and the csv file it replaces the default list. -/
theorem strategies_parsing (env : Env) (names : List String) (o : Options) (prog csv : String)
    (_hne : names ≠ []) (hnames : ∀ s ∈ names, s ≠ "" ∧ ',' ∉ s.data) :
    parseArg env ("--strategies=" ++ commaList names) o = some { o with strategies := names } ∧
    parseOptions env [prog, csv, "--strategies=" ++ commaList names]
      = some { defaultOptions env with strategies := names } := by
  have h1 := startsWith_append "--strategies=" (commaList names)
  have h2 : substr ("--strategies=" ++ commaList names) 13 = commaList names :=
    substr_append "--strategies=" (commaList names)
  have h3 : ∀ o, parseArg env ("--strategies=" ++ commaList names) o
      = some { o with strategies := names } := by
    intro o
    simp only [parseArg, h1, h2, if_true, getlineTokens_commaList names hnames]
  refine ⟨h3 o, ?_⟩
  simp only [parseOptions, List.drop, parseArgs, h3, Option.some_bind]

theorem strategies_parsing_witness :
    (["OTT", "risotto", "x y"] : List String) ≠ [] ∧
    (∀ s ∈ (["OTT", "risotto", "x y"] : List String), s ≠ "" ∧ ',' ∉ s.data) ∧
    parseArg sampleEnv ("--strategies=" ++ commaList ["OTT", "risotto", "x y"])
        (defaultOptions sampleEnv)
      = some { defaultOptions sampleEnv with strategies := ["OTT", "risotto", "x y"] } ∧
    parseOptions sampleEnv ["prog", "data.csv",
        "--strategies=" ++ commaList ["OTT", "risotto", "x y"]]
      = some { defaultOptions sampleEnv with strategies := ["OTT", "risotto", "x y"] } :=
  ⟨by decide, by decide,
    strategies_parsing sampleEnv ["OTT", "risotto", "x y"] (defaultOptions sampleEnv)
      "prog" "data.csv" (by decide) (by decide)⟩

/-! ## The trade simulator: stop-loss before take-profit -/

theorem signalStep_ledger (r : TradeRules) (i d : Int) (o : ℚ) (st : SimState) (t : Trade)
    (ht : t ∈ st.ledger) : t ∈ (signalStep r i d o st).ledger := by
  unfold signalStep
  split
  · exact ht
  · split
    · exact List.mem_append_left _ ht
    · exact ht

theorem exitCheck_ledger (r : TradeRules) (i : Int) (high low : ℚ) (st : SimState) (t : Trade)
    (ht : t ∈ st.ledger) : t ∈ (exitCheck r i high low st).ledger :=
  List.mem_append_left _ ht

theorem processBar_ledger (r : TradeRules) (i d : Int) (o high low : ℚ) (st : SimState)
    (t : Trade) (ht : t ∈ st.ledger) : t ∈ (processBar r i d o high low st).ledger :=
  signalStep_ledger r i d o _ t (exitCheck_ledger r i high low st t ht)

theorem processBar_exit (r : TradeRules) (i d : Int) (o high low : ℚ) (st : SimState)
    (p : Position) (hp : p ∈ st.open_positions) (e : ℚ × String)
    (he : intrabarExit r high low p = some e) :
    closeTrade p i e.1 e.2 ∈ (processBar r i d o high low st).ledger ∧
    p ∉ (exitCheck r i high low st).open_positions := by
  constructor
  · apply signalStep_ledger
    apply List.mem_append_right
    rw [List.mem_filterMap]
    exact ⟨p, hp, by rw [he]; rfl⟩
  · intro hmem
    simp only [exitCheck, List.mem_filter] at hmem
    rw [he] at hmem
    exact absurd hmem.2 (by simp)

theorem runBars_total (r : TradeRules) (opens highs lows : Vec) (dir : List Int)
    (ho : opens.length = dir.length) (hh : highs.length = dir.length)
    (hl : lows.length = dir.length) :
    ∀ k, k < dir.length → ∃ st, runBars r opens highs lows dir k = some st := by
  intro k
  induction k with
  | zero => intro _; exact ⟨_, rfl⟩
  | succ k ih =>
    intro hk
    obtain ⟨st, hst⟩ := ih (by omega)
    have h1 : dir[k + 1 - 1]? = some (dir[k]) := by
      rw [Nat.add_sub_cancel]
      exact List.getElem?_eq_getElem (by omega)
    have h2 : opens[k + 1]? = some (opens[k + 1]) := List.getElem?_eq_getElem (by omega)
    have h3 : highs[k + 1]? = some (highs[k + 1]) := List.getElem?_eq_getElem (by omega)
    have h4 : lows[k + 1]? = some (lows[k + 1]) := List.getElem?_eq_getElem (by omega)
    simp only [runBars, hst, barAt, h1, h2, h3, h4, Option.some_bind, Option.bind_eq_bind]
    exact ⟨_, rfl⟩

theorem runBars_ledger_mono (r : TradeRules) (opens highs lows : Vec) (dir : List Int)
    (k : Nat) (st : SimState) (hst : runBars r opens highs lows dir k = some st) (t : Trade)
    (ht : t ∈ st.ledger) :
    ∀ m st', runBars r opens highs lows dir (k + m) = some st' → t ∈ st'.ledger := by
  intro m
  induction m with
  | zero =>
    intro st' h
    rw [Nat.add_zero, hst] at h
    cases h
    exact ht
  | succ m ih =>
    intro st' h
    rw [← Nat.add_assoc] at h
    simp only [runBars, Option.bind_eq_bind] at h
    cases h1 : runBars r opens highs lows dir (k + m) with
    | none => rw [h1] at h; cases h
    | some st1 =>
      rw [h1] at h
      cases h2 : barAt opens highs lows dir (k + m + 1) with
      | none => rw [h2] at h; cases h
      | some b =>
        rw [h2] at h
        simp only [Option.some_bind, Option.some.injEq] at h
        rw [← h]
        exact processBar_ledger _ _ _ _ _ _ _ _ (ih st1 h1)

/-- C21: in the simulator of section 4.3 with `use_sl` and `use_tp` both set, for
every position `p` open before bar `i` and every bar `i` whose range reaches both the
stop-loss price and the take-profit price of `p` (so that the take-profit test alone
would close it at the take-profit price), the exit check gives the stop-loss price
and the reason `sl`; the state after bar `i` and the ledger that `processTrades`
returns hold the trade of `p` closed at bar `i` at the stop-loss price with reason
`sl`, and `p` is no longer open after the exit check. -/
theorem sl_priority (r : TradeRules) (hsl : r.use_sl = true) (htp : r.use_tp = true)
    (opens highs lows closes : Vec) (dir : List Int)
    (ho : opens.length = dir.length) (hh : highs.length = dir.length)
    (hl : lows.length = dir.length) (hc : closes.length = dir.length)
    (i : Nat) (hi1 : 1 ≤ i) (hiN : i < dir.length)
    (st : SimState) (hst : runBars r opens highs lows dir (i - 1) = some st)
    (p : Position) (hp : p ∈ st.open_positions)
    (high low : ℚ) (hhigh : highs[i]? = some high) (hlow : lows[i]? = some low)
    (hsr : slReached r high low p = true) (htr : tpReached r high low p = true) :
    intrabarExit { r with use_sl := false } high low p = some (tpPrice r p, "tp") ∧
    intrabarExit r high low p = some (slPrice r p, "sl") ∧
    p ∉ (exitCheck r i high low st).open_positions ∧
    (∃ st', runBars r opens highs lows dir i = some st' ∧
      closeTrade p i (slPrice r p) "sl" ∈ st'.ledger) ∧
    ∃ ledger, processTrades opens highs lows closes dir r.use_sl r.use_tp r.sl_percent
        r.tp_percent r.pyramiding = some ledger ∧
      closeTrade p i (slPrice r p) "sl" ∈ ledger := by
  have he : intrabarExit r high low p = some (slPrice r p, "sl") := by
    simp only [intrabarExit, hsl, hsr, and_self, if_true]
  have he2 : intrabarExit { r with use_sl := false } high low p = some (tpPrice r p, "tp") := by
    obtain ⟨us, ut, sl, tp, py⟩ := r
    simp only at htp
    subst htp
    have h1 : tpReached ⟨false, true, sl, tp, py⟩ high low p = true := htr
    simp only [intrabarExit, h1, Bool.false_eq_true, false_and, if_false, and_self, if_true]
    rfl
  have hd : dir[i - 1]? = some (dir[i - 1]) := List.getElem?_eq_getElem (by omega)
  have hop : opens[i]? = some (opens[i]) := List.getElem?_eq_getElem (by omega)
  have hbar : barAt opens highs lows dir i = some (dir[i - 1], opens[i], high, low) := by
    simp only [barAt, hd, hop, hhigh, hlow, Option.some_bind, Option.bind_eq_bind]
  have hrun : runBars r opens highs lows dir i
      = some (processBar r (i : Int) (dir[i - 1]) (opens[i]) high low st) := by
    obtain ⟨k, rfl⟩ : ∃ k, i = k + 1 := ⟨i - 1, by omega⟩
    rw [Nat.add_sub_cancel] at hst
    simp only [runBars, hst, hbar, Option.some_bind, Option.bind_eq_bind]
  have hex := processBar_exit r (i : Int) (dir[i - 1]) (opens[i]) high low st p hp _ he
  refine ⟨he2, he, hex.2, ⟨_, hrun, hex.1⟩, ?_⟩
  obtain ⟨stN, hN⟩ := runBars_total r opens highs lows dir ho hh hl (dir.length - 1) (by omega)
  have hmem : closeTrade p i (slPrice r p) "sl" ∈ stN.ledger := by
    refine runBars_ledger_mono r opens highs lows dir i _ hrun _ hex.1 (dir.length - 1 - i) stN ?_
    have e : i + (dir.length - 1 - i) = dir.length - 1 := by omega
    rw [e]
    exact hN
  have hcl : closes[dir.length - 1]? = some (closes[dir.length - 1]) :=
    List.getElem?_eq_getElem (by omega)
  refine ⟨flush ((dir.length - 1 : Nat) : Int) (closes[dir.length - 1]) stN, ?_, ?_⟩
  · have hr : (⟨r.use_sl, r.use_tp, r.sl_percent, r.tp_percent, r.pyramiding⟩ : TradeRules)
        = r := rfl
    simp only [processTrades, hr, if_neg (show ¬ dir.length = 0 by omega), hN, hcl,
      Option.some_bind, Option.bind_eq_bind]
  · exact List.mem_append_left _ hmem

theorem sl_priority_witness :
    slReached rulesS3 101 98 positionS3 = true ∧ tpReached rulesS3 101 98 positionS3 = true ∧
    intrabarExit rulesS3 101 98 positionS3 = some (99, "sl") ∧
    ∃ ledger, processTrades [100, 100, 100, 100] [100, 100, 101, 100] [100, 100, 98, 100]
        [100, 100, 100, 100] [1, 0, 0, 0] true true 1 1 false = some ledger ∧
      ({ entry_index := 1, exit_index := 2, entry_price := 100, exit_price := 99,
         profit := -1, is_long := true, exit_reason := "sl" } : Trade) ∈ ledger := by
  have h := sl_priority rulesS3 rfl rfl [100, 100, 100, 100] [100, 100, 101, 100]
    [100, 100, 98, 100] [100, 100, 100, 100] [1, 0, 0, 0] rfl rfl rfl rfl 2 (by decide)
    (by decide) { open_positions := [positionS3], last_signal := 1, ledger := [] }
    (by decide!) positionS3 (List.mem_cons_self _ _) 101 98 rfl rfl (by decide!) (by decide!)
  have e1 : slPrice rulesS3 positionS3 = 99 := by decide!
  have e2 : closeTrade positionS3 ((2 : Nat) : Int) 99 "sl"
      = { entry_index := 1, exit_index := 2, entry_price := 100, exit_price := 99,
          profit := -1, is_long := true, exit_reason := "sl" } := by decide!
  rw [e1, e2] at h
  exact ⟨by decide!, by decide!, h.2.1, h.2.2.2.2⟩

/-! ## The first bars of OTT -/

/-- C33: on an empty cache, for every `data` with at least 3 elements and every
multiplier, `getOTT(data, multiplier)` is `0` at the indices 0, 1 and 2; the first
iteration of the loop stores `e[0] = 0` and, from it, `h[0] = 0`, which is the
value of the index 2. -/
theorem ott_first_three_zero (data : Vec) (multiplier : ℚ) (h3 : 3 ≤ data.length) :
    (∃ s1, ottBody data (multiplier / 100) 0
        { result := zeros data.length, c := zeros data.length, d := zeros data.length,
          e := zeros data.length, h := zeros data.length } = some s1 ∧
      s1.e[0]? = some 0 ∧ s1.h[0]? = some 0) ∧
    ∃ r s', getOTT data multiplier emptyCache = some (r, s') ∧
      r[0]? = some 0 ∧ r[1]? = some 0 ∧ r[2]? = some 0 := by
  constructor
  · have h0 : ottStateAt data (multiplier / 100) 0 =
        { result := zeros data.length, c := zeros data.length, d := zeros data.length,
          e := zeros data.length, h := zeros data.length } := by
      simp only [ottStateAt]
      rw [← zeros_eq_tab 0 _ _ (by intro j hj; omega),
        ← zeros_eq_tab 0 _ _ (by intro j hj; omega),
        ← zeros_eq_tab 0 _ _ (by intro j hj; omega),
        ← zeros_eq_tab 0 _ _ (by intro j hj; omega),
        ← zeros_eq_tab 0 _ _ (by intro j hj; omega)]
    have hstep := ottBody_step data (multiplier / 100) 0 (by omega)
    rw [h0] at hstep
    refine ⟨_, hstep, ?_, ?_⟩
    · simp only [ottStateAt]
      rw [tab_getElem? _ _ _ _ (by omega)]
      simp [specE]
    · simp only [ottStateAt]
      rw [tab_getElem? _ _ _ _ (by omega)]
      simp [specH, specE]
  · refine ⟨_, _, getOTT_miss data multiplier emptyCache rfl, ?_, ?_, ?_⟩
    · rw [tab_getElem? _ _ _ _ (by omega)]
      simp
    · rw [tab_getElem? _ _ _ _ (by omega)]
      simp
    · rw [tab_getElem? _ _ _ _ (by omega)]
      simp [specH, specE]

theorem ott_first_three_zero_witness :
    3 ≤ ([7, 8, 9, 10] : Vec).length ∧
    ∃ r s', getOTT [7, 8, 9, 10] 2 emptyCache = some (r, s') ∧
      r[0]? = some 0 ∧ r[1]? = some 0 ∧ r[2]? = some 0 :=
  ⟨by decide, (ott_first_three_zero [7, 8, 9, 10] 2 (by decide)).2⟩

/-! ## ATR: short series and sign -/

theorem atrCompute_short (highs lows closes : Vec) (p : Nat) (hp : highs.length ≤ p)
    (hl : lows.length = highs.length) (hc : closes.length = highs.length) :
    atrCompute highs lows closes (p : Int) = some (zeros highs.length) := by
  unfold atrCompute
  rw [trueRange_eq highs lows closes hl hc]
  simp only [Option.some_bind, Option.bind_eq_bind]
  rw [if_neg (by omega)]

/-- C37: on an empty cache, for every highs, lows, closes of equal length `N` and
every period `≥ 1` with `N ≤ period`, `getATR` returns (so that it reads no element
outside the vectors) the series of `N` zeros. -/
theorem atr_short_series (highs lows closes : Vec) (p : Nat) (_h1 : 1 ≤ p)
    (hp : highs.length ≤ p) (hl : lows.length = highs.length)
    (hc : closes.length = highs.length) :
    ∃ s', getATR highs lows closes (p : Int) emptyCache
        = some (List.replicate highs.length 0, s') := by
  refine ⟨{ emptyCache with
    atr_cache := (mapSet emptyCache.atr_cache (p : Int) (zeros highs.length)) }, ?_⟩
  simp only [getATR, emptyCache, mapFind, atrCompute_short highs lows closes p hp hl hc,
    Option.map_some', zeros]

theorem atr_short_series_witness :
    ∃ s', getATR [2, 3, 4] [0, 1, 2] [1, 2, 3] ((3 : Nat) : Int) emptyCache
        = some (List.replicate ([2, 3, 4] : Vec).length 0, s') :=
  atr_short_series [2, 3, 4] [0, 1, 2] [1, 2, 3] 3 (by decide) (by decide) rfl rfl

theorem erValue_warmup (data : Vec) (i : Nat) (hi : i ≤ 8) : erValue data i = 0 := by
  have hm : momValue data 9 i = 0 := by
    unfold momValue
    rw [if_pos (by omega)]
  unfold erValue
  rw [hm]
  split
  · exact zero_div _
  · rfl

theorem vidyaValue_warmup (data : Vec) (length : Int) (h1 : length ≠ 1) :
    ∀ i, i ≤ 8 → vidyaValue data length i = data.getD 0 0 := by
  intro i
  induction i with
  | zero => intro _; rfl
  | succ i ih =>
    intro hi
    simp only [vidyaValue, if_neg h1, erValue_warmup data (i + 1) hi, zero_mul, zero_add]
    exact ih (by omega)

/-- C32 as amended: on an empty cache, for every `data` and every length other than
1 and -1 (so that the division that forms `alpha` has a non-zero divisor), the
series that `getVAR(data, length)` returns has the value `data[0]` at every index
`i ≤ 8`. -/
theorem vidya_warmup (data : Vec) (length : Int) (h1 : length ≠ 1) (hm1 : length ≠ -1) :
    ((length : ℚ) + 1 ≠ 0) ∧
    ∃ r s', getVAR data length emptyCache = some (r, s') ∧ r.length = data.length ∧
      ∀ i, i ≤ 8 → i < data.length → r[i]? = some (data.getD 0 0) := by
  constructor
  · intro h
    apply hm1
    have : ((length + 1 : Int) : ℚ) = 0 := by push_cast; exact h
    have h2 : length + 1 = 0 := by exact_mod_cast this
    omega
  · obtain ⟨s', hs⟩ := fst_some _ _ (getVAR_empty data length)
    refine ⟨_, s', hs, tab_length _ _ _, ?_⟩
    intro i hi8 hi
    rw [tab_getElem? _ _ _ _ hi, if_pos hi, vidyaValue_warmup data length h1 i hi8]

theorem vidya_warmup_witness :
    (((2 : Int) : ℚ) + 1 ≠ 0) ∧
    ∃ r s', getVAR closes12 2 emptyCache = some (r, s') ∧ r.length = closes12.length ∧
      ∀ i, i ≤ 8 → i < closes12.length → r[i]? = some (closes12.getD 0 0) :=
  vidya_warmup closes12 2 (by decide) (by decide)

theorem vidyaValue_range (data : Vec) (length : Int) (h1 : 1 ≤ length) :
    ∀ i, prefixMin data i ≤ vidyaValue data length i ∧
      vidyaValue data length i ≤ prefixMax data i := by
  have hl : (1 : ℚ) ≤ (length : ℚ) := by exact_mod_cast h1
  have ha0 : (0 : ℚ) ≤ 2 / ((length : ℚ) + 1) := div_nonneg (by norm_num) (by linarith)
  have ha1 : 2 / ((length : ℚ) + 1) ≤ 1 := by
    rw [div_le_one (by linarith)]
    linarith
  intro i
  induction i with
  | zero => exact ⟨le_refl _, le_refl _⟩
  | succ i ih =>
    simp only [vidyaValue, prefixMin, prefixMax]
    split
    · exact ⟨min_le_right _ _, le_max_right _ _⟩
    · obtain ⟨he0, he1⟩ := erValue_bounds data (i + 1)
      have hc0 : 0 ≤ erValue data (i + 1) * (2 / ((length : ℚ) + 1)) := mul_nonneg he0 ha0
      have hc1 : erValue data (i + 1) * (2 / ((length : ℚ) + 1)) ≤ 1 := by
        calc erValue data (i + 1) * (2 / ((length : ℚ) + 1))
            ≤ 1 * 1 := mul_le_mul he1 ha1 ha0 (by norm_num)
          _ = 1 := by norm_num
      generalize erValue data (i + 1) * (2 / ((length : ℚ) + 1)) = c at hc0 hc1
      generalize data.getD (i + 1) 0 = x
      generalize vidyaValue data length i = v at ih
      constructor
      · have hm1 : min (prefixMin data i) x ≤ v := le_trans (min_le_left _ _) ih.1
        have hm2 : min (prefixMin data i) x ≤ x := min_le_right _ _
        nlinarith [mul_nonneg hc0 (sub_nonneg.mpr hm2),
          mul_nonneg (sub_nonneg.mpr hc1) (sub_nonneg.mpr hm1)]
      · have hm1 : v ≤ max (prefixMax data i) x := le_trans ih.2 (le_max_left _ _)
        have hm2 : x ≤ max (prefixMax data i) x := le_max_right _ _
        nlinarith [mul_nonneg hc0 (sub_nonneg.mpr hm2),
          mul_nonneg (sub_nonneg.mpr hc1) (sub_nonneg.mpr hm1)]

/-- C31 as amended: in exact arithmetic, on an empty cache, for every `data` and
every length `≥ 1`, every value `v[i]` of the series that `getVAR(data, length)`
returns lies between the least and the greatest of `data[0], ..., data[i]`. -/
theorem vidya_in_range (data : Vec) (length : Int) (h1 : 1 ≤ length) :
    ∃ r s', getVAR data length emptyCache = some (r, s') ∧ r.length = data.length ∧
      ∀ i, i < data.length →
        ∃ v, r[i]? = some v ∧ prefixMin data i ≤ v ∧ v ≤ prefixMax data i := by
  obtain ⟨s', hs⟩ := fst_some _ _ (getVAR_empty data length)
  refine ⟨_, s', hs, tab_length _ _ _, ?_⟩
  intro i hi
  refine ⟨vidyaValue data length i, ?_, vidyaValue_range data length h1 i⟩
  rw [tab_getElem? _ _ _ _ hi, if_pos hi]

theorem vidya_in_range_witness :
    ∃ r s', getVAR closes12 3 emptyCache = some (r, s') ∧ r.length = closes12.length ∧
      ∀ i, i < closes12.length →
        ∃ v, r[i]? = some v ∧ prefixMin closes12 i ≤ v ∧ v ≤ prefixMax closes12 i :=
  vidya_in_range closes12 3 (by decide)

/-! ## VIDYA in double arithmetic -/

/-- C32 as stated fails for the length `-1`: `alpha = 2.0 / (length + 1.0)` is a
division by zero, hence infinite, and the product of the efficiency ratio `0` and
`alpha` is NaN; on the two doubles `1, 2` the series that the loops of `getVAR`
compute is `1, NaN`, so its value at the index 1 is not `data[0]`. -/
theorem vidya_warmup_nan :
    varComputeD [.fin 1, .fin 2] (-1) = some [.fin 1, .nan] ∧
    ((-1 : Int) ≠ 1) ∧ (Dbl.nan ≠ Dbl.fin 1) := by
  refine ⟨by decide!, by decide, by decide⟩

theorem dip11_doubles : dip11.map fl = dip11 := by decide!

theorem dip11_var :
    varComputeD (dip11.map Dbl.fin) 2
      = some [.fin (-(2 ^ 53)), .fin (-(2 ^ 53)), .fin (-(2 ^ 53)), .fin (-(2 ^ 53)),
          .fin (-(2 ^ 53)), .fin (-(2 ^ 53)), .fin (-(2 ^ 53)), .fin (-(2 ^ 53)),
          .fin (-(2 ^ 53)), .fin (-3002399751580323), .fin 4253399648072141] := by
  decide!

theorem dip11_prefixMax : prefixMax dip11 10 = 29 / 4 := by decide!

/-- C31 as stated fails in double arithmetic: on the eleven doubles
`-2^53, 0, 0.75, ..., 6, 7.25` and the length 2, the running sum of
`getSumAbsChanges` is `2` at the index 10 where the momentum is `7.25`; the ratio
`3.625` times `alpha` exceeds 1, and the value of the series at the index 10 is
`4253399648072141`, above the greatest element `7.25` of `data[0..10]`. -/
theorem vidya_leaves_range :
    dip11.map fl = dip11 ∧
    ∃ r, varComputeD (dip11.map Dbl.fin) 2 = some r ∧
      r[10]? = some (.fin 4253399648072141) ∧
      prefixMax dip11 10 = 29 / 4 ∧ ¬ ((4253399648072141 : ℚ) ≤ 29 / 4) :=
  ⟨dip11_doubles, _, dip11_var, rfl, dip11_prefixMax, by norm_num⟩

/-! ## The parameter string of RTR -/

theorem toDigitsCore_ne_nil (fuel : Nat) :
    ∀ n ds, (ds ≠ [] ∨ 0 < fuel) → Nat.toDigitsCore 10 fuel n ds ≠ [] := by
  induction fuel with
  | zero =>
    intro n ds h
    rcases h with h | h
    · simpa [Nat.toDigitsCore] using h
    · omega
  | succ fuel ih =>
    intro n ds _
    simp only [Nat.toDigitsCore]
    by_cases h0 : n / 10 = 0
    · rw [if_pos h0]; exact List.cons_ne_nil _ _
    · rw [if_neg h0]; exact ih _ _ (Or.inl (List.cons_ne_nil _ _))

theorem Nat_repr_ne_nil (m : Nat) : (Nat.repr m).data ≠ [] := by
  simp only [Nat.repr, List.asString, Nat.toDigits]
  exact toDigitsCore_ne_nil _ _ _ (Or.inr (by omega))

theorem digits_split (u : List Char) :
    ∀ (v x y : List Char), (∀ c ∈ u, c ≠ '-') → (∀ c ∈ v, c ≠ '-') →
      u ++ '-' :: x = v ++ '-' :: y → u = v ∧ x = y := by
  induction u with
  | nil =>
    intro v x y _ hv h
    cases v with
    | nil => exact ⟨rfl, (List.cons.inj h).2⟩
    | cons d v =>
      exfalso
      have := (List.cons.inj h).1
      exact hv d (List.mem_cons_self _ _) this.symm
  | cons c u ih =>
    intro v x y hu hv h
    cases v with
    | nil =>
      exfalso
      have := (List.cons.inj h).1
      exact hu c (List.mem_cons_self _ _) this
    | cons d v =>
      have h1 := List.cons.inj h
      obtain ⟨e1, e2⟩ := ih v x y (fun a ha => hu a (List.mem_cons_of_mem _ ha))
        (fun a ha => hv a (List.mem_cons_of_mem _ ha)) h1.2
      exact ⟨by rw [h1.1, e1], e2⟩

theorem int_token_split (a b : Int) (x y : String)
    (h : toString a ++ ("-" ++ x) = toString b ++ ("-" ++ y)) : a = b ∧ x = y := by
  have hd := congrArg String.data h
  simp only [String.data_append, List.singleton_append] at hd
  cases a with
  | ofNat m =>
    cases b with
    | ofNat n =>
      have hd2 : (Nat.repr m).data ++ '-' :: x.data = (Nat.repr n).data ++ '-' :: y.data := hd
      obtain ⟨e1, e2⟩ := digits_split _ _ _ _ (Nat_repr_no_minus m) (Nat_repr_no_minus n) hd2
      have : Nat.repr m = Nat.repr n := String.ext e1
      exact ⟨by rw [Nat_repr_injective m n this], String.ext e2⟩
    | negSucc n =>
      exfalso
      have hd2 : (Nat.repr m).data ++ '-' :: x.data
          = ('-' :: (Nat.repr (n + 1)).data) ++ '-' :: y.data := hd
      cases hr : (Nat.repr m).data with
      | nil => exact Nat_repr_ne_nil m hr
      | cons c cs =>
        rw [hr] at hd2
        have := (List.cons.inj hd2).1
        exact Nat_repr_no_minus m c (by rw [hr]; exact List.mem_cons_self _ _) this
  | negSucc m =>
    cases b with
    | ofNat n =>
      exfalso
      have hd2 : ('-' :: (Nat.repr (m + 1)).data) ++ '-' :: x.data
          = (Nat.repr n).data ++ '-' :: y.data := hd
      cases hr : (Nat.repr n).data with
      | nil => exact Nat_repr_ne_nil n hr
      | cons c cs =>
        rw [hr] at hd2
        have := (List.cons.inj hd2).1
        exact Nat_repr_no_minus n c (by rw [hr]; exact List.mem_cons_self _ _) this.symm
    | negSucc n =>
      have hd2 : ('-' :: (Nat.repr (m + 1)).data) ++ '-' :: x.data
          = ('-' :: (Nat.repr (n + 1)).data) ++ '-' :: y.data := hd
      have hd3 := (List.cons.inj hd2).2
      obtain ⟨e1, e2⟩ := digits_split _ _ _ _ (Nat_repr_no_minus _) (Nat_repr_no_minus _) hd3
      have : Nat.repr (m + 1) = Nat.repr (n + 1) := String.ext e1
      have e := Nat_repr_injective _ _ this
      have e3 : m = n := by omega
      exact ⟨by rw [e3], String.ext e2⟩

theorem rtr_last_char (os : ℚ → String) (p : RtrParams) :
    (p.getParamString os).data.getLast? = some (if p.pyramiding then 'n' else 'f') := by
  unfold RtrParams.getParamString
  rw [String.data_append, List.getLast?_append]
  cases p.pyramiding <;> rfl

/-- C38: for every two RTR records `p`, `q` whose `strategy_name` is `"RTR"`, if
their parameter strings are equal then `p.atr_length = q.atr_length`,
`p.ma_length = q.ma_length` and `p.pyramiding = q.pyramiding`. -/
theorem rtr_string_separates (os : ℚ → String) (p q : RtrParams)
    (hp : p.strategy_name = "RTR") (hq : q.strategy_name = "RTR")
    (h : p.getParamString os = q.getParamString os) :
    p.atr_length = q.atr_length ∧ p.ma_length = q.ma_length ∧ p.pyramiding = q.pyramiding := by
  have hl : (if p.pyramiding then 'n' else 'f') = (if q.pyramiding then 'n' else 'f') := by
    have h1 := rtr_last_char os p
    rw [h, rtr_last_char os q] at h1
    exact (Option.some.inj h1).symm
  have hpy : p.pyramiding = q.pyramiding := by
    cases hpp : p.pyramiding <;> cases hqq : q.pyramiding <;> simp [hpp, hqq] at hl ⊢
  have e1 : ("-MALength=" : String) = "-" ++ "MALength=" := by decide
  have e2 : ("-SL=" : String) = "-" ++ "SL=" := by decide
  unfold RtrParams.getParamString at h
  rw [hp, hq, e1, e2] at h
  simp only [String.append_assoc] at h
  have h1 := append_left_cancel_string _ _ _
    (append_left_cancel_string _ _ _ (append_left_cancel_string _ _ _ h))
  obtain ⟨ha, h2⟩ := int_token_split _ _ _ _ h1
  have h3 := append_left_cancel_string _ _ _ h2
  obtain ⟨hm, _⟩ := int_token_split _ _ _ _ h3
  exact ⟨ha, hm, hpy⟩

theorem rtr_string_separates_witness :
    sampleRtr.strategy_name = "RTR" ∧
    ({ sampleRtr with sl_percent := 5 } : RtrParams).strategy_name = "RTR" ∧
    sampleRtr.getParamString (fun _ => "") =
      RtrParams.getParamString (fun _ => "") { sampleRtr with sl_percent := 5 } ∧
    sampleRtr.atr_length = ({ sampleRtr with sl_percent := 5 } : RtrParams).atr_length ∧
    sampleRtr.ma_length = ({ sampleRtr with sl_percent := 5 } : RtrParams).ma_length ∧
    sampleRtr.pyramiding = ({ sampleRtr with sl_percent := 5 } : RtrParams).pyramiding :=
  ⟨rfl, rfl, rfl,
    rtr_string_separates (fun _ => "") sampleRtr { sampleRtr with sl_percent := 5 } rfl rfl rfl⟩

/-! ## Stochastic, RSI and ATR in double arithmetic: overflow -/

theorem rd_some (v : Vec) (j : Int) (h0 : 0 ≤ j) (h1 : j < (v.length : Int)) :
    ∃ x, rd v j = some x :=
  ⟨_, rd_data v j j.toNat (by omega) (by omega)⟩

theorem wr_some (v : Vec) (j : Int) (x : ℚ) (h0 : 0 ≤ j) (h1 : j < (v.length : Int)) :
    ∃ v', wr v j x = some v' ∧ v'.length = v.length :=
  ⟨v.set j.toNat x, wr_eq v j j.toNat x (by omega) (by omega), List.length_set _ _ _⟩

theorem loopM_total {σ : Type} (body : Int → σ → Option σ) (Q : σ → Prop) :
    ∀ (n : Nat) (i : Int) (s : σ), Q s →
      (∀ j s, i ≤ j → j < i + n → Q s → ∃ s', body j s = some s' ∧ Q s') →
      ∃ s', loopM body n i s = some s' ∧ Q s' := by
  intro n
  induction n with
  | zero => intro i s hQ _; exact ⟨s, rfl, hQ⟩
  | succ n ih =>
    intro i s hQ hstep
    obtain ⟨s1, h1, hQ1⟩ := hstep i s (le_refl _) (by push_cast; omega) hQ
    obtain ⟨s2, h2, hQ2⟩ := ih (i + 1) s1 hQ1
      (fun j t hj1 hj2 ht => hstep j t (by omega) (by push_cast; omega) ht)
    exact ⟨s2, by simp only [loopM, h1, Option.some_bind, h2], hQ2⟩

theorem forU_total {σ : Type} (lo hi : Int) (body : Int → σ → Option σ) (Q : σ → Prop)
    (s : σ) (hQ : Q s)
    (hstep : ∀ j s, 0 ≤ lo → lo ≤ j → j < hi → Q s → ∃ s', body j s = some s' ∧ Q s') :
    ∃ s', forU lo hi body s = some s' ∧ Q s' := by
  unfold forU
  by_cases h0 : 0 ≤ lo
  · rw [if_pos h0]
    exact loopM_total body Q _ lo s hQ (fun j t hj1 hj2 ht => hstep j t h0 hj1 (by omega) ht)
  · rw [if_neg h0]
    exact ⟨s, rfl, hQ⟩

theorem forS_total {σ : Type} (lo hi : Int) (body : Int → σ → Option σ) (Q : σ → Prop)
    (s : σ) (hQ : Q s)
    (hstep : ∀ j s, lo ≤ j → j < hi → Q s → ∃ s', body j s = some s' ∧ Q s') :
    ∃ s', forS lo hi body s = some s' ∧ Q s' := by
  unfold forS
  exact loopM_total body Q _ lo s hQ (fun j t hj1 hj2 ht => hstep j t hj1 (by omega) ht)

theorem zeros_length (n : Nat) : (zeros n).length = n := by simp [zeros]

theorem absChangeCompute_total (data : Vec) (period : Int) :
    ∃ r, absChangeCompute data period = some r ∧ r.length = data.length := by
  unfold absChangeCompute
  refine forU_total _ _ _ (fun (r : Vec) => r.length = data.length) _ (zeros_length _) ?_
  intro j r h0 h1 h2 hr
  obtain ⟨x, hx⟩ := rd_some data j (by omega) h2
  obtain ⟨y, hy⟩ := rd_some data (j - period) (by omega) (by omega)
  obtain ⟨v, hv, hl⟩ := wr_some r j |x - y| (by omega) (by omega)
  exact ⟨v, by simp only [hx, hy, hv, Option.some_bind, Option.bind_eq_bind], hl.trans hr⟩

theorem absChanges_total (data : Vec) :
    ∃ r, absChanges data = some r ∧ r.length = data.length := by
  unfold absChanges
  refine forU_total _ _ _ (fun (r : Vec) => r.length = data.length) _ (zeros_length _) ?_
  intro j r h0 h1 h2 hr
  obtain ⟨x, hx⟩ := rd_some data j (by omega) h2
  obtain ⟨y, hy⟩ := rd_some data (j - 1) (by omega) (by omega)
  obtain ⟨v, hv, hl⟩ := wr_some r j |x - y| (by omega) (by omega)
  exact ⟨v, by simp only [hx, hy, hv, Option.some_bind, Option.bind_eq_bind], hl.trans hr⟩

theorem rollingSum_total (changes : Vec) (period : Int) :
    ∃ p, rollingSum changes period changes.length = some p ∧ p.2.length = changes.length := by
  unfold rollingSum
  refine forU_total _ _ _ (fun (p : ℚ × Vec) => p.2.length = changes.length) _ (zeros_length _) ?_
  intro j p h0 h1 h2 hp
  obtain ⟨ci, hci⟩ := rd_some changes j (by omega) h2
  by_cases hc : 0 ≤ period ∧ j ≥ period
  · obtain ⟨cp, hcp⟩ := rd_some changes (j - period) (by omega) (by omega)
    obtain ⟨v, hv, hl⟩ := wr_some p.2 j (p.1 + ci - cp) (by omega) (by omega)
    exact ⟨(p.1 + ci - cp, v),
      by simp only [hci, if_pos hc, hcp, hv, Option.some_bind, Option.bind_eq_bind],
      hl.trans hp⟩
  · obtain ⟨v, hv, hl⟩ := wr_some p.2 j (p.1 + ci) (by omega) (by omega)
    exact ⟨(p.1 + ci, v),
      by simp only [hci, if_neg hc, hv, Option.some_bind, Option.bind_eq_bind],
      hl.trans hp⟩

theorem sumAbsChangesCompute_total (data : Vec) (period : Int) :
    ∃ r, sumAbsChangesCompute data period = some r ∧ r.length = data.length := by
  obtain ⟨ch, hch, hl⟩ := absChanges_total data
  obtain ⟨p, hp, hpl⟩ := rollingSum_total ch period
  rw [hl] at hp hpl
  exact ⟨p.2, by simp only [sumAbsChangesCompute, hch, hp, Option.some_bind,
    Option.bind_eq_bind], hpl⟩

theorem highestCompute_total (data : Vec) (period : Int) :
    ∃ r, highestCompute data period = some r ∧ r.length = data.length := by
  unfold highestCompute
  refine forU_total _ _ _ (fun (r : Vec) => r.length = data.length) _ (zeros_length _) ?_
  intro j r _ h1 h2 hr
  obtain ⟨m, hm, _⟩ := forS_total (max 0 (j - period + 1)) (j + 1)
    (fun t (highest : ℚ) => do
      let x ← rd data t
      some (max highest x)) (fun _ => True) (-DBL_MAX) trivial (by
      intro t a ht1 ht2 _
      obtain ⟨x, hx⟩ := rd_some data t (by omega) (by omega)
      exact ⟨max a x, by simp only [hx, Option.some_bind, Option.bind_eq_bind], trivial⟩)
  obtain ⟨v, hv, hl⟩ := wr_some r j m (by omega) (by omega)
  refine ⟨v, ?_, hl.trans hr⟩
  beta_reduce
  rw [hm]
  simp only [hv, Option.some_bind, Option.bind_eq_bind]

theorem lowestCompute_total (data : Vec) (period : Int) :
    ∃ r, lowestCompute data period = some r ∧ r.length = data.length := by
  unfold lowestCompute
  refine forU_total _ _ _ (fun (r : Vec) => r.length = data.length) _ (zeros_length _) ?_
  intro j r _ h1 h2 hr
  obtain ⟨m, hm, _⟩ := forS_total (max 0 (j - period + 1)) (j + 1)
    (fun t (lowest : ℚ) => do
      let x ← rd data t
      some (min lowest x)) (fun _ => True) DBL_MAX trivial (by
      intro t a ht1 ht2 _
      obtain ⟨x, hx⟩ := rd_some data t (by omega) (by omega)
      exact ⟨min a x, by simp only [hx, Option.some_bind, Option.bind_eq_bind], trivial⟩)
  obtain ⟨v, hv, hl⟩ := wr_some r j m (by omega) (by omega)
  refine ⟨v, ?_, hl.trans hr⟩
  beta_reduce
  rw [hm]
  simp only [hv, Option.some_bind, Option.bind_eq_bind]

theorem stochWindow_total (highs lows : Vec) (k i : Int) (hi : i < (highs.length : Int))
    (hl : lows.length = highs.length) :
    ∃ p, stochWindow highs lows k i = some p := by
  unfold stochWindow
  obtain ⟨p, hp, _⟩ := forS_total (i - k + 1) (i + 1)
    (fun j (p : ℚ × ℚ) =>
      if j ≥ 0 then do
        let l ← rd lows j
        let h ← rd highs j
        some (min p.1 l, max p.2 h)
      else some p) (fun _ => True) (DBL_MAX, -DBL_MAX) trivial (by
      intro j p _ hj2 _
      by_cases h0 : j ≥ 0
      · obtain ⟨l, hlo⟩ := rd_some lows j h0 (by omega)
        obtain ⟨h, hhi⟩ := rd_some highs j h0 (by omega)
        exact ⟨(min p.1 l, max p.2 h),
          by simp only [if_pos h0, hlo, hhi, Option.some_bind, Option.bind_eq_bind], trivial⟩
      · exact ⟨p, by simp only [if_neg h0], trivial⟩)
  exact ⟨p, hp⟩

theorem stochasticCompute_total (closes highs lows : Vec) (k : Int)
    (hh : highs.length = closes.length) (hl : lows.length = closes.length) :
    ∃ r, stochasticCompute closes highs lows k = some r ∧ r.length = closes.length := by
  unfold stochasticCompute
  refine forU_total _ _ _ (fun (r : Vec) => r.length = closes.length) _ (zeros_length _) ?_
  intro j r _ h1 h2 hr
  obtain ⟨p, hp⟩ := stochWindow_total highs lows k j (by omega) (by omega)
  obtain ⟨lo, hi⟩ := p
  by_cases hpos : hi - lo > 0
  · obtain ⟨c, hc⟩ := rd_some closes j (by omega) h2
    obtain ⟨v, hv, hlen⟩ := wr_some r j ((c - lo) / (hi - lo) * 100) (by omega) (by omega)
    exact ⟨v, by simp only [hp, if_pos hpos, hc, hv, Option.some_bind, Option.bind_eq_bind],
      hlen.trans hr⟩
  · obtain ⟨v, hv, hlen⟩ := wr_some r j 100 (by omega) (by omega)
    exact ⟨v, by simp only [hp, if_neg hpos, hv, Option.some_bind, Option.bind_eq_bind],
      hlen.trans hr⟩

theorem efficiencyRatioCompute_total (n : Nat) (momentum volatility : Vec)
    (hm : momentum.length = n) (hv : volatility.length = n) :
    ∃ r, efficiencyRatioCompute n momentum volatility = some r ∧ r.length = n := by
  unfold efficiencyRatioCompute
  refine forU_total _ _ _ (fun (r : Vec) => r.length = n) _ (zeros_length _) ?_
  intro j r _ h1 h2 hr
  obtain ⟨vol, hvol⟩ := rd_some volatility j h1 (by omega)
  by_cases h0 : vol ≠ 0
  · obtain ⟨mom, hmom⟩ := rd_some momentum j h1 (by omega)
    obtain ⟨v, hw, hlen⟩ := wr_some r j (mom / vol) h1 (by omega)
    exact ⟨v, by simp only [hvol, if_pos h0, hmom, hw, Option.some_bind, Option.bind_eq_bind],
      hlen.trans hr⟩
  · obtain ⟨v, hw, hlen⟩ := wr_some r j 0 h1 (by omega)
    exact ⟨v, by simp only [hvol, if_neg h0, hw, Option.some_bind, Option.bind_eq_bind],
      hlen.trans hr⟩

theorem vidyaLoop_total (data : Vec) (length : Int) (er : Vec)
    (he : er.length = data.length) :
    ∃ r, vidyaLoop data length er = some r ∧ r.length = data.length := by
  unfold vidyaLoop
  refine forU_total _ _ _ (fun (r : Vec) => r.length = data.length) _ (zeros_length _) ?_
  intro j r _ h1 h2 hr
  obtain ⟨x, hx⟩ := rd_some data j h1 h2
  by_cases h0 : j = 0
  · obtain ⟨v, hw, hlen⟩ := wr_some r j x h1 (by omega)
    exact ⟨v, by simp only [if_pos h0, hx, hw, Option.some_bind, Option.bind_eq_bind],
      hlen.trans hr⟩
  · by_cases hl1 : length = 1
    · obtain ⟨v, hw, hlen⟩ := wr_some r j x h1 (by omega)
      exact ⟨v, by simp only [if_neg h0, if_pos hl1, hx, hw, Option.some_bind,
        Option.bind_eq_bind], hlen.trans hr⟩
    · obtain ⟨e, hee⟩ := rd_some er j h1 (by omega)
      obtain ⟨prev, hprev⟩ := rd_some r (j - 1) (by omega) (by omega)
      obtain ⟨v, hw, hlen⟩ := wr_some r j
        (e * (2 / ((length : ℚ) + 1)) * (x - prev) + prev) h1 (by omega)
      exact ⟨v, by simp only [if_neg h0, if_neg hl1, hee, hx, hprev, hw, Option.some_bind,
        Option.bind_eq_bind], hlen.trans hr⟩

theorem atrCompute_total (highs lows closes : Vec) (period : Int)
    (hl : lows.length = highs.length) (hc : closes.length = highs.length) :
    ∃ r, atrCompute highs lows closes period = some r ∧ r.length = highs.length := by
  by_cases hg : 0 ≤ period ∧ (highs.length : Int) > period
  · obtain ⟨p, rfl⟩ : ∃ p : Nat, period = (p : Int) := ⟨period.toNat, by omega⟩
    exact ⟨_, atrCompute_eq highs lows closes p (by omega) hl hc, tab_length _ _ _⟩
  · refine ⟨zeros highs.length, ?_, zeros_length _⟩
    unfold atrCompute
    rw [trueRange_eq highs lows closes hl hc]
    simp only [Option.some_bind, Option.bind_eq_bind]
    rw [if_neg hg]

theorem rsiChanges_total (closes : Vec) :
    ∃ p, rsiChanges closes = some p ∧ p.2.1.length = closes.length ∧
      p.2.2.length = closes.length := by
  unfold rsiChanges
  obtain ⟨p, hp, hq⟩ := forU_total 1 (closes.length : Int)
    (fun i (p : Vec × Vec × Vec) => do
      let x ← rd closes i
      let y ← rd closes (i - 1)
      let changes ← wr p.1 i (x - y)
      let ch ← rd changes i
      if ch > 0 then do
        let gains ← wr p.2.1 i ch
        let losses ← wr p.2.2 i 0
        some (changes, gains, losses)
      else do
        let gains ← wr p.2.1 i 0
        let losses ← wr p.2.2 i (-ch)
        some (changes, gains, losses))
    (fun (p : Vec × Vec × Vec) => p.1.length = closes.length ∧ p.2.1.length = closes.length ∧
      p.2.2.length = closes.length)
    (zeros closes.length, zeros closes.length, zeros closes.length)
    ⟨zeros_length _, zeros_length _, zeros_length _⟩ (by
      intro j p _ h1 h2 hp
      obtain ⟨hp1, hp2, hp3⟩ := hp
      obtain ⟨x, hx⟩ := rd_some closes j (by omega) h2
      obtain ⟨y, hy⟩ := rd_some closes (j - 1) (by omega) (by omega)
      obtain ⟨ch, hch, hchl⟩ := wr_some p.1 j (x - y) (by omega) (by omega)
      obtain ⟨c, hcc⟩ := rd_some ch j (by omega) (by omega)
      by_cases hpos : c > 0
      · obtain ⟨g, hg, hgl⟩ := wr_some p.2.1 j c (by omega) (by omega)
        obtain ⟨l, hlo, hll⟩ := wr_some p.2.2 j 0 (by omega) (by omega)
        exact ⟨(ch, g, l), by simp only [hx, hy, hch, hcc, if_pos hpos, hg, hlo,
          Option.some_bind, Option.bind_eq_bind], hchl.trans hp1, hgl.trans hp2, hll.trans hp3⟩
      · obtain ⟨g, hg, hgl⟩ := wr_some p.2.1 j 0 (by omega) (by omega)
        obtain ⟨l, hlo, hll⟩ := wr_some p.2.2 j (-c) (by omega) (by omega)
        exact ⟨(ch, g, l), by simp only [hx, hy, hch, hcc, if_neg hpos, hg, hlo,
          Option.some_bind, Option.bind_eq_bind], hchl.trans hp1, hgl.trans hp2, hll.trans hp3⟩)
  exact ⟨p, hp, hq.2.1, hq.2.2⟩

theorem rsiSeedU_total (oob : Vec → Int → ℚ) (gains losses : Vec) (length : Int) :
    ∃ p, rsiSeedU oob gains losses length = some p := by
  unfold rsiSeedU
  obtain ⟨p, hp, _⟩ := forS_total 1 (length + 1)
    (fun i (p : ℚ × ℚ) => some (p.1 + rdU oob gains i, p.2 + rdU oob losses i))
    (fun _ => True) (0, 0) trivial (fun j p _ _ _ => ⟨_, rfl, trivial⟩)
  exact ⟨p, hp⟩

theorem rsiSmooth_total (gains losses : Vec) (length : Int) (init : ℚ × ℚ × Vec)
    (hl : losses.length = gains.length) (hi : init.2.2.length = gains.length) :
    ∃ p, rsiSmooth gains losses length gains.length init = some p ∧
      p.2.2.length = gains.length := by
  unfold rsiSmooth
  refine forU_total _ _ _ (fun (p : ℚ × ℚ × Vec) => p.2.2.length = gains.length) _ hi ?_
  intro j p h0 h1 h2 hp
  obtain ⟨g, hg⟩ := rd_some gains j (by omega) h2
  obtain ⟨l, hlo⟩ := rd_some losses j (by omega) (by omega)
  by_cases hz : (p.2.1 * ((length : ℚ) - 1) + l) / (length : ℚ) = 0
  · obtain ⟨v, hv, hlen⟩ := wr_some p.2.2 j 100 (by omega) (by omega)
    exact ⟨((p.1 * ((length : ℚ) - 1) + g) / (length : ℚ),
      (p.2.1 * ((length : ℚ) - 1) + l) / (length : ℚ), v),
      by simp only [hg, hlo, if_pos hz, hv, Option.some_bind, Option.bind_eq_bind],
      hlen.trans hp⟩
  · obtain ⟨v, hv, hlen⟩ := wr_some p.2.2 j (100 - 100 / (1 +
      (p.1 * ((length : ℚ) - 1) + g) / (length : ℚ) /
        ((p.2.1 * ((length : ℚ) - 1) + l) / (length : ℚ)))) (by omega) (by omega)
    exact ⟨((p.1 * ((length : ℚ) - 1) + g) / (length : ℚ),
      (p.2.1 * ((length : ℚ) - 1) + l) / (length : ℚ), v),
      by simp only [hg, hlo, if_neg hz, hv, Option.some_bind, Option.bind_eq_bind],
      hlen.trans hp⟩

theorem rsiComputeU_total (oob : Vec → Int → ℚ) (closes : Vec) (length : Int) :
    ∃ r, rsiComputeU oob closes length = some r ∧ r.length = closes.length := by
  obtain ⟨p, hp, hg, hl⟩ := rsiChanges_total closes
  obtain ⟨ch, gains, losses⟩ := p
  simp only at hg hl
  obtain ⟨q, hq⟩ := rsiSeedU_total oob gains losses length
  obtain ⟨sg, sl⟩ := q
  obtain ⟨t, ht, htl⟩ := rsiSmooth_total gains losses length
    (sg / (length : ℚ), sl / (length : ℚ), zeros closes.length) (by omega)
    (by simp only [zeros_length]; omega)
  rw [hg] at ht htl
  obtain ⟨t1, t2, result⟩ := t
  exact ⟨result, by simp only [rsiComputeU, hp, hq, ht, Option.some_bind, Option.bind_eq_bind],
    htl⟩

theorem bbSumSq_total (data basis : Vec) (length i : Int) (hb : basis.length = data.length)
    (h1 : length ≤ i) (h2 : i < (data.length : Int)) :
    ∃ x, bbSumSq data basis length i = some x := by
  unfold bbSumSq
  obtain ⟨x, hx, _⟩ := forU_total (i - length + 1) (i + 1)
    (fun j (sum_sq : ℚ) => do
      let x ← rd data j
      let b ← rd basis i
      some (sum_sq + (x - b) * (x - b))) (fun _ => True) 0 trivial (by
      intro j a _ hj1 hj2 _
      obtain ⟨x, hx⟩ := rd_some data j (by omega) (by omega)
      obtain ⟨b, hbb⟩ := rd_some basis i (by omega) (by omega)
      exact ⟨a + (x - b) * (x - b),
        by simp only [hx, hbb, Option.some_bind, Option.bind_eq_bind], trivial⟩)
  exact ⟨x, hx⟩

theorem bbUpperLoop_total (sqrt : ℚ → ℚ) (data basis : Vec) (length : Int) (multiplier : ℚ)
    (hb : basis.length = data.length) :
    ∃ r, bbUpperLoop sqrt data basis length multiplier = some r ∧
      r.length = data.length := by
  unfold bbUpperLoop
  refine forU_total _ _ _ (fun (r : Vec) => r.length = data.length) _ (zeros_length _) ?_
  intro j r h0 h1 h2 hr
  obtain ⟨x, hx⟩ := bbSumSq_total data basis length j hb h1 h2
  obtain ⟨b, hbb⟩ := rd_some basis j (by omega) (by omega)
  obtain ⟨v, hv, hlen⟩ := wr_some r j (b + multiplier * sqrt (x / (length : ℚ))) (by omega)
    (by omega)
  exact ⟨v, by simp only [hx, hbb, hv, Option.some_bind, Option.bind_eq_bind], hlen.trans hr⟩

theorem bbLowerLoop_total (sqrt : ℚ → ℚ) (data basis : Vec) (length : Int) (multiplier : ℚ)
    (hb : basis.length = data.length) :
    ∃ r, bbLowerLoop sqrt data basis length multiplier = some r ∧
      r.length = data.length := by
  unfold bbLowerLoop
  refine forU_total _ _ _ (fun (r : Vec) => r.length = data.length) _ (zeros_length _) ?_
  intro j r h0 h1 h2 hr
  obtain ⟨x, hx⟩ := bbSumSq_total data basis length j hb h1 h2
  obtain ⟨b, hbb⟩ := rd_some basis j (by omega) (by omega)
  obtain ⟨v, hv, hlen⟩ := wr_some r j (b - multiplier * sqrt (x / (length : ℚ))) (by omega)
    (by omega)
  exact ⟨v, by simp only [hx, hbb, hv, Option.some_bind, Option.bind_eq_bind], hlen.trans hr⟩

theorem allLen_mapSet {κ : Type} [DecidableEq κ] (N : Nat) (m : List (κ × Vec)) (k : κ)
    (r : Vec) (hm : ∀ p ∈ m, p.2.length = N) (hr : r.length = N) :
    ∀ p ∈ mapSet m k r, p.2.length = N := by
  intro p hp
  rcases mem_mapSet m k r p hp with rfl | h
  · exact hr
  · exact hm p h

theorem memo_total {σ : Type} (found compute : Option Vec) (s : σ) (upd : Vec → σ)
    (P : Vec → Prop) (R : σ → Prop) (hf : ∀ v, found = some v → P v) (hR : R s)
    (hc : ∃ r, compute = some r ∧ P r) (hupd : ∀ r, P r → R (upd r)) :
    ∃ r s', (match found with
      | some v => some (v, s)
      | none => compute.map (fun result => (result, upd result))) = some (r, s') ∧
      P r ∧ R s' := by
  cases found with
  | some v => exact ⟨v, s, rfl, hf v rfl, hR⟩
  | none =>
    obtain ⟨r, hr, hP⟩ := hc
    exact ⟨r, upd r, by rw [hr]; rfl, hP, hupd r hP⟩

theorem getAbsChange_len (N : Nat) (data : Vec) (period : Int) (s : IndicatorCache)
    (hs : AllLen N s) (hd : data.length = N) :
    ∃ r s', getAbsChange data period s = some (r, s') ∧ r.length = N ∧ AllLen N s' := by
  obtain ⟨h1, h2, h3, h4, h5, h6, h7, h8⟩ := hs
  refine memo_total _ _ s _ (fun v => v.length = N) (AllLen N)
    (fun v hv => h4 _ (mapFind_mem _ _ _ hv)) ⟨h1, h2, h3, h4, h5, h6, h7, h8⟩
    (by rw [← hd]; exact absChangeCompute_total data period)
    (fun r hr => ⟨h1, h2, h3, allLen_mapSet N _ _ r h4 hr, h5, h6, h7, h8⟩)

theorem getSumAbsChanges_len (N : Nat) (data : Vec) (period : Int) (s : IndicatorCache)
    (hs : AllLen N s) (hd : data.length = N) :
    ∃ r s', getSumAbsChanges data period s = some (r, s') ∧ r.length = N ∧ AllLen N s' := by
  obtain ⟨h1, h2, h3, h4, h5, h6, h7, h8⟩ := hs
  refine memo_total _ _ s _ (fun v => v.length = N) (AllLen N)
    (fun v hv => h5 _ (mapFind_mem _ _ _ hv)) ⟨h1, h2, h3, h4, h5, h6, h7, h8⟩
    (by rw [← hd]; exact sumAbsChangesCompute_total data period)
    (fun r hr => ⟨h1, h2, h3, h4, allLen_mapSet N _ _ r h5 hr, h6, h7, h8⟩)

theorem getHighest_len (N : Nat) (data : Vec) (period : Int) (s : IndicatorCache)
    (hs : AllLen N s) (hd : data.length = N) :
    ∃ r s', getHighest data period s = some (r, s') ∧ r.length = N ∧ AllLen N s' := by
  obtain ⟨h1, h2, h3, h4, h5, h6, h7, h8⟩ := hs
  refine memo_total _ _ s _ (fun v => v.length = N) (AllLen N)
    (fun v hv => h6 _ (mapFind_mem _ _ _ hv)) ⟨h1, h2, h3, h4, h5, h6, h7, h8⟩
    (by rw [← hd]; exact highestCompute_total data period)
    (fun r hr => ⟨h1, h2, h3, h4, h5, allLen_mapSet N _ _ r h6 hr, h7, h8⟩)

theorem getLowest_len (N : Nat) (data : Vec) (period : Int) (s : IndicatorCache)
    (hs : AllLen N s) (hd : data.length = N) :
    ∃ r s', getLowest data period s = some (r, s') ∧ r.length = N ∧ AllLen N s' := by
  obtain ⟨h1, h2, h3, h4, h5, h6, h7, h8⟩ := hs
  refine memo_total _ _ s _ (fun v => v.length = N) (AllLen N)
    (fun v hv => h7 _ (mapFind_mem _ _ _ hv)) ⟨h1, h2, h3, h4, h5, h6, h7, h8⟩
    (by rw [← hd]; exact lowestCompute_total data period)
    (fun r hr => ⟨h1, h2, h3, h4, h5, h6, allLen_mapSet N _ _ r h7 hr, h8⟩)

theorem getATR_len (N : Nat) (highs lows closes : Vec) (period : Int) (s : IndicatorCache)
    (hs : AllLen N s) (hh : highs.length = N) (hl : lows.length = N)
    (hc : closes.length = N) :
    ∃ r s', getATR highs lows closes period s = some (r, s') ∧ r.length = N ∧
      AllLen N s' := by
  obtain ⟨h1, h2, h3, h4, h5, h6, h7, h8⟩ := hs
  refine memo_total _ _ s _ (fun v => v.length = N) (AllLen N)
    (fun v hv => h8 _ (mapFind_mem _ _ _ hv)) ⟨h1, h2, h3, h4, h5, h6, h7, h8⟩
    (by rw [← hh]; exact atrCompute_total highs lows closes period (by omega) (by omega))
    (fun r hr => ⟨h1, h2, h3, h4, h5, h6, h7, allLen_mapSet N _ _ r h8 hr⟩)

theorem getOTT_len (N : Nat) (data : Vec) (multiplier : ℚ) (s : IndicatorCache)
    (hs : AllLen N s) (hd : data.length = N) :
    ∃ r s', getOTT data multiplier s = some (r, s') ∧ r.length = N ∧ AllLen N s' := by
  obtain ⟨h1, h2, h3, h4, h5, h6, h7, h8⟩ := hs
  refine memo_total _ _ s _ (fun v => v.length = N) (AllLen N)
    (fun v hv => h2 _ (mapFind_mem _ _ _ hv)) ⟨h1, h2, h3, h4, h5, h6, h7, h8⟩
    ⟨_, ottCompute_eq data multiplier, (tab_length _ _ _).trans hd⟩
    (fun r hr => ⟨h1, allLen_mapSet N _ _ r h2 hr, h3, h4, h5, h6, h7, h8⟩)

theorem getStochastic_len (N : Nat) (closes highs lows : Vec) (k : Int) (s : IndicatorCache)
    (hs : AllLen N s) (hc : closes.length = N) (hh : highs.length = N)
    (hl : lows.length = N) :
    ∃ r s', getStochastic closes highs lows k s = some (r, s') ∧ r.length = N ∧
      AllLen N s' := by
  obtain ⟨h1, h2, h3, h4, h5, h6, h7, h8⟩ := hs
  refine memo_total _ _ s _ (fun v => v.length = N) (AllLen N)
    (fun v hv => h3 _ (mapFind_mem _ _ _ hv)) ⟨h1, h2, h3, h4, h5, h6, h7, h8⟩
    (by rw [← hc]; exact stochasticCompute_total closes highs lows k (by omega) (by omega))
    (fun r hr => ⟨h1, h2, allLen_mapSet N _ _ r h3 hr, h4, h5, h6, h7, h8⟩)

theorem getRSIU_len (oob : Vec → Int → ℚ) (N : Nat) (closes : Vec) (length : Int)
    (s : IndicatorCache) (hs : AllLen N s) (hc : closes.length = N) :
    ∃ r s', getRSIU oob closes length s = some (r, s') ∧ r.length = N ∧ AllLen N s' := by
  obtain ⟨h1, h2, h3, h4, h5, h6, h7, h8⟩ := hs
  refine memo_total _ _ s _ (fun v => v.length = N) (AllLen N)
    (fun v hv => h3 _ (mapFind_mem _ _ _ hv)) ⟨h1, h2, h3, h4, h5, h6, h7, h8⟩
    (by rw [← hc]; exact rsiComputeU_total oob closes length)
    (fun r hr => ⟨h1, h2, allLen_mapSet N _ _ r h3 hr, h4, h5, h6, h7, h8⟩)

theorem getVAR_len (N : Nat) (data : Vec) (length : Int) (s : IndicatorCache)
    (hs : AllLen N s) (hd : data.length = N) :
    ∃ r s', getVAR data length s = some (r, s') ∧ r.length = N ∧ AllLen N s' := by
  cases hf : mapFind s.var_cache length with
  | some v =>
    exact ⟨v, s, by simp only [getVAR, hf], hs.1 _ (mapFind_mem _ _ _ hf), hs⟩
  | none =>
    obtain ⟨mom, s1, hm, hml, hs1⟩ := getAbsChange_len N data 9 s hs hd
    obtain ⟨vol, s2, hv, hvl, hs2⟩ := getSumAbsChanges_len N data 9 s1 hs1 hd
    obtain ⟨er, he, hel⟩ := efficiencyRatioCompute_total data.length mom vol (by omega) (by omega)
    obtain ⟨r, hr, hrl⟩ := vidyaLoop_total data length er hel
    obtain ⟨h1, h2, h3, h4, h5, h6, h7, h8⟩ := hs2
    refine ⟨r, { s2 with var_cache := (mapSet s2.var_cache length r) }, ?_, by omega,
      ⟨allLen_mapSet N _ _ r h1 (by omega), h2, h3, h4, h5, h6, h7, h8⟩⟩
    simp only [getVAR, hf, hm, hv, he, hr, Option.some_bind, Option.bind_eq_bind]

theorem getBBUpper_len (sqrt : ℚ → ℚ) (N : Nat) (data : Vec) (length : Int) (multiplier : ℚ)
    (s : IndicatorCache) (hs : AllLen N s) (hd : data.length = N) :
    ∃ r s', getBBUpper sqrt data length multiplier s = some (r, s') ∧ r.length = N ∧
      AllLen N s' := by
  cases hf : mapFind s.indicator_cache
      ("bb_upper_" ++ toString length ++ "_" ++ to_string_double multiplier) with
  | some v =>
    exact ⟨v, s, by simp only [getBBUpper, hf], hs.2.2.1 _ (mapFind_mem _ _ _ hf), hs⟩
  | none =>
    obtain ⟨basis, s1, hb, hbl, hs1⟩ := getVAR_len N data length s hs hd
    obtain ⟨r, hr, hrl⟩ := bbUpperLoop_total sqrt data basis length multiplier (by omega)
    obtain ⟨h1, h2, h3, h4, h5, h6, h7, h8⟩ := hs1
    refine ⟨r, { s1 with indicator_cache := (mapSet s1.indicator_cache
      ("bb_upper_" ++ toString length ++ "_" ++ to_string_double multiplier) r) }, ?_,
      by omega, ⟨h1, h2, allLen_mapSet N _ _ r h3 (by omega), h4, h5, h6, h7, h8⟩⟩
    simp only [getBBUpper, hf, hb, hr, Option.some_bind, Option.bind_eq_bind]

theorem getBBLower_len (sqrt : ℚ → ℚ) (N : Nat) (data : Vec) (length : Int) (multiplier : ℚ)
    (s : IndicatorCache) (hs : AllLen N s) (hd : data.length = N) :
    ∃ r s', getBBLower sqrt data length multiplier s = some (r, s') ∧ r.length = N ∧
      AllLen N s' := by
  cases hf : mapFind s.indicator_cache
      ("bb_lower_" ++ toString length ++ "_" ++ to_string_double multiplier) with
  | some v =>
    exact ⟨v, s, by simp only [getBBLower, hf], hs.2.2.1 _ (mapFind_mem _ _ _ hf), hs⟩
  | none =>
    obtain ⟨basis, s1, hb, hbl, hs1⟩ := getVAR_len N data length s hs hd
    obtain ⟨r, hr, hrl⟩ := bbLowerLoop_total sqrt data basis length multiplier (by omega)
    obtain ⟨h1, h2, h3, h4, h5, h6, h7, h8⟩ := hs1
    refine ⟨r, { s1 with indicator_cache := (mapSet s1.indicator_cache
      ("bb_lower_" ++ toString length ++ "_" ++ to_string_double multiplier) r) }, ?_,
      by omega, ⟨h1, h2, allLen_mapSet N _ _ r h3 (by omega), h4, h5, h6, h7, h8⟩⟩
    simp only [getBBLower, hf, hb, hr, Option.some_bind, Option.bind_eq_bind]

theorem loopM_refine {σ : Type} (b1 b2 : Int → σ → Option σ)
    (h : ∀ j s s', b1 j s = some s' → b2 j s = some s') :
    ∀ (n : Nat) (i : Int) (s s' : σ), loopM b1 n i s = some s' → loopM b2 n i s = some s' := by
  intro n
  induction n with
  | zero => intro i s s' hs; exact hs
  | succ n ih =>
    intro i s s' hs
    simp only [loopM] at hs ⊢
    cases h1 : b1 i s with
    | none => rw [h1] at hs; cases hs
    | some t =>
      rw [h1] at hs
      rw [h i s t h1]
      exact ih (i + 1) t s' hs

theorem rsiSeed_refine (oob : Vec → Int → ℚ) (gains losses : Vec) (length : Int) (p : ℚ × ℚ)
    (h : rsiSeed gains losses length = some p) : rsiSeedU oob gains losses length = some p := by
  unfold rsiSeed forS at h
  unfold rsiSeedU forS
  refine loopM_refine _ _ ?_ _ _ _ _ h
  intro j s s' hj
  cases hg : rd gains j with
  | none => simp only [hg, Option.none_bind, Option.bind_eq_bind] at hj; cases hj
  | some g =>
    cases hl : rd losses j with
    | none => simp only [hg, hl, Option.none_bind, Option.some_bind, Option.bind_eq_bind] at hj
              cases hj
    | some l =>
      simp only [hg, hl, Option.some_bind, Option.bind_eq_bind] at hj
      simp only [rdU, hg, hl, Option.getD_some]
      exact hj

theorem rsiCompute_refine (oob : Vec → Int → ℚ) (closes : Vec) (length : Int) (r : Vec)
    (h : rsiCompute closes length = some r) : rsiComputeU oob closes length = some r := by
  unfold rsiCompute at h
  unfold rsiComputeU
  cases h1 : rsiChanges closes with
  | none => rw [h1] at h; cases h
  | some p =>
    obtain ⟨ch, gains, losses⟩ := p
    rw [h1] at h
    simp only [Option.some_bind, Option.bind_eq_bind] at h ⊢
    cases h2 : rsiSeed gains losses length with
    | none => rw [h2] at h; cases h
    | some q =>
      rw [h2] at h
      rw [rsiSeed_refine oob gains losses length q h2]
      exact h

theorem getRSI_refine (oob : Vec → Int → ℚ) (closes : Vec) (length : Int)
    (s : IndicatorCache) (r : Vec) (s' : IndicatorCache)
    (h : getRSI closes length s = some (r, s')) :
    getRSIU oob closes length s = some (r, s') := by
  rcases getRSI_cases _ _ _ _ _ h with ⟨hf, rfl⟩ | ⟨hf, hc, rfl⟩
  · simp only [getRSIU, hf]
  · simp only [getRSIU, hf, rsiCompute_refine oob closes length r hc, Option.map_some']

theorem rsiSeed_total (gains losses : Vec) (length : Int)
    (hlen : length < (gains.length : Int)) (hl : losses.length = gains.length) :
    ∃ p, rsiSeed gains losses length = some p := by
  unfold rsiSeed
  obtain ⟨p, hp, _⟩ := forS_total 1 (length + 1)
    (fun i (p : ℚ × ℚ) => do
      let g ← rd gains i
      let l ← rd losses i
      some (p.1 + g, p.2 + l)) (fun _ => True) (0, 0) trivial (by
      intro j p hj1 hj2 _
      obtain ⟨g, hg⟩ := rd_some gains j (by omega) (by omega)
      obtain ⟨l, hlo⟩ := rd_some losses j (by omega) (by omega)
      exact ⟨(p.1 + g, p.2 + l),
        by simp only [hg, hlo, Option.some_bind, Option.bind_eq_bind], trivial⟩)
  exact ⟨p, hp⟩

theorem getRSI_total (closes : Vec) (length : Int) (s : IndicatorCache)
    (hlen : length < (closes.length : Int)) :
    ∃ r s', getRSI closes length s = some (r, s') := by
  cases hf : mapFind s.indicator_cache ("rsi_" ++ toString length) with
  | some v => exact ⟨v, s, by simp only [getRSI, hf]⟩
  | none =>
    obtain ⟨p, hp, hg, hl⟩ := rsiChanges_total closes
    obtain ⟨ch, gains, losses⟩ := p
    simp only at hg hl
    obtain ⟨q, hq⟩ := rsiSeed_total gains losses length (by omega) (by omega)
    obtain ⟨sg, sl⟩ := q
    obtain ⟨t, ht, _⟩ := rsiSmooth_total gains losses length
      (sg / (length : ℚ), sl / (length : ℚ), zeros closes.length) (by omega)
      (by simp only [zeros_length]; omega)
    rw [hg] at ht
    obtain ⟨t1, t2, result⟩ := t
    exact ⟨result, { s with indicator_cache :=
        (mapSet s.indicator_cache ("rsi_" ++ toString length) result) },
      by simp only [getRSI, hf, rsiCompute, hp, hq, ht, Option.some_bind,
        Option.bind_eq_bind, Option.map_some']⟩

/-- C11: on a cache in which every stored series has the length `N`, each of the
eleven get operations, called with series of length `N` and any parameters, returns
a series of length `N` and leaves a cache in which every stored series again has
the length `N`. The seed loop of `getRSI`, which reads `gains[1..length]` with no
test of `length` against `N`, is taken with reads that return some value outside
the bounds too (no other access of any operation leaves the bounds); whenever
`length < N`, and for the ten other operations, the call of the checked embedding
returns the same pair, and the checked embedding never returns another pair. -/
theorem series_length_invariant (sqrt : ℚ → ℚ) (oob : Vec → Int → ℚ) (N : Nat) (c : Call)
    (s : IndicatorCache) (hs : AllLen N s) (hc : c.argsLen N) :
    ∃ r s', c.runU sqrt oob s = some (r, s') ∧ r.length = N ∧ AllLen N s' ∧
      (c.seedInBounds N → c.run sqrt s = some (r, s')) ∧
      (∀ r0 s0, c.run sqrt s = some (r0, s0) → r0 = r ∧ s0 = s') := by
  have key : ∀ (x : Option (Vec × IndicatorCache)),
      (∃ r s', x = some (r, s') ∧ r.length = N ∧ AllLen N s') →
      ∃ r s', x = some (r, s') ∧ r.length = N ∧ AllLen N s' ∧
        (True → x = some (r, s')) ∧ (∀ r0 s0, x = some (r0, s0) → r0 = r ∧ s0 = s') := by
    rintro x ⟨r, s', hx, hr, hs'⟩
    refine ⟨r, s', hx, hr, hs', fun _ => hx, ?_⟩
    intro r0 s0 h0
    rw [hx] at h0
    have := Option.some.inj h0
    exact ⟨(Prod.mk.inj this).1.symm, (Prod.mk.inj this).2.symm⟩
  cases c with
  | stochastic closes highs lows k =>
    exact key _ (getStochastic_len N closes highs lows k s hs hc.1 hc.2.1 hc.2.2)
  | rsi closes length =>
    obtain ⟨r, s', hx, hr, hs'⟩ := getRSIU_len oob N closes length s hs hc
    refine ⟨r, s', hx, hr, hs', ?_, ?_⟩
    · intro hb
      have hb2 : length < (closes.length : Int) := by
        have hc2 : closes.length = N := hc
        have hb3 : length < (N : Int) := hb
        omega
      obtain ⟨r0, s0, h0⟩ := getRSI_total closes length s hb2
      have h1 : getRSIU oob closes length s = some (r0, s0) :=
        getRSI_refine oob closes length s r0 s0 h0
      have hx2 : getRSIU oob closes length s = some (r, s') := hx
      rw [hx2] at h1
      have h2 : Call.run sqrt (Call.rsi closes length) s = some (r0, s0) := h0
      rw [h2, ← h1]
    · intro r0 s0 h0
      have h1 : getRSIU oob closes length s = some (r0, s0) :=
        getRSI_refine oob closes length s r0 s0 h0
      have hx2 : getRSIU oob closes length s = some (r, s') := hx
      rw [hx2] at h1
      have := Option.some.inj h1
      exact ⟨(Prod.mk.inj this).1.symm, (Prod.mk.inj this).2.symm⟩
  | var data length => exact key _ (getVAR_len N data length s hs hc)
  | ott data multiplier => exact key _ (getOTT_len N data multiplier s hs hc)
  | absChange data period => exact key _ (getAbsChange_len N data period s hs hc)
  | sumAbsChanges data period => exact key _ (getSumAbsChanges_len N data period s hs hc)
  | highest data period => exact key _ (getHighest_len N data period s hs hc)
  | lowest data period => exact key _ (getLowest_len N data period s hs hc)
  | atr highs lows closes period =>
    exact key _ (getATR_len N highs lows closes period s hs hc.1 hc.2.1 hc.2.2)
  | bbUpper data length multiplier =>
    exact key _ (getBBUpper_len sqrt N data length multiplier s hs hc)
  | bbLower data length multiplier =>
    exact key _ (getBBLower_len sqrt N data length multiplier s hs hc)

theorem series_length_invariant_witness :
    AllLen 3 { emptyCache with atr_cache := [(8, [0, 0, 0])] } ∧
    (Call.rsi [1, 2, 3] 8).argsLen 3 ∧
    Call.runU (fun x => x) (fun _ _ => 7) (Call.rsi [1, 2, 3] 8)
        { emptyCache with atr_cache := [(8, [0, 0, 0])] }
      = some ([0, 0, 0], { emptyCache with atr_cache := [(8, [0, 0, 0])],
                                           indicator_cache := [("rsi_8", [0, 0, 0])] }) ∧
    ∃ r s', Call.runU (fun x => x) (fun _ _ => 7) (Call.rsi [1, 2, 3] 8)
        { emptyCache with atr_cache := [(8, [0, 0, 0])] } = some (r, s') ∧
      r.length = 3 ∧ AllLen 3 s' ∧
      ((Call.rsi [1, 2, 3] 8).seedInBounds 3 →
        Call.run (fun x => x) (Call.rsi [1, 2, 3] 8)
          { emptyCache with atr_cache := [(8, [0, 0, 0])] } = some (r, s')) ∧
      (∀ r0 s0, Call.run (fun x => x) (Call.rsi [1, 2, 3] 8)
          { emptyCache with atr_cache := [(8, [0, 0, 0])] } = some (r0, s0) →
        r0 = r ∧ s0 = s') := by
  have hs : AllLen 3 { emptyCache with atr_cache := [(8, [0, 0, 0])] } := by
    unfold AllLen
    simp [emptyCache]
  exact ⟨hs, rfl, by decide!,
    series_length_invariant (fun x => x) (fun _ _ => 7) 3 (Call.rsi [1, 2, 3] 8) _ hs rfl⟩

end TSO
